import Mathlib

/-!
# switchcalc: the calculation engine

A shallow embedding of `pkg/calculator` (engine.go, programmer.go,
scientific.go, and the date arithmetic of datetime.go) together with the
properties of its specification.

Conventions of the embedding

* Go `float64` is modelled by `Float64`: NaN, the two infinities, and the
  finite values, a finite value being a sign and a natural number `k` that
  stands for `k · 2^(-1074)` (every finite binary64 value is such a multiple).
  Arithmetic is exact arithmetic followed by round-to-nearest-even.
* Go `int64` / `uint64` are `Int` / `Nat` with explicit wrapping; `int` and `uint`
  are taken to be 64 bits wide.
* Go `string` is a sequence of bytes. It is modelled by the `String` that has one
  character per byte, the character whose code is the value of the byte: `len` is
  the length of that `String`, a slice cuts characters, and the functions of
  `strconv` read it byte by byte. ASCII text is written as it is; a literal of the
  source that is not ASCII is written `utf8 "..."`, the bytes of its UTF-8 encoding.
* Library functions that Go does not specify bit for bit (`math.Pow`,
  `math.Sin`, ...) and the implementation-dependent result of converting an
  out-of-range `float64` to an integer are fields of `GoEnv`; the theorems hold
  for every `GoEnv`, and concrete runs are evaluated in `GoEnv.sample`.
* Go `time.Time` is `Time`: the instant in nanoseconds since the Unix epoch, the
  monotonic reading if there is one, and a `Location` that maps an instant to the
  zone offset in force.
-/

namespace SwitchCalc

/-! ## float64 -/

/-- The binary64 values: `fin neg k` is `(-1)^neg · k · 2^(-1074)`. -/
inductive Float64 where
  | nan : Float64
  | inf (neg : Bool) : Float64
  | fin (neg : Bool) (k : Nat) : Float64
deriving DecidableEq

namespace Float64

/-- The number of grid units (`2^(-1074)`) in 1. -/
@[irreducible] def one : Nat := 2 ^ 1074

/-- Grid value from which a rounded result overflows to infinity (`2^1024`). -/
@[irreducible] def huge : Nat := 2 ^ 2098

/-- Nearest natural number to `p / q`, ties to even. -/
def roundHalfEven (p q : Nat) : Nat :=
  let d := p / q
  let r := p % q
  if 2 * r < q then d
  else if q < 2 * r then d + 1
  else if d % 2 = 0 then d else d + 1

/-- The number of binary digits of `n`, by at most `fuel` halvings. -/
def bitLenAux : Nat → Nat → Nat
  | 0, _ => 0
  | fuel + 1, n => if n = 0 then 0 else bitLenAux fuel (n / 2) + 1

/-- The number of binary digits of `n` (0 for 0). -/
def bitLen (n : Nat) : Nat := bitLenAux n n

/-- Round the non-negative rational `p / q` (in grid units) to binary64:
53 significant bits, nearest, ties to even, overflow to infinity. -/
def roundGrid (neg : Bool) (p q : Nat) : Float64 :=
  let s := bitLen (p / q) - 53
  let k := roundHalfEven p (q * 2 ^ s) * 2 ^ s
  if huge ≤ k then inf neg else fin neg k

/-- A grid value that binary64 holds exactly: at most 53 significant bits, below `2^1024`. -/
def Exact (k : Nat) : Prop := 2 ^ (bitLen k - 53) ∣ k ∧ k < huge

/-- Round a signed number of grid units; `negZero` is the sign of a zero result. -/
def ofGridInt (z : Int) (negZero : Bool) : Float64 :=
  if z = 0 then fin negZero 0 else roundGrid (decide (z < 0)) z.natAbs 1

/-- Signed number of grid units of a finite value. -/
def gridInt (neg : Bool) (k : Nat) : Int := if neg then -(k : Int) else (k : Int)

def zero : Float64 := fin false 0

/-- Go `x + y`. -/
def add : Float64 → Float64 → Float64
  | nan, _ => nan
  | _, nan => nan
  | inf a, inf b => if a = b then inf a else nan
  | inf a, fin _ _ => inf a
  | fin _ _, inf b => inf b
  | fin a ka, fin b kb => ofGridInt (gridInt a ka + gridInt b kb) (a && b)

/-- Go unary `-x`. -/
def neg : Float64 → Float64
  | nan => nan
  | inf a => inf (!a)
  | fin a k => fin (!a) k

/-- Go `x - y`. -/
def sub (x y : Float64) : Float64 := add x (neg y)

/-- Go `x * y`. -/
def mul : Float64 → Float64 → Float64
  | nan, _ => nan
  | _, nan => nan
  | inf a, inf b => inf (xor a b)
  | inf a, fin b kb => if kb = 0 then nan else inf (xor a b)
  | fin a ka, inf b => if ka = 0 then nan else inf (xor a b)
  | fin a ka, fin b kb => roundGrid (xor a b) (ka * kb) one

/-- Go `x / y`. -/
def div : Float64 → Float64 → Float64
  | nan, _ => nan
  | _, nan => nan
  | inf _, inf _ => nan
  | inf a, fin b _ => inf (xor a b)
  | fin a _, inf b => fin (xor a b) 0
  | fin a ka, fin b kb =>
    if kb = 0 then (if ka = 0 then nan else inf (xor a b))
    else roundGrid (xor a b) (ka * one) kb

/-- Go `math.Mod(x, y)`: the remainder has the sign of `x` and is exact. -/
def mod : Float64 → Float64 → Float64
  | nan, _ => nan
  | _, nan => nan
  | inf _, _ => nan
  | fin a ka, inf _ => fin a ka
  | fin a ka, fin _ kb => if kb = 0 then nan else fin a (ka % kb)

/-- Go `math.Abs(x)`. -/
def abs : Float64 → Float64
  | nan => nan
  | inf _ => inf false
  | fin _ k => fin false k

/-- Go `x == y`. -/
def eq : Float64 → Float64 → Bool
  | fin a ka, fin b kb => (ka = 0 && kb = 0) || (a = b && ka = kb)
  | inf a, inf b => a = b
  | _, _ => false

/-- Go `x != y`. -/
def ne (x y : Float64) : Bool := !(eq x y)

/-- Go `x < y`. -/
def lt : Float64 → Float64 → Bool
  | nan, _ => false
  | _, nan => false
  | inf a, inf b => a && !b
  | inf a, fin _ _ => a
  | fin _ _, inf b => !b
  | fin a ka, fin b kb => decide (gridInt a ka < gridInt b kb)

/-- Go `x <= y`. -/
def le (x y : Float64) : Bool := lt x y || eq x y

/-- Go `float64(n)` for an integer `n` (signed or unsigned). -/
def ofInt (n : Int) : Float64 := ofGridInt (n * one) false

/-- The integer part (truncation toward zero) of a finite value. -/
def trunc (neg : Bool) (k : Nat) : Int := gridInt neg (k / one)

end Float64

/-! ## machine integers -/

/-- Reduce an integer to the `int64` range (two's complement wrap-around). -/
def wrapInt64 (z : Int) : Int := (z + 2 ^ 63) % 2 ^ 64 - 2 ^ 63

/-- Reduce an integer to the `uint64` range. -/
def wrapUint64 (z : Int) : Nat := (z % 2 ^ 64).toNat

/-- What Go leaves open: the library functions whose results are not specified
bit for bit, and the implementation-dependent result of converting a
`float64` that the integer type cannot represent. -/
structure GoEnv where
  int64Indef : Float64 → Int
  uint64Indef : Float64 → Int
  Pow : Float64 → Float64 → Float64
  Sin : Float64 → Float64
  Cos : Float64 → Float64
  Tan : Float64 → Float64
  Asin : Float64 → Float64
  Acos : Float64 → Float64
  Atan : Float64 → Float64
  Sinh : Float64 → Float64
  Cosh : Float64 → Float64
  Tanh : Float64 → Float64
  Asinh : Float64 → Float64
  Acosh : Float64 → Float64
  Atanh : Float64 → Float64
  Log10 : Float64 → Float64
  Log : Float64 → Float64
  Log2 : Float64 → Float64
  Exp : Float64 → Float64
  Sqrt : Float64 → Float64
  Cbrt : Float64 → Float64
  Floor : Float64 → Float64
  Ceil : Float64 → Float64
  Round : Float64 → Float64

/-- Go `int64(x)` for a `float64` `x`: truncation toward zero when the result
fits, otherwise whatever the implementation gives. -/
def toInt64 (rt : GoEnv) : Float64 → Int
  | Float64.fin neg k =>
    let t := Float64.trunc neg k
    if -(2 ^ 63) ≤ t ∧ t < 2 ^ 63 then t else wrapInt64 (rt.int64Indef (Float64.fin neg k))
  | x => wrapInt64 (rt.int64Indef x)

/-- Go `uint64(x)` for a `float64` `x`. -/
def toUint64 (rt : GoEnv) : Float64 → Nat
  | Float64.fin neg k =>
    let t := Float64.trunc neg k
    if 0 ≤ t ∧ t < 2 ^ 64 then t.toNat else wrapUint64 (rt.uint64Indef (Float64.fin neg k))
  | x => wrapUint64 (rt.uint64Indef x)

/-! ## strings -/

/-- The UTF-8 encoding of a code point, one character per byte. -/
def utf8Char (c : Char) : List Char :=
  let n := c.toNat
  if n < 0x80 then [c]
  else if n < 0x800 then [Char.ofNat (0xC0 + n / 64), Char.ofNat (0x80 + n % 64)]
  else if n < 0x10000 then
    [Char.ofNat (0xE0 + n / 4096), Char.ofNat (0x80 + n / 64 % 64), Char.ofNat (0x80 + n % 64)]
  else
    [Char.ofNat (0xF0 + n / 262144), Char.ofNat (0x80 + n / 4096 % 64),
     Char.ofNat (0x80 + n / 64 % 64), Char.ofNat (0x80 + n % 64)]

/-- The Go string a source literal denotes: the bytes of its UTF-8 encoding, one
character per byte.  An ASCII literal denotes itself. -/
def utf8 (s : String) : String := String.mk (s.data.flatMap utf8Char)

/-- Go `len(s)`: the number of bytes of `s`. -/
abbrev len (s : String) : Nat := s.length

/-- Go `s[:len(s)-1]`: `s` without its last byte. -/
abbrev dropLastByte (s : String) : String := String.mk s.data.dropLast

/-! ## strconv and fmt -/

/-- Go `lower(c)` of strconv: `c | ('x' - 'X')`. -/
def lower (c : Char) : Nat := c.toNat ||| 0x20

/-- The test `'0' <= c && c <= '9'`. -/
def isDecDigit (c : Char) : Bool := decide ('0'.toNat ≤ c.toNat ∧ c.toNat ≤ '9'.toNat)

/-- The test `'a' <= lower(c) && lower(c) <= hi`. -/
def isLetterUpTo (hi : Char) (c : Char) : Bool :=
  decide ('a'.toNat ≤ lower c ∧ lower c ≤ hi.toNat)

/-- The digit `"0123456789abcdefghijklmnopqrstuvwxyz"[d]`. -/
def digitChar (d : Nat) : Char :=
  if d < 10 then Char.ofNat ('0'.toNat + d) else Char.ofNat ('a'.toNat + (d - 10))

/-- The loop of `formatBits`: the digits of `u` in front of `acc`. -/
def formatDigits (base : Nat) : Nat → Nat → List Char → List Char
  | 0, u, acc => digitChar u :: acc
  | fuel + 1, u, acc =>
    if base ≤ u then formatDigits base fuel (u / base) (digitChar (u % base) :: acc)
    else digitChar u :: acc

/-- Go `strconv.FormatInt(n, base)` for an `int64` `n` and `2 <= base <= 36`. -/
def FormatInt (n : Int) (base : Nat) : String :=
  let ds := formatDigits base 64 n.natAbs []
  String.mk (if n < 0 then '-' :: ds else ds)

/-- Go `strings.ToUpper` on the ASCII strings `FormatInt` produces. -/
def ToUpper (s : String) : String := String.mk (s.data.map Char.toUpper)

/-- The value `ParseUint` gives a digit or letter: `c - '0'` or `lower(c) - 'a' + 10`. -/
def digitVal (c : Char) : Nat :=
  if isDecDigit c then c.toNat - '0'.toNat else lower c - 'a'.toNat + 10

/-- The two errors of `strconv`. -/
inductive NumError where
  | ErrSyntax : NumError
  | ErrRange : NumError
deriving DecidableEq

/-- The digit loop of `strconv.ParseUint(s, base, 64)` from the accumulator `n`. -/
def parseUintLoop (base : Nat) : List Char → Nat → Nat × Option NumError
  | [], n => (n, none)
  | c :: cs, n =>
    if isDecDigit c ∨ isLetterUpTo 'z' c then
      let d := digitVal c
      if base ≤ d then (0, some NumError.ErrSyntax)
      else if (2 ^ 64 - 1) / base + 1 ≤ n then (2 ^ 64 - 1, some NumError.ErrRange)
      else if 2 ^ 64 - 1 < n * base + d then (2 ^ 64 - 1, some NumError.ErrRange)
      else parseUintLoop base cs (n * base + d)
    else (0, some NumError.ErrSyntax)

/-- Go `strconv.ParseUint(s, base, 64)` for `2 <= base <= 36`. -/
def ParseUint (s : List Char) (base : Nat) : Nat × Option NumError :=
  match s with
  | [] => (0, some NumError.ErrSyntax)
  | cs => parseUintLoop base cs 0

/-- Go `strconv.ParseInt(s, base, 64)` for `2 <= base <= 36`. -/
def ParseInt (s : String) (base : Nat) : Int × Option NumError :=
  match s.data with
  | [] => (0, some NumError.ErrSyntax)
  | c :: cs =>
    let neg := decide (c = '-')
    let body := if c = '+' ∨ c = '-' then cs else c :: cs
    match ParseUint body base with
    | (_, some NumError.ErrSyntax) => (0, some NumError.ErrSyntax)
    | (un, _) =>
      if ¬ neg ∧ 2 ^ 63 ≤ un then (2 ^ 63 - 1, some NumError.ErrRange)
      else if neg ∧ 2 ^ 63 < un then (-(2 ^ 63), some NumError.ErrRange)
      else (if neg then -(un : Int) else (un : Int), none)

/-- ASCII lower case of `A`..`Z`, as `commonPrefixLenIgnoreCase` applies it. -/
def lowerAZ (c : Char) : Char :=
  if 'A'.toNat ≤ c.toNat ∧ c.toNat ≤ 'Z'.toNat then Char.ofNat (c.toNat + 32) else c

/-- Go `special` of strconv, for a whole string: `inf`, `infinity` (optionally
signed) and `nan`, in any case. -/
def special (s : List Char) : Option Float64 :=
  let l := s.map lowerAZ
  if l = "inf".data ∨ l = "infinity".data ∨ l = "+inf".data ∨ l = "+infinity".data then
    some (Float64.inf false)
  else if l = "-inf".data ∨ l = "-infinity".data then some (Float64.inf true)
  else if l = "nan".data then some Float64.nan
  else none

/-- The state of the mantissa loop of `readFloat`: the digits read so far as a
number, how many of them follow the point, and the three flags. -/
structure Mantissa where
  n : Nat
  frac : Nat
  sawdot : Bool
  sawdigits : Bool
  underscores : Bool

/-- One more digit `d` in base `base`. -/
def Mantissa.push (st : Mantissa) (base d : Nat) : Mantissa :=
  { st with n := st.n * base + d, sawdigits := true,
            frac := if st.sawdot then st.frac + 1 else st.frac }

/-- The mantissa loop of `readFloat`; returns the state and the unread rest. -/
def readMantissa (base : Nat) : List Char → Mantissa → Mantissa × List Char
  | [], st => (st, [])
  | c :: cs, st =>
    if c = '_' then readMantissa base cs { st with underscores := true }
    else if c = '.' then
      if st.sawdot then (st, c :: cs) else readMantissa base cs { st with sawdot := true }
    else if isDecDigit c then readMantissa base cs (st.push base (c.toNat - '0'.toNat))
    else if base = 16 ∧ isLetterUpTo 'f' c then
      readMantissa base cs (st.push base (lower c - 'a'.toNat + 10))
    else (st, c :: cs)

/-- The exponent digit loop of `readFloat` (`if e < 10000 { e = e*10 + digit }`);
returns the exponent, whether an underscore was seen, and the unread rest. -/
def readExpDigits : List Char → Nat → Bool → Nat × Bool × List Char
  | [], e, u => (e, u, [])
  | c :: cs, e, u =>
    if c = '_' then readExpDigits cs e true
    else if isDecDigit c then
      readExpDigits cs (if e < 10000 then e * 10 + (c.toNat - '0'.toNat) else e) u
    else (e, u, c :: cs)

/-- The loop of `underscoreOK` after the sign and the base marker; `saw` is the class
of the previous character (`'0'` digit, `'_'` underscore, `'!'` other, `'^'` start). -/
def underscoreLoop (hex : Bool) : List Char → Char → Bool
  | [], saw => saw ≠ '_'
  | c :: cs, saw =>
    if isDecDigit c ∨ (hex ∧ isLetterUpTo 'f' c) then underscoreLoop hex cs '0'
    else if c = '_' then (if saw ≠ '0' then false else underscoreLoop hex cs '_')
    else if saw = '_' then false
    else underscoreLoop hex cs '!'

/-- Go `underscoreOK` of strconv. -/
def underscoreOK (s : List Char) : Bool :=
  let s1 := match s with
    | c :: cs => if c = '-' ∨ c = '+' then cs else c :: cs
    | [] => []
  match s1 with
  | c0 :: c1 :: cs =>
    if c0 = '0' ∧ (lower c1 = 'b'.toNat ∨ lower c1 = 'o'.toNat ∨ lower c1 = 'x'.toNat) then
      underscoreLoop (lower c1 = 'x'.toNat) cs '0'
    else underscoreLoop false (c0 :: c1 :: cs) '^'
  | cs => underscoreLoop false cs '^'

/-- The value `± n · b^e` (`b` is 10, or 2 for a hexadecimal mantissa) rounded
to binary64; an overflow is reported as `ErrRange` with an infinite result. -/
def floatOfDigits (neg : Bool) (n : Nat) (b : Nat) (e : Int) : Float64 × Option NumError :=
  let f := if 0 ≤ e then Float64.roundGrid neg (n * b ^ e.toNat * Float64.one) 1
           else Float64.roundGrid neg (n * Float64.one) (b ^ (-e).toNat)
  match f with
  | Float64.inf _ => (f, some NumError.ErrRange)
  | _ => (f, none)

/-- Go `readFloat` followed by the conversion, for a whole string that is not
one of the special values: sign, optional `0x`, mantissa, exponent. -/
def parseNumber (s : List Char) : Float64 × Option NumError :=
  let bad : Float64 × Option NumError := (Float64.zero, some NumError.ErrSyntax)
  let neg := match s with
    | c :: _ => decide (c = '-')
    | [] => false
  let s1 := match s with
    | c :: cs => if c = '+' ∨ c = '-' then cs else c :: cs
    | [] => []
  let hex := match s1 with
    | c0 :: c1 :: _ :: _ => decide (c0 = '0' ∧ lower c1 = 'x'.toNat)
    | _ => false
  let base := if hex then 16 else 10
  let (m, rest) := readMantissa base (if hex then s1.drop 2 else s1) ⟨0, 0, false, false, false⟩
  if ¬ m.sawdigits then bad
  else
    let expChar := if hex then 'p' else 'e'
    let frac : Int := if hex then 4 * (m.frac : Int) else (m.frac : Int)
    let finish (e : Int) (u : Bool) (rest : List Char) : Float64 × Option NumError :=
      if u ∧ ¬ underscoreOK s then bad
      else if rest ≠ [] then bad
      else floatOfDigits neg m.n (if hex then 2 else 10) (e - frac)
    match rest with
    | c :: cs =>
      if lower c = expChar.toNat then
        let esign : Int := match cs with
          | d :: _ => if d = '-' then -1 else 1
          | [] => 1
        let ds := match cs with
          | d :: r => if d = '+' ∨ d = '-' then r else d :: r
          | [] => []
        match ds with
        | d :: _ =>
          if isDecDigit d then
            let (e, u, rest2) := readExpDigits ds 0 m.underscores
            finish (esign * (e : Int)) u rest2
          else bad
        | [] => bad
      else if hex then bad
      else finish 0 m.underscores (c :: cs)
    | [] => if hex then bad else finish 0 m.underscores []

/-- Go `strconv.ParseFloat(s, 64)`: the nearest binary64 (ties to even); `0`
with `ErrSyntax` for a malformed string, `±Inf` with `ErrRange` on overflow. -/
def ParseFloat (s : String) : Float64 × Option NumError :=
  match special s.data with
  | some f => (f, none)
  | none => parseNumber s.data

/-- Go `strings.TrimRight(s, cutset)` for a one-character cutset. -/
def TrimRight (s : List Char) (c : Char) : List Char :=
  (s.reverse.dropWhile (fun x => x = c)).reverse

/-- The decimal digits of `n`, padded with zeros on the left to `width`. -/
def padDigits (width n : Nat) : List Char :=
  let ds := formatDigits 10 width n []
  List.replicate (width - ds.length) '0' ++ ds

/-- Go `fmt.Sprintf("%.10f", x)`. -/
def fmtFixed10 : Float64 → List Char
  | Float64.nan => "NaN".data
  | Float64.inf neg => if neg then "-Inf".data else "+Inf".data
  | Float64.fin neg k =>
    let n := Float64.roundHalfEven (k * 10 ^ 10) Float64.one
    let body := formatDigits 10 400 (n / 10 ^ 10) [] ++ '.' :: padDigits 10 (n % 10 ^ 10)
    if neg then '-' :: body else body

/-! ## engine.go -/

/-- Go `type Operation int`. -/
abbrev Operation := Int

def OpNone : Operation := 0
def OpAdd : Operation := 1
def OpSubtract : Operation := 2
def OpMultiply : Operation := 3
def OpDivide : Operation := 4
def OpModulo : Operation := 5
def OpPower : Operation := 6

/-- Go `type AngleMode int`. -/
abbrev AngleMode := Int

def Degrees : AngleMode := 0
def Radians : AngleMode := 1
def Gradians : AngleMode := 2

/-- Go `type NumberBase int`. -/
abbrev NumberBase := Int

def Decimal : NumberBase := 0
def Binary : NumberBase := 1
def Octal : NumberBase := 2
def Hexadecimal : NumberBase := 3

/-- The engine state.  `Display` and the entries of `History` are Go strings: their
bytes, one character per byte. -/
structure Engine where
  Display : String
  CurrentValue : Float64
  StoredValue : Float64
  PendingOp : Operation
  NewInput : Bool
  Memory : Float64
  History : List String
  AngleMode : AngleMode
  NumberBase : NumberBase
deriving DecidableEq

/-- Go `NewEngine()`; the fields not listed there have their zero value. -/
def NewEngine : Engine :=
  { Display := "0", CurrentValue := Float64.zero, StoredValue := Float64.zero,
    PendingOp := OpNone, NewInput := true, Memory := Float64.zero, History := [],
    AngleMode := Degrees, NumberBase := Decimal }

namespace Engine

def Clear (e : Engine) : Engine :=
  { e with Display := "0", CurrentValue := Float64.zero, StoredValue := Float64.zero,
           PendingOp := OpNone, NewInput := true }

def ClearEntry (e : Engine) : Engine :=
  { e with Display := "0", CurrentValue := Float64.zero, NewInput := true }

def InputDigit (e : Engine) (digit : String) : Engine :=
  let e1 : Engine :=
    if e.NewInput then { e with Display := digit, NewInput := false }
    else if e.Display = "0" ∧ digit ≠ "." then { e with Display := digit }
    else { e with Display := e.Display ++ digit }
  { e1 with CurrentValue := (ParseFloat e1.Display).1 }

def InputDecimal (e : Engine) : Engine :=
  if e.NewInput then { e with Display := "0.", NewInput := false }
  else if ¬ e.Display.data.contains '.' then { e with Display := e.Display ++ "." }
  else e

def InputExponent (e : Engine) : Engine :=
  if e.NewInput then { e with Display := "1e", NewInput := false }
  else if ¬ (e.Display.data.map Char.toLower).contains 'e' then
    { e with Display := e.Display ++ "e" }
  else e

def InputHexDigit (e : Engine) (digit : String) : Engine :=
  if e.NumberBase ≠ Hexadecimal then e
  else
    let e1 : Engine :=
      if e.NewInput then { e with Display := digit, NewInput := false }
      else if e.Display = "0" then { e with Display := digit }
      else { e with Display := e.Display ++ digit }
    { e1 with CurrentValue := Float64.ofInt (ParseInt e1.Display 16).1 }

def opSymbol (op : Operation) : String :=
  if op = OpAdd then "+"
  else if op = OpSubtract then utf8 "−"
  else if op = OpMultiply then utf8 "×"
  else if op = OpDivide then utf8 "÷"
  else if op = OpModulo then "mod"
  else if op = OpPower then "^"
  else ""

def FormatInBase (e : Engine) (n : Int) : String :=
  if e.NumberBase = Binary then FormatInt n 2
  else if e.NumberBase = Octal then FormatInt n 8
  else if e.NumberBase = Hexadecimal then ToUpper (FormatInt n 16)
  else FormatInt n 10

def ParseCurrentBase (e : Engine) (s : String) : Int × Option NumError :=
  if e.NumberBase = Binary then ParseInt s 2
  else if e.NumberBase = Octal then ParseInt s 8
  else if e.NumberBase = Hexadecimal then ParseInt s 16
  else ParseInt s 10

def formatNumber (rt : GoEnv) (e : Engine) (n : Float64) : String :=
  if e.NumberBase ≠ Decimal then e.FormatInBase (toInt64 rt n)
  else if Float64.eq n (Float64.ofInt (toInt64 rt n)) then FormatInt (toInt64 rt n) 10
  else String.mk (TrimRight (TrimRight (fmtFixed10 n) '0') '.')

/-- The tail of `Calculate` after the `switch`: history entry, eviction, result. -/
def finishCalculate (rt : GoEnv) (e : Engine) (result : Float64) : Engine × Float64 :=
  let historyEntry := e.formatNumber rt e.StoredValue ++ " " ++ opSymbol e.PendingOp ++ " " ++
    e.formatNumber rt e.CurrentValue ++ " = " ++ e.formatNumber rt result
  let h := e.History ++ [historyEntry]
  let h := if 50 < h.length then h.drop 1 else h
  ({ e with History := h, CurrentValue := result, Display := e.formatNumber rt result,
            PendingOp := OpNone, NewInput := true }, result)

/-- Go `Calculate`: the new state and the returned value. -/
def Calculate (rt : GoEnv) (e : Engine) : Engine × Float64 :=
  if e.PendingOp = OpNone then (e, e.CurrentValue)
  else if e.PendingOp = OpAdd then
    finishCalculate rt e (Float64.add e.StoredValue e.CurrentValue)
  else if e.PendingOp = OpSubtract then
    finishCalculate rt e (Float64.sub e.StoredValue e.CurrentValue)
  else if e.PendingOp = OpMultiply then
    finishCalculate rt e (Float64.mul e.StoredValue e.CurrentValue)
  else if e.PendingOp = OpDivide then
    if Float64.ne e.CurrentValue Float64.zero then
      finishCalculate rt e (Float64.div e.StoredValue e.CurrentValue)
    else ({ e with Display := "Error", NewInput := true }, Float64.zero)
  else if e.PendingOp = OpModulo then
    if Float64.ne e.CurrentValue Float64.zero then
      finishCalculate rt e (Float64.mod e.StoredValue e.CurrentValue)
    else ({ e with Display := "Error", NewInput := true }, Float64.zero)
  else if e.PendingOp = OpPower then
    finishCalculate rt e (rt.Pow e.StoredValue e.CurrentValue)
  else finishCalculate rt e Float64.zero

def SetOperation (rt : GoEnv) (e : Engine) (op : Operation) : Engine :=
  let e1 := if e.PendingOp ≠ OpNone ∧ ¬ e.NewInput then (e.Calculate rt).1 else e
  { e1 with StoredValue := e1.CurrentValue, PendingOp := op, NewInput := true }

def Negate (rt : GoEnv) (e : Engine) : Engine :=
  let v := Float64.neg e.CurrentValue
  { e with CurrentValue := v, Display := e.formatNumber rt v }

def Percent (rt : GoEnv) (e : Engine) : Engine :=
  let v := if e.PendingOp = OpAdd ∨ e.PendingOp = OpSubtract then
      Float64.mul e.StoredValue (Float64.div e.CurrentValue (Float64.ofInt 100))
    else Float64.div e.CurrentValue (Float64.ofInt 100)
  { e with CurrentValue := v, Display := e.formatNumber rt v }

def MemoryClear (e : Engine) : Engine := { e with Memory := Float64.zero }

def MemoryRecall (rt : GoEnv) (e : Engine) : Engine :=
  { e with CurrentValue := e.Memory, Display := e.formatNumber rt e.Memory, NewInput := true }

def MemoryAdd (e : Engine) : Engine := { e with Memory := Float64.add e.Memory e.CurrentValue }

def MemorySubtract (e : Engine) : Engine :=
  { e with Memory := Float64.sub e.Memory e.CurrentValue }

def MemoryStore (e : Engine) : Engine := { e with Memory := e.CurrentValue }

/-- Go `Backspace`: the test is on the number of bytes of the display, and the slice
`e.Display[:len(e.Display)-1]` drops its last byte, which may be one byte of a longer
UTF-8 sequence. -/
def Backspace (e : Engine) : Engine :=
  if 1 < len e.Display then
    let d := dropLastByte e.Display
    { e with Display := d, CurrentValue := (ParseFloat d).1 }
  else { e with Display := "0", CurrentValue := Float64.zero }

def SetNumberBase (rt : GoEnv) (e : Engine) (base : SwitchCalc.NumberBase) : Engine :=
  let intVal := toInt64 rt e.CurrentValue
  let e1 := { e with NumberBase := base }
  { e1 with Display := e1.FormatInBase intVal }

end Engine

/-! ## programmer.go -/

/-- Go `type BitWidth int`. -/
abbrev BitWidth := Int

def Bits8 : BitWidth := 8
def Bits16 : BitWidth := 16
def Bits32 : BitWidth := 32
def Bits64 : BitWidth := 64

/-- Go `x << n` on `uint64` (a count of 64 or more gives 0). -/
def shl64 (x n : Nat) : Nat := if 64 ≤ n then 0 else (x * 2 ^ n) % 2 ^ 64

/-- Go `x >> n` on `uint64` (a count of 64 or more gives 0). -/
def shr64 (x n : Nat) : Nat := if 64 ≤ n then 0 else x / 2 ^ n

/-- Go `x << n` on `int64`. -/
def shlInt64 (x : Int) (n : Nat) : Int := if 64 ≤ n then 0 else wrapInt64 (x * 2 ^ n)

/-- Go `x >> n` on `int64` (arithmetic: the sign bit is copied in). -/
def shrInt64 (x : Int) (n : Nat) : Int :=
  if 64 ≤ n then (if x < 0 then -1 else 0) else x / 2 ^ n

/-- Go `x & y` on `int64`. -/
def andInt64 (x y : Int) : Int := wrapInt64 ((wrapUint64 x &&& wrapUint64 y : Nat) : Int)

/-- Go `x | y` on `int64`. -/
def orInt64 (x y : Int) : Int := wrapInt64 ((wrapUint64 x ||| wrapUint64 y : Nat) : Int)

/-- Go `x ^ y` on `int64`. -/
def xorInt64 (x y : Int) : Int := wrapInt64 ((wrapUint64 x ^^^ wrapUint64 y : Nat) : Int)

/-- Go `^x` on `int64`. -/
def notInt64 (x : Int) : Int := -x - 1

/-- Go `uint64((1 << width) - 1)` for `width >= 0`. -/
def maskU (width : BitWidth) : Nat := wrapUint64 ((shl64 1 width.toNat : Int) - 1)

/-- Go `int64((1 << width) - 1)` for `width >= 0`. -/
def maskI (width : BitWidth) : Int := wrapInt64 (shlInt64 1 width.toNat - 1)

namespace Engine

/-- The common end of the bit operations that produce an `int64`. -/
def putInt64 (e : Engine) (result : Int) : Engine :=
  { e with CurrentValue := Float64.ofInt result, Display := e.FormatInBase result,
           NewInput := true }

/-- The common end of the bit operations that produce a `uint64`. -/
def putUint64 (e : Engine) (result : Nat) : Engine :=
  { e with CurrentValue := Float64.ofInt result, Display := e.FormatInBase (wrapInt64 result),
           NewInput := true }

def And (rt : GoEnv) (e : Engine) (other : Int) : Engine :=
  e.putInt64 (andInt64 (toInt64 rt e.CurrentValue) other)

def Or (rt : GoEnv) (e : Engine) (other : Int) : Engine :=
  e.putInt64 (orInt64 (toInt64 rt e.CurrentValue) other)

def Xor (rt : GoEnv) (e : Engine) (other : Int) : Engine :=
  e.putInt64 (xorInt64 (toInt64 rt e.CurrentValue) other)

def Not (rt : GoEnv) (e : Engine) : Engine :=
  e.putInt64 (notInt64 (toInt64 rt e.CurrentValue))

def Nand (rt : GoEnv) (e : Engine) (other : Int) : Engine :=
  e.putInt64 (notInt64 (andInt64 (toInt64 rt e.CurrentValue) other))

def Nor (rt : GoEnv) (e : Engine) (other : Int) : Engine :=
  e.putInt64 (notInt64 (orInt64 (toInt64 rt e.CurrentValue) other))

def LeftShift (rt : GoEnv) (e : Engine) (bits : Nat) : Engine :=
  e.putInt64 (shlInt64 (toInt64 rt e.CurrentValue) bits)

def RightShift (rt : GoEnv) (e : Engine) (bits : Nat) : Engine :=
  e.putInt64 (shrInt64 (toInt64 rt e.CurrentValue) bits)

/-- Go `RotateLeft`; `none` is the run-time panic (negative shift count for a
negative width, division by zero for width 0). -/
def RotateLeft (rt : GoEnv) (e : Engine) (bits : Nat) (width : BitWidth) : Option Engine :=
  if width ≤ 0 then none
  else
    let mask := maskU width
    let val := toUint64 rt e.CurrentValue &&& mask
    let bits := bits % wrapUint64 width
    let result := (shl64 val bits ||| shr64 val (wrapUint64 width - bits)) &&& mask
    some (e.putUint64 result)

/-- Go `RotateRight`; `none` is the run-time panic, as for `RotateLeft`. -/
def RotateRight (rt : GoEnv) (e : Engine) (bits : Nat) (width : BitWidth) : Option Engine :=
  if width ≤ 0 then none
  else
    let mask := maskU width
    let val := toUint64 rt e.CurrentValue &&& mask
    let bits := bits % wrapUint64 width
    let result := (shr64 val bits ||| shl64 val (wrapUint64 width - bits)) &&& mask
    some (e.putUint64 result)

def GetBit (rt : GoEnv) (e : Engine) (position : Nat) : Int :=
  andInt64 (shrInt64 (toInt64 rt e.CurrentValue) position) 1

def SetBit (rt : GoEnv) (e : Engine) (position : Nat) : Engine :=
  e.putInt64 (orInt64 (toInt64 rt e.CurrentValue) (shlInt64 1 position))

def ClearBit (rt : GoEnv) (e : Engine) (position : Nat) : Engine :=
  e.putInt64 (andInt64 (toInt64 rt e.CurrentValue) (notInt64 (shlInt64 1 position)))

def ToggleBit (rt : GoEnv) (e : Engine) (position : Nat) : Engine :=
  e.putInt64 (xorInt64 (toInt64 rt e.CurrentValue) (shlInt64 1 position))

/-- The loop of `CountBits`, with `fuel` iterations at most. -/
def countBitsLoop : Nat → Nat → Nat → Nat
  | 0, _, count => count
  | fuel + 1, val, count =>
    if val ≠ 0 then countBitsLoop fuel (shr64 val 1) (count + (val &&& 1)) else count

def CountBits (rt : GoEnv) (e : Engine) : Engine :=
  e.putInt64 (countBitsLoop 64 (toUint64 rt e.CurrentValue) 0)

/-- The loop of `LeadingZeros`: `n` is `i + 1`. -/
def leadingZerosLoop (val : Nat) : Nat → Nat → Nat
  | 0, count => count
  | i + 1, count => if shr64 val i &&& 1 = 0 then leadingZerosLoop val i (count + 1) else count

/-- Go `LeadingZeros`; `none` is the panic of a negative shift count. -/
def LeadingZeros (rt : GoEnv) (e : Engine) (width : BitWidth) : Option Engine :=
  if width < 0 then none
  else
    let val := toUint64 rt e.CurrentValue &&& maskU width
    some (e.putInt64 (leadingZerosLoop val width.toNat 0))

/-- The loop of `TrailingZeros`, with `fuel` iterations at most. -/
def trailingZerosLoop : Nat → Nat → Nat → Nat
  | 0, _, count => count
  | fuel + 1, val, count =>
    if val &&& 1 = 0 then trailingZerosLoop fuel (shr64 val 1) (count + 1) else count

def TrailingZeros (rt : GoEnv) (e : Engine) : Engine :=
  let val := toUint64 rt e.CurrentValue
  if val = 0 then
    { e with CurrentValue := Float64.ofInt 64, Display := e.FormatInBase 64, NewInput := true }
  else e.putInt64 (trailingZerosLoop 64 val 0)

def ByteSwap (rt : GoEnv) (e : Engine) (width : BitWidth) : Engine :=
  let val := toUint64 rt e.CurrentValue
  let result :=
    if width = Bits16 then shl64 (val &&& 0xFF) 8 ||| shr64 (val &&& 0xFF00) 8
    else if width = Bits32 then
      shl64 (val &&& 0xFF) 24 ||| shl64 (val &&& 0xFF00) 8 |||
      shr64 (val &&& 0xFF0000) 8 ||| shr64 (val &&& 0xFF000000) 24
    else if width = Bits64 then
      shl64 (val &&& 0xFF) 56 ||| shl64 (val &&& 0xFF00) 40 |||
      shl64 (val &&& 0xFF0000) 24 ||| shl64 (val &&& 0xFF000000) 8 |||
      shr64 (val &&& 0xFF00000000) 8 ||| shr64 (val &&& 0xFF0000000000) 24 |||
      shr64 (val &&& 0xFF000000000000) 40 ||| shr64 (val &&& 0xFF00000000000000) 56
    else val
  e.putUint64 result

/-- Go `TwosComplement`; `none` is the panic of a negative shift count. -/
def TwosComplement (rt : GoEnv) (e : Engine) (width : BitWidth) : Option Engine :=
  if width < 0 then none
  else
    let val := toInt64 rt e.CurrentValue
    some (e.putInt64 (andInt64 (wrapInt64 (notInt64 val + 1)) (maskI width)))

end Engine

/-- Go `type BitwiseOperation int`. -/
abbrev BitwiseOperation := Int

def BitOpAnd : BitwiseOperation := 0
def BitOpOr : BitwiseOperation := 1
def BitOpXor : BitwiseOperation := 2
def BitOpNand : BitwiseOperation := 3
def BitOpNor : BitwiseOperation := 4
def BitOpLeftShift : BitwiseOperation := 5
def BitOpRightShift : BitwiseOperation := 6

namespace Engine

def SetBitwiseOperation (rt : GoEnv) (e : Engine) (op : BitwiseOperation) : Engine :=
  let e1 := if e.PendingOp ≠ OpNone ∧ ¬ e.NewInput then (e.Calculate rt).1 else e
  { e1 with StoredValue := e1.CurrentValue, PendingOp := wrapInt64 (100 + op), NewInput := true }

/-- Go `CalculateBitwise`: the new state and the returned value. -/
def CalculateBitwise (rt : GoEnv) (e : Engine) : Engine × Int :=
  let op : BitwiseOperation := wrapInt64 (e.PendingOp - 100)
  let stored := toInt64 rt e.StoredValue
  let current := toInt64 rt e.CurrentValue
  let done (result : Int) : Engine × Int :=
    ({ e with CurrentValue := Float64.ofInt result, Display := e.FormatInBase result,
              PendingOp := OpNone, NewInput := true }, result)
  if op = BitOpAnd then done (andInt64 stored current)
  else if op = BitOpOr then done (orInt64 stored current)
  else if op = BitOpXor then done (xorInt64 stored current)
  else if op = BitOpNand then done (notInt64 (andInt64 stored current))
  else if op = BitOpNor then done (notInt64 (orInt64 stored current))
  else if op = BitOpLeftShift then done (shlInt64 stored (wrapUint64 current))
  else if op = BitOpRightShift then done (shrInt64 stored (wrapUint64 current))
  else (e, current)

end Engine

/-! ## scientific.go -/

/-- Go `math.Pi` as a `float64` (`0x400921FB54442D18`). -/
def mathPi : Float64 := Float64.fin false (0x1921FB54442D18 * 2 ^ 1023)

/-- Go `math.E` as a `float64` (`0x4005BF0A8B145769`). -/
def mathE : Float64 := Float64.fin false (0x15BF0A8B145769 * 2 ^ 1023)

namespace Engine

def toRadians (e : Engine) (angle : Float64) : Float64 :=
  if e.AngleMode = Degrees then Float64.div (Float64.mul angle mathPi) (Float64.ofInt 180)
  else if e.AngleMode = Gradians then Float64.div (Float64.mul angle mathPi) (Float64.ofInt 200)
  else angle

def fromRadians (e : Engine) (rad : Float64) : Float64 :=
  if e.AngleMode = Degrees then Float64.div (Float64.mul rad (Float64.ofInt 180)) mathPi
  else if e.AngleMode = Gradians then Float64.div (Float64.mul rad (Float64.ofInt 200)) mathPi
  else rad

/-- The common end of the unary functions: store and display the value. -/
def putFloat (rt : GoEnv) (e : Engine) (v : Float64) : Engine :=
  { e with CurrentValue := v, Display := e.formatNumber rt v, NewInput := true }

/-- The error exit of the unary functions. -/
def putError (e : Engine) (msg : String) : Engine :=
  { e with Display := msg, NewInput := true }

def Sin (rt : GoEnv) (e : Engine) : Engine := e.putFloat rt (rt.Sin (e.toRadians e.CurrentValue))

def Cos (rt : GoEnv) (e : Engine) : Engine := e.putFloat rt (rt.Cos (e.toRadians e.CurrentValue))

def Tan (rt : GoEnv) (e : Engine) : Engine := e.putFloat rt (rt.Tan (e.toRadians e.CurrentValue))

def Asin (rt : GoEnv) (e : Engine) : Engine :=
  if Float64.lt e.CurrentValue (Float64.ofInt (-1)) ∨ Float64.lt (Float64.ofInt 1) e.CurrentValue then
    e.putError "Error"
  else e.putFloat rt (e.fromRadians (rt.Asin e.CurrentValue))

def Acos (rt : GoEnv) (e : Engine) : Engine :=
  if Float64.lt e.CurrentValue (Float64.ofInt (-1)) ∨ Float64.lt (Float64.ofInt 1) e.CurrentValue then
    e.putError "Error"
  else e.putFloat rt (e.fromRadians (rt.Acos e.CurrentValue))

def Atan (rt : GoEnv) (e : Engine) : Engine :=
  e.putFloat rt (e.fromRadians (rt.Atan e.CurrentValue))

def Sinh (rt : GoEnv) (e : Engine) : Engine := e.putFloat rt (rt.Sinh e.CurrentValue)

def Cosh (rt : GoEnv) (e : Engine) : Engine := e.putFloat rt (rt.Cosh e.CurrentValue)

def Tanh (rt : GoEnv) (e : Engine) : Engine := e.putFloat rt (rt.Tanh e.CurrentValue)

def Asinh (rt : GoEnv) (e : Engine) : Engine := e.putFloat rt (rt.Asinh e.CurrentValue)

def Acosh (rt : GoEnv) (e : Engine) : Engine :=
  if Float64.lt e.CurrentValue (Float64.ofInt 1) then e.putError "Error"
  else e.putFloat rt (rt.Acosh e.CurrentValue)

def Atanh (rt : GoEnv) (e : Engine) : Engine :=
  if Float64.le e.CurrentValue (Float64.ofInt (-1)) ∨ Float64.le (Float64.ofInt 1) e.CurrentValue then
    e.putError "Error"
  else e.putFloat rt (rt.Atanh e.CurrentValue)

def Log (rt : GoEnv) (e : Engine) : Engine :=
  if Float64.le e.CurrentValue Float64.zero then e.putError "Error"
  else e.putFloat rt (rt.Log10 e.CurrentValue)

def Ln (rt : GoEnv) (e : Engine) : Engine :=
  if Float64.le e.CurrentValue Float64.zero then e.putError "Error"
  else e.putFloat rt (rt.Log e.CurrentValue)

def Log2 (rt : GoEnv) (e : Engine) : Engine :=
  if Float64.le e.CurrentValue Float64.zero then e.putError "Error"
  else e.putFloat rt (rt.Log2 e.CurrentValue)

def Exp (rt : GoEnv) (e : Engine) : Engine := e.putFloat rt (rt.Exp e.CurrentValue)

def Exp10 (rt : GoEnv) (e : Engine) : Engine :=
  e.putFloat rt (rt.Pow (Float64.ofInt 10) e.CurrentValue)

def Exp2 (rt : GoEnv) (e : Engine) : Engine :=
  e.putFloat rt (rt.Pow (Float64.ofInt 2) e.CurrentValue)

def Sqrt (rt : GoEnv) (e : Engine) : Engine :=
  if Float64.lt e.CurrentValue Float64.zero then e.putError "Error"
  else e.putFloat rt (rt.Sqrt e.CurrentValue)

def Cbrt (rt : GoEnv) (e : Engine) : Engine := e.putFloat rt (rt.Cbrt e.CurrentValue)

def Square (rt : GoEnv) (e : Engine) : Engine :=
  e.putFloat rt (Float64.mul e.CurrentValue e.CurrentValue)

def Cube (rt : GoEnv) (e : Engine) : Engine :=
  e.putFloat rt (Float64.mul (Float64.mul e.CurrentValue e.CurrentValue) e.CurrentValue)

def Reciprocal (rt : GoEnv) (e : Engine) : Engine :=
  if Float64.eq e.CurrentValue Float64.zero then e.putError "Error"
  else e.putFloat rt (Float64.div (Float64.ofInt 1) e.CurrentValue)

/-- The loop of `Factorial`: `steps` iterations starting at `i`. -/
def factorialLoop : Nat → Nat → Float64 → Float64
  | 0, _, result => result
  | steps + 1, i, result => factorialLoop steps (i + 1) (Float64.mul result (Float64.ofInt i))

def Factorial (rt : GoEnv) (e : Engine) : Engine :=
  let n := toInt64 rt e.CurrentValue
  if n < 0 ∨ Float64.ne e.CurrentValue (Float64.ofInt n) then e.putError "Error"
  else if 170 < n then e.putError "Overflow"
  else e.putFloat rt (factorialLoop (n.toNat - 1) 2 (Float64.ofInt 1))

def Abs (rt : GoEnv) (e : Engine) : Engine := e.putFloat rt (Float64.abs e.CurrentValue)

def Floor (rt : GoEnv) (e : Engine) : Engine := e.putFloat rt (rt.Floor e.CurrentValue)

def Ceil (rt : GoEnv) (e : Engine) : Engine := e.putFloat rt (rt.Ceil e.CurrentValue)

def Round (rt : GoEnv) (e : Engine) : Engine := e.putFloat rt (rt.Round e.CurrentValue)

def Pi (rt : GoEnv) (e : Engine) : Engine := e.putFloat rt mathPi

def E (rt : GoEnv) (e : Engine) : Engine := e.putFloat rt mathE

def SetAngleMode (e : Engine) (mode : SwitchCalc.AngleMode) : Engine :=
  { e with AngleMode := mode }

end Engine

/-! ## sequences of operations -/

/-- The state-changing methods of the engine, with their arguments. -/
inductive Op where
  | Clear | ClearEntry | InputDigit (digit : String) | InputDecimal | InputExponent
  | InputHexDigit (digit : String) | SetOperation (op : Operation) | Calculate
  | Negate | Percent | MemoryClear | MemoryRecall | MemoryAdd | MemorySubtract | MemoryStore
  | Backspace | SetNumberBase (base : NumberBase)
  | And (other : Int) | Or (other : Int) | Xor (other : Int) | Not
  | Nand (other : Int) | Nor (other : Int) | LeftShift (bits : Nat) | RightShift (bits : Nat)
  | RotateLeft (bits : Nat) (width : BitWidth) | RotateRight (bits : Nat) (width : BitWidth)
  | SetBit (position : Nat) | ClearBit (position : Nat) | ToggleBit (position : Nat)
  | CountBits | LeadingZeros (width : BitWidth) | TrailingZeros | ByteSwap (width : BitWidth)
  | TwosComplement (width : BitWidth) | SetBitwiseOperation (op : BitwiseOperation)
  | CalculateBitwise
  | Sin | Cos | Tan | Asin | Acos | Atan | Sinh | Cosh | Tanh | Asinh | Acosh | Atanh
  | Log | Ln | Log2 | Exp | Exp10 | Exp2 | Sqrt | Cbrt | Square | Cube | Reciprocal
  | Factorial | Abs | Floor | Ceil | Round | Pi | E | SetAngleMode (mode : AngleMode)

/-- One method call; `none` when the call panics. -/
def step (rt : GoEnv) (e : Engine) : Op → Option Engine
  | Op.Clear => some e.Clear
  | Op.ClearEntry => some e.ClearEntry
  | Op.InputDigit d => some (e.InputDigit d)
  | Op.InputDecimal => some e.InputDecimal
  | Op.InputExponent => some e.InputExponent
  | Op.InputHexDigit d => some (e.InputHexDigit d)
  | Op.SetOperation op => some (e.SetOperation rt op)
  | Op.Calculate => some (e.Calculate rt).1
  | Op.Negate => some (e.Negate rt)
  | Op.Percent => some (e.Percent rt)
  | Op.MemoryClear => some e.MemoryClear
  | Op.MemoryRecall => some (e.MemoryRecall rt)
  | Op.MemoryAdd => some e.MemoryAdd
  | Op.MemorySubtract => some e.MemorySubtract
  | Op.MemoryStore => some e.MemoryStore
  | Op.Backspace => some e.Backspace
  | Op.SetNumberBase b => some (e.SetNumberBase rt b)
  | Op.And o => some (e.And rt o)
  | Op.Or o => some (e.Or rt o)
  | Op.Xor o => some (e.Xor rt o)
  | Op.Not => some (e.Not rt)
  | Op.Nand o => some (e.Nand rt o)
  | Op.Nor o => some (e.Nor rt o)
  | Op.LeftShift b => some (e.LeftShift rt b)
  | Op.RightShift b => some (e.RightShift rt b)
  | Op.RotateLeft b w => e.RotateLeft rt b w
  | Op.RotateRight b w => e.RotateRight rt b w
  | Op.SetBit p => some (e.SetBit rt p)
  | Op.ClearBit p => some (e.ClearBit rt p)
  | Op.ToggleBit p => some (e.ToggleBit rt p)
  | Op.CountBits => some (e.CountBits rt)
  | Op.LeadingZeros w => e.LeadingZeros rt w
  | Op.TrailingZeros => some (e.TrailingZeros rt)
  | Op.ByteSwap w => some (e.ByteSwap rt w)
  | Op.TwosComplement w => e.TwosComplement rt w
  | Op.SetBitwiseOperation op => some (e.SetBitwiseOperation rt op)
  | Op.CalculateBitwise => some (e.CalculateBitwise rt).1
  | Op.Sin => some (e.Sin rt)
  | Op.Cos => some (e.Cos rt)
  | Op.Tan => some (e.Tan rt)
  | Op.Asin => some (e.Asin rt)
  | Op.Acos => some (e.Acos rt)
  | Op.Atan => some (e.Atan rt)
  | Op.Sinh => some (e.Sinh rt)
  | Op.Cosh => some (e.Cosh rt)
  | Op.Tanh => some (e.Tanh rt)
  | Op.Asinh => some (e.Asinh rt)
  | Op.Acosh => some (e.Acosh rt)
  | Op.Atanh => some (e.Atanh rt)
  | Op.Log => some (e.Log rt)
  | Op.Ln => some (e.Ln rt)
  | Op.Log2 => some (e.Log2 rt)
  | Op.Exp => some (e.Exp rt)
  | Op.Exp10 => some (e.Exp10 rt)
  | Op.Exp2 => some (e.Exp2 rt)
  | Op.Sqrt => some (e.Sqrt rt)
  | Op.Cbrt => some (e.Cbrt rt)
  | Op.Square => some (e.Square rt)
  | Op.Cube => some (e.Cube rt)
  | Op.Reciprocal => some (e.Reciprocal rt)
  | Op.Factorial => some (e.Factorial rt)
  | Op.Abs => some (e.Abs rt)
  | Op.Floor => some (e.Floor rt)
  | Op.Ceil => some (e.Ceil rt)
  | Op.Round => some (e.Round rt)
  | Op.Pi => some (e.Pi rt)
  | Op.E => some (e.E rt)
  | Op.SetAngleMode m => some (e.SetAngleMode m)

/-- A sequence of method calls from the state `e`; `none` once a call panics. -/
def runOps (rt : GoEnv) (e : Engine) : List Op → Option Engine
  | [] => some e
  | op :: ops => (step rt e op).bind (fun e1 => runOps rt e1 ops)

/-- The states the engine can be in: those a sequence of calls reaches from `NewEngine()`. -/
def Reachable (rt : GoEnv) (e : Engine) : Prop := ∃ ops, runOps rt NewEngine ops = some e

/-- Entering the characters of `s` one key at a time with `InputDigit`. -/
def enterDigits (e : Engine) (s : String) : Engine :=
  s.data.foldl (fun st c => st.InputDigit (String.mk [c])) e

/-- Entering the characters of `s` one key at a time with `InputHexDigit`. -/
def enterHexDigits (e : Engine) (s : String) : Engine :=
  s.data.foldl (fun st c => st.InputHexDigit (String.mk [c])) e

/-- A non-empty string of decimal digits. -/
def isDigitString (s : String) : Bool := s.data ≠ [] ∧ s.data.all isDecDigit

/-- A hexadecimal digit: `0`..`9`, `a`..`f` or `A`..`F`. -/
def isHexDigit (c : Char) : Bool := isDecDigit c || isLetterUpTo 'f' c

/-- The number a string of digits denotes in base `base` (`ParseUint` digit values). -/
def numeralValue (base : Nat) (s : String) : Nat :=
  s.data.foldl (fun n c => n * base + digitVal c) 0

/-- The integer `RotateLeft(amount, W)` computes from the truncated value `v`. -/
def rotlValue (v amount W : Nat) : Nat :=
  (shl64 (v &&& (2 ^ W - 1)) (amount % W) ||| shr64 (v &&& (2 ^ W - 1)) (W - amount % W)) &&&
    (2 ^ W - 1)

/-- An environment for evaluating concrete runs: conversions of unrepresentable
values give `-2^63` (the amd64 result for `int64`) and `0`, and every library
function is the identity, `Pow` returning its first argument. -/
def GoEnv.sample : GoEnv :=
  { int64Indef := fun _ => -(2 ^ 63), uint64Indef := fun _ => 0, Pow := fun x _ => x,
    Sin := id, Cos := id, Tan := id, Asin := id, Acos := id, Atan := id, Sinh := id,
    Cosh := id, Tanh := id, Asinh := id, Acosh := id, Atanh := id, Log10 := id, Log := id,
    Log2 := id, Exp := id, Sqrt := id, Cbrt := id, Floor := id, Ceil := id, Round := id }

/-- The binary operator a pending arithmetic operation stands for. -/
def applyOp (rt : GoEnv) (p : Operation) (a b : Float64) : Float64 :=
  if p = OpAdd then Float64.add a b
  else if p = OpSubtract then Float64.sub a b
  else if p = OpMultiply then Float64.mul a b
  else if p = OpDivide then Float64.div a b
  else if p = OpModulo then Float64.mod a b
  else rt.Pow a b

/-- The unary functions of scientific.go that check their operand. -/
inductive Guarded where
  | Asin | Acos | Acosh | Atanh | Log | Ln | Log2 | Sqrt | Reciprocal
deriving DecidableEq

/-- The call of a guarded function. -/
def Guarded.run (rt : GoEnv) (e : Engine) : Guarded → Engine
  | Guarded.Asin => e.Asin rt
  | Guarded.Acos => e.Acos rt
  | Guarded.Acosh => e.Acosh rt
  | Guarded.Atanh => e.Atanh rt
  | Guarded.Log => e.Log rt
  | Guarded.Ln => e.Ln rt
  | Guarded.Log2 => e.Log2 rt
  | Guarded.Sqrt => e.Sqrt rt
  | Guarded.Reciprocal => e.Reciprocal rt

/-- The domain violations as comparisons of numbers: `Asin`, `Acos`: operand below -1
or above 1; `Acosh`: below 1; `Atanh`: at most -1 or at least 1; the logarithms: at
most 0; `Sqrt`: below 0; `Reciprocal`: equal to 0.  NaN compares false with every
number and satisfies none of them (see `Guarded.outside` for `Asin` and `Acos`). -/
def Guarded.violates (x : Float64) : Guarded → Bool
  | Guarded.Asin => Float64.lt x (Float64.ofInt (-1)) || Float64.lt (Float64.ofInt 1) x
  | Guarded.Acos => Float64.lt x (Float64.ofInt (-1)) || Float64.lt (Float64.ofInt 1) x
  | Guarded.Acosh => Float64.lt x (Float64.ofInt 1)
  | Guarded.Atanh => Float64.le x (Float64.ofInt (-1)) || Float64.le (Float64.ofInt 1) x
  | Guarded.Log => Float64.le x Float64.zero
  | Guarded.Ln => Float64.le x Float64.zero
  | Guarded.Log2 => Float64.le x Float64.zero
  | Guarded.Sqrt => Float64.lt x Float64.zero
  | Guarded.Reciprocal => Float64.eq x Float64.zero

/-- The finite values that are whole numbers. -/
def Float64.isInt : Float64 → Bool
  | Float64.fin _ k => decide (k % Float64.one = 0)
  | _ => false

/-- What every result of the float parser satisfies: a syntax error comes with the
value 0, a range error with an infinity. -/
def ParseOK (r : Float64 × Option NumError) : Prop :=
  (r.2 = some NumError.ErrSyntax → r.1 = Float64.zero) ∧
  (r.2 = some NumError.ErrRange → ∃ b, r.1 = Float64.inf b)

/-- The keys of plain decimal entry. -/
inductive EntryKey where
  | Digit (c : Char)
  | Decimal
  | Backspace
  | Clear
  | ClearEntry
deriving DecidableEq

/-- The engine call a key of plain decimal entry makes. -/
def EntryKey.toOp : EntryKey → Op
  | EntryKey.Digit c => Op.InputDigit (String.mk [c])
  | EntryKey.Decimal => Op.InputDecimal
  | EntryKey.Backspace => Op.Backspace
  | EntryKey.Clear => Op.Clear
  | EntryKey.ClearEntry => Op.ClearEntry

/-- A digit key carries one of `0`..`9`. -/
def EntryKey.valid : EntryKey → Bool
  | EntryKey.Digit c => isDecDigit c
  | _ => true

/-- A decimal digit or the point. -/
def isNumeralChar (c : Char) : Bool := isDecDigit c || decide (c = '.')

/-- A decimal numeral: one or more digits, optionally followed by a point and
further digits. -/
def isNumeral (s : List Char) : Bool :=
  match s with
  | [] => false
  | c :: cs => isDecDigit c && (cs.all isNumeralChar && decide (cs.count '.' ≤ 1))

/-- What plain decimal entry keeps true: the base is decimal, the display is a decimal
numeral, the value is what `ParseFloat` reads from the display, and a state that
awaits fresh input shows `0`. -/
def EntryInv (e : Engine) : Prop :=
  e.NumberBase = Decimal ∧ isNumeral e.Display.data = true ∧
  e.CurrentValue = (ParseFloat e.Display).1 ∧ (e.NewInput = true → e.Display = "0")

/-! ## package time

The part of Go's `time` that `datetime.go` calls.  A `Time` is held as the instant in
nanoseconds since the Unix epoch, as an integer (Go packs the same instant into seconds
and nanoseconds); calendar arithmetic is done on integers, which agrees with Go's
`int`/`uint64` arithmetic for every year `time.Time` can hold. -/

/-- A time zone: `lookup sec` gives, for an instant in Unix seconds, the offset (seconds
east of UTC) in force and the span `[start, end)` of instants during which it is. -/
structure Location where
  lookup : Int → Int × Int × Int

/-- Go `time.UTC`. -/
def UTC : Location := { lookup := fun _ => (0, -(2 ^ 63), 2 ^ 63 - 1) }

/-- Go `time.Time`: the wall-clock instant, the reading of the monotonic clock when the
value carries one (as those of `time.Now()` do), and the location. -/
structure Time where
  ns : Int
  mono : Option Int
  loc : Location

/-- Go `time.Duration`: a number of nanoseconds, an `int64`. -/
abbrev Duration := Int

def minDuration : Duration := -(2 ^ 63)
def maxDuration : Duration := 2 ^ 63 - 1
def Second : Duration := 1000000000
def Minute : Duration := 60 * Second
def Hour : Duration := 60 * Minute

/-- Go `d.Hours()`. -/
def Duration.Hours (d : Duration) : Float64 :=
  Float64.add (Float64.ofInt (Int.tdiv d Hour))
    (Float64.div (Float64.ofInt (Int.tmod d Hour)) (Float64.ofInt 3600000000000))

/-- Go `d.Minutes()`. -/
def Duration.Minutes (d : Duration) : Float64 :=
  Float64.add (Float64.ofInt (Int.tdiv d Minute))
    (Float64.div (Float64.ofInt (Int.tmod d Minute)) (Float64.ofInt 60000000000))

/-- Go `d.Seconds()`. -/
def Duration.Seconds (d : Duration) : Float64 :=
  Float64.add (Float64.ofInt (Int.tdiv d Second))
    (Float64.div (Float64.ofInt (Int.tmod d Second)) (Float64.ofInt 1000000000))

/-- Go `isLeap` of package time. -/
def isLeap (year : Int) : Bool :=
  Int.tmod year 4 == 0 && (Int.tmod year 100 != 0 || Int.tmod year 400 == 0)

/-- Go `daysBefore[m]`: the days of a non-leap year before month `m + 1`. -/
def daysBefore (m : Int) : Int :=
  if m ≤ 0 then 0 else if m = 1 then 31 else if m = 2 then 59 else if m = 3 then 90
  else if m = 4 then 120 else if m = 5 then 151 else if m = 6 then 181
  else if m = 7 then 212 else if m = 8 then 243 else if m = 9 then 273
  else if m = 10 then 304 else if m = 11 then 334 else 365

/-- Go `daysSinceEpoch(year)`, counted from 1 January 1970 instead of Go's absolute
epoch: the days before 1 January of `year`. -/
def daysSinceEpoch (year : Int) : Int :=
  let y := year - 1
  365 * y + y / 4 - y / 100 + y / 400 - 719162

/-- Go `norm(hi, lo, base)`: `lo` brought into `[0, base)`, the excess carried to `hi`. -/
def norm (hi lo base : Int) : Int × Int := (hi + lo / base, lo % base)

/-- Go `time.Date`. -/
def Date (year month day hour min sec nsec : Int) (loc : Location) : Time :=
  let ym := norm year (month - 1) 12
  let year := ym.1
  let month := ym.2 + 1
  let sn := norm sec nsec 1000000000
  let ms := norm min sn.1 60
  let hm := norm hour ms.1 60
  let dh := norm day hm.1 24
  let d := daysSinceEpoch year + daysBefore (month - 1) +
    (if isLeap year ∧ 3 ≤ month then 1 else 0) + (dh.1 - 1)
  let unix := d * 86400 + dh.2 * 3600 + hm.2 * 60 + ms.2
  let z := loc.lookup unix
  let unix :=
    if z.1 ≠ 0 then
      let utc := unix - z.1
      let offset := if utc < z.2.1 ∨ z.2.2 ≤ utc then (loc.lookup utc).1 else z.1
      unix - offset
    else unix
  { ns := unix * 1000000000 + sn.2, mono := none, loc := loc }

/-- Go `absDate` on a number of days since 1 January 1970: year, month and day. -/
def absDate (days : Int) : Int × Int × Int :=
  let d := days + 719162
  let n := d / 146097
  let y := 400 * n
  let d := d - 146097 * n
  let n := d / 36524
  let n := n - n / 4
  let y := y + 100 * n
  let d := d - 36524 * n
  let n := d / 1461
  let y := y + 4 * n
  let d := d - 1461 * n
  let n := d / 365
  let n := n - n / 4
  let y := y + n
  let d := d - 365 * n
  let year := y + 1
  if isLeap year ∧ d = 31 + 29 - 1 then (year, 2, 29)
  else
    let day := if isLeap year ∧ 31 + 29 - 1 < d then d - 1 else d
    let month := day / 31
    let stop := daysBefore (month + 1)
    if stop ≤ day then (year, month + 2, day - stop + 1)
    else (year, month + 1, day - daysBefore month + 1)

namespace Time

/-- Go `t.unixSec()`. -/
def unixSec (t : Time) : Int := t.ns / 1000000000

/-- Go `t.nsec()`. -/
def nsec (t : Time) : Int := t.ns % 1000000000

/-- Go `t.abs()`, counted from the Unix epoch: the seconds of the local clock. -/
def abs (t : Time) : Int := t.unixSec + (t.loc.lookup t.unixSec).1

def Year (t : Time) : Int := (absDate (t.abs / 86400)).1

def Month (t : Time) : Int := (absDate (t.abs / 86400)).2.1

def Day (t : Time) : Int := (absDate (t.abs / 86400)).2.2

def Hour (t : Time) : Int := t.abs % 86400 / 3600

def Minute (t : Time) : Int := t.abs % 3600 / 60

def Second (t : Time) : Int := t.abs % 60

/-- Go `t.Before(u)`. -/
def Before (t u : Time) : Bool :=
  match t.mono, u.mono with
  | some a, some b => decide (a < b)
  | _, _ => decide (t.ns < u.ns)

/-- Go `t.After(u)`. -/
def After (t u : Time) : Bool :=
  match t.mono, u.mono with
  | some a, some b => decide (b < a)
  | _, _ => decide (u.ns < t.ns)

/-- Go `subMono`. -/
def subMono (t u : Int) : Duration :=
  let d := wrapInt64 (t - u)
  if d < 0 ∧ u < t then maxDuration
  else if 0 < d ∧ t < u then minDuration
  else d

/-- Go `t.Sub(u)`: the difference, or the nearest `Duration` when it does not fit. -/
def Sub (t u : Time) : Duration :=
  match t.mono, u.mono with
  | some a, some b => subMono a b
  | _, _ =>
    let d := t.ns - u.ns
    if minDuration ≤ d ∧ d ≤ maxDuration then d
    else if t.Before u then minDuration
    else maxDuration

/-- Go `t.AddDate(years, months, days)`. -/
def AddDate (t : Time) (years months days : Int) : Time :=
  Date (t.Year + years) (t.Month + months) (t.Day + days) t.Hour t.Minute t.Second t.nsec t.loc

end Time

/-! ## datetime.go -/

structure DateTimeCalc where
  StartDate : Time
  EndDate : Time
  Result : String

structure DateDifference where
  Years : Int
  Months : Int
  Days : Int
  TotalDays : Int
  TotalWeeks : Int
  TotalHours : Int
  TotalMinutes : Int
  TotalSeconds : Int
deriving DecidableEq

def daysInMonth (year month : Int) : Int := (Date year (month + 1) 0 0 0 0 0 UTC).Day

namespace DateTimeCalc

def CalculateDifference (rt : GoEnv) (d : DateTimeCalc) : DateDifference :=
  let swap := d.EndDate.Before d.StartDate
  let start := if swap then d.EndDate else d.StartDate
  let stop := if swap then d.StartDate else d.EndDate
  let duration := stop.Sub start
  let totalDays := toInt64 rt (Float64.div (Duration.Hours duration) (Float64.ofInt 24))
  let totalHours := toInt64 rt (Duration.Hours duration)
  let totalMinutes := toInt64 rt (Duration.Minutes duration)
  let totalSeconds := toInt64 rt (Duration.Seconds duration)
  let totalWeeks := Int.tdiv totalDays 7
  let years := stop.Year - start.Year
  let months := stop.Month - start.Month
  let days := stop.Day - start.Day
  let lastMonth := stop.AddDate 0 (-1) 0
  let months1 := if days < 0 then months - 1 else months
  let days1 := if days < 0 then days + daysInMonth lastMonth.Year lastMonth.Month else days
  let years2 := if months1 < 0 then years - 1 else years
  let months2 := if months1 < 0 then months1 + 12 else months1
  { Years := years2, Months := months2, Days := days1, TotalDays := totalDays,
    TotalWeeks := totalWeeks, TotalHours := totalHours, TotalMinutes := totalMinutes,
    TotalSeconds := totalSeconds }

def IsLeapYear (d : DateTimeCalc) : Bool :=
  let year := d.StartDate.Year
  Int.tmod year 4 == 0 && (Int.tmod year 100 != 0 || Int.tmod year 400 == 0)

end DateTimeCalc

/-- A finite non-negative value of at most `B`. -/
def Float64.Within (x : Float64) (B : Nat) : Prop :=
  ∃ k, x = Float64.fin false k ∧ k ≤ B * Float64.one

/-- Byte `i` of a natural number, byte 0 being the least significant. -/
def byteOf (x i : Nat) : Nat := x / 2 ^ (8 * i) % 256

/-! ## datetime.go: age, working days, weekdays -/

/-- Go `time.Weekday`: `Sunday` is 0, `Saturday` is 6. -/
abbrev Weekday := Int

def Sunday : Weekday := 0
def Monday : Weekday := 1
def Tuesday : Weekday := 2
def Wednesday : Weekday := 3
def Thursday : Weekday := 4
def Friday : Weekday := 5
def Saturday : Weekday := 6

/-- Go `t.Weekday()`; 1 January 1970 was a Thursday. -/
def Time.Weekday (t : Time) : Weekday := (t.abs + 4 * 86400) % 604800 / 86400

/-- The zone `Pacific/Apia` around the end of 2011: 10 hours behind UTC until
30 December 2011 10:00:00 UTC (Unix time 1325239200), 14 hours ahead of UTC from then
on, so that the local calendar passes from 29 December to 31 December. -/
def Apia : Location :=
  { lookup := fun sec =>
      if sec < 1325239200 then (-36000, 1316872800, 1325239200)
      else (50400, 1325239200, 1333202400) }

namespace DateTimeCalc

/-- Go `GetAge`; `now` is the value of `time.Now()` in the call. -/
def GetAge (now : Time) (_d : DateTimeCalc) (birthDate : Time) : Int × Int × Int :=
  let years := now.Year - birthDate.Year
  let months := now.Month - birthDate.Month
  let days := now.Day - birthDate.Day
  let lastMonth := now.AddDate 0 (-1) 0
  let months1 := if days < 0 then months - 1 else months
  let days1 := if days < 0 then days + daysInMonth lastMonth.Year lastMonth.Month else days
  let years2 := if months1 < 0 then years - 1 else years
  let months2 := if months1 < 0 then months1 + 12 else months1
  (years2, months2, days1)

/-- The loop of `GetWorkingDays`, with `fuel` iterations at most; `none` when they do
not suffice. -/
def workingDaysLoop (excludeWeekends : Bool) (stop : Time) : Nat → Time → Int → Option Int
  | 0, _, _ => none
  | fuel + 1, current, count =>
    if current.After stop then some count
    else
      let count1 :=
        if excludeWeekends then
          (if current.Weekday ≠ Saturday ∧ current.Weekday ≠ Sunday then count + 1 else count)
        else count + 1
      workingDaysLoop excludeWeekends stop fuel (current.AddDate 0 0 1) count1

def GetWorkingDays (fuel : Nat) (d : DateTimeCalc) (excludeWeekends : Bool) : Option Int :=
  let swap := d.EndDate.Before d.StartDate
  let start := if swap then d.EndDate else d.StartDate
  let stop := if swap then d.StartDate else d.EndDate
  workingDaysLoop excludeWeekends stop fuel start 0

/-- The loop of `GetNextWeekday`, with `fuel` iterations at most. -/
def nextWeekdayLoop (weekday : Weekday) : Nat → Time → Option Time
  | 0, _ => none
  | fuel + 1, current =>
    let next := current.AddDate 0 0 1
    if next.Weekday = weekday then some next else nextWeekdayLoop weekday fuel next

def GetNextWeekday (fuel : Nat) (d : DateTimeCalc) (weekday : Weekday) : Option Time :=
  nextWeekdayLoop weekday fuel d.StartDate

/-- The loop of `GetPreviousWeekday`, with `fuel` iterations at most. -/
def previousWeekdayLoop (weekday : Weekday) : Nat → Time → Option Time
  | 0, _ => none
  | fuel + 1, current =>
    let next := current.AddDate 0 0 (-1)
    if next.Weekday = weekday then some next else previousWeekdayLoop weekday fuel next

def GetPreviousWeekday (fuel : Nat) (d : DateTimeCalc) (weekday : Weekday) : Option Time :=
  previousWeekdayLoop weekday fuel d.StartDate

end DateTimeCalc

/-! ## integer numerals -/

/-- The sign and the rest of a string that may start with `+` or `-`. -/
def splitSign (s : List Char) : Bool × List Char :=
  match s with
  | c :: cs => if c = '-' then (true, cs) else if c = '+' then (false, cs) else (false, c :: cs)
  | [] => (false, [])

/-- An optional sign followed by decimal digits, if any: what further digit keys turn
into an integer numeral. -/
def isSignedDigits (s : String) : Bool := (splitSign s.data).2.all isDecDigit

/-- A decimal integer numeral: one or more decimal digits after an optional sign. -/
def isIntegerNumeral (s : String) : Bool :=
  (splitSign s.data).2 ≠ [] ∧ (splitSign s.data).2.all isDecDigit

/-- The magnitude of the integer a decimal integer numeral denotes. -/
def magnitude (s : String) : Nat := numeralValue 10 (String.mk (splitSign s.data).2)

/-- The operands the specification places outside the domain of a guarded function, read
as sets of numbers: for `Asin` and `Acos` every operand that is not in `[-1, 1]`, which
NaN is not; for the other functions the comparisons it lists. -/
def Guarded.outside (x : Float64) : Guarded → Bool
  | Guarded.Asin => !(Float64.le (Float64.ofInt (-1)) x && Float64.le x (Float64.ofInt 1))
  | Guarded.Acos => !(Float64.le (Float64.ofInt (-1)) x && Float64.le x (Float64.ofInt 1))
  | g => Guarded.violates x g

/-! # Properties -/

/-! ## exact results of the float64 model -/

namespace Float64

theorem bitLenAux_le (fuel : Nat) : ∀ (n k : Nat), n < 2 ^ k → bitLenAux fuel n ≤ k := by
  induction fuel with
  | zero => intro n k _; simp [bitLenAux]
  | succ f ih =>
    intro n k h
    unfold bitLenAux
    split
    · exact Nat.zero_le _
    · rename_i hn
      cases k with
      | zero => simp at h; exact absurd h hn
      | succ k =>
        have : n / 2 < 2 ^ k := by
          rw [Nat.div_lt_iff_lt_mul (by decide)]
          rw [pow_succ] at h
          exact h
        have := ih (n / 2) k this
        omega

theorem bitLen_le {n k : Nat} (h : n < 2 ^ k) : bitLen n ≤ k := bitLenAux_le n n k h

theorem roundHalfEven_mul (m d : Nat) (hd : 0 < d) : roundHalfEven (m * d) d = m := by
  unfold roundHalfEven
  simp [Nat.mul_div_cancel _ hd, hd]

theorem roundGrid_exact (neg : Bool) (k q : Nat) (hq : 0 < q) (hk : Exact k) :
    roundGrid neg (k * q) q = fin neg k := by
  obtain ⟨⟨c, hc⟩, hlt⟩ := hk
  unfold roundGrid
  simp only [Nat.mul_div_cancel _ hq]
  have h2 : 0 < 2 ^ (bitLen k - 53) := Nat.two_pow_pos _
  have e1 : k * q = c * (q * 2 ^ (bitLen k - 53)) := by
    conv_lhs => rw [hc]
    ring
  rw [e1, roundHalfEven_mul _ _ (Nat.mul_pos hq h2)]
  have e2 : c * 2 ^ (bitLen k - 53) = k := by
    conv_rhs => rw [hc]
    ring
  rw [e2, if_neg (by omega)]

theorem one_eq : one = 2 ^ 1074 := by unfold one; rfl

theorem huge_eq : huge = 2 ^ 2098 := by unfold huge; rfl

theorem one_pos : 0 < one := by
  rw [one_eq]
  exact pow_pos (by decide : (0 : Nat) < 2) 1074

theorem exact_int {m : Nat} (h : m < 2 ^ 53) : Exact (m * one) := by
  have hlt : m * one < 2 ^ 1127 := by
    have : (2:Nat) ^ 1127 = 2 ^ 53 * one := by rw [one_eq, ← pow_add]
    rw [this]
    exact Nat.mul_lt_mul_of_pos_right h one_pos
  refine ⟨?_, ?_⟩
  · have hb := bitLen_le hlt
    have h1 : 2 ^ (bitLen (m * one) - 53) ∣ 2 ^ 1074 := pow_dvd_pow 2 (by omega)
    rw [← one_eq] at h1
    exact Dvd.dvd.mul_left h1 m
  · rw [huge_eq]
    have hpow : (2 : Nat) ^ 1127 < 2 ^ 2098 := by
      apply Nat.pow_lt_pow_right
      · decide
      · decide
    exact lt_trans hlt hpow

theorem ofGridInt_exact (z : Int) (s : Bool) (h : Exact z.natAbs) (hz : z ≠ 0) :
    ofGridInt z s = fin (decide (z < 0)) z.natAbs := by
  unfold ofGridInt
  rw [if_neg hz]
  have := roundGrid_exact (decide (z < 0)) z.natAbs 1 (by decide) h
  rwa [Nat.mul_one] at this

theorem ofInt_natCast {m : Nat} (h : m < 2 ^ 53) : ofInt (m : Int) = fin false (m * one) := by
  unfold ofInt
  by_cases hm : m = 0
  · subst hm; simp [ofGridInt]
  · have hne : ((m : Int) * (one : Int)) ≠ 0 := by
      have := one_pos
      positivity
    rw [ofGridInt_exact _ _ _ hne]
    · have h1 : ((m : Int) * (one : Int)).natAbs = m * one := by
        rw [← Nat.cast_mul, Int.natAbs_ofNat]
      have h2 : ¬ ((m : Int) * (one : Int) < 0) := by
        have : (0 : Int) ≤ (m : Int) * (one : Int) := by positivity
        omega
      simp [h1, h2]
    · have h1 : ((m : Int) * (one : Int)).natAbs = m * one := by
        rw [← Nat.cast_mul, Int.natAbs_ofNat]
      rw [h1]; exact exact_int h

theorem ofInt_neg_natCast {m : Nat} (h : m < 2 ^ 53) (hm : m ≠ 0) :
    ofInt (-(m : Int)) = fin true (m * one) := by
  unfold ofInt
  have hpos : (0 : Int) < (m : Int) * (one : Int) := by
    have := one_pos
    have : 0 < m := Nat.pos_of_ne_zero hm
    positivity
  have h1 : (-(m : Int) * (one : Int)).natAbs = m * one := by
    rw [neg_mul, Int.natAbs_neg, ← Nat.cast_mul, Int.natAbs_ofNat]
  rw [ofGridInt_exact _ _ _ (by rw [neg_mul]; omega)]
  · have h2 : (-(m : Int) * (one : Int) < 0) := by rw [neg_mul]; omega
    rw [h1, decide_eq_true h2]
  · rw [h1]; exact exact_int h

theorem trunc_int (s : Bool) (m : Nat) : trunc s (m * one) = gridInt s m := by
  unfold trunc
  rw [Nat.mul_div_cancel _ one_pos]

theorem add_int (a b : Nat) :
    add (fin false (a * one)) (fin false (b * one)) = ofInt ((a + b : Nat) : Int) := by
  simp only [add, gridInt, ofInt, Bool.and_self]
  congr 1
  push_cast
  ring

theorem mul_int (a b : Nat) (h : a * b < 2 ^ 53) :
    mul (fin false (a * one)) (fin false (b * one)) = fin false (a * b * one) := by
  simp only [mul, Bool.xor_self]
  have : a * one * (b * one) = a * b * one * one := by ring
  rw [this]
  exact roundGrid_exact false _ one one_pos (exact_int h)

theorem eq_self_fin (s : Bool) (k : Nat) : Float64.eq (fin s k) (fin s k) = true := by
  simp [Float64.eq]

end Float64

theorem toInt64_int (rt : GoEnv) (s : Bool) (m : Nat) (h : m < 2 ^ 63) :
    toInt64 rt (Float64.fin s (m * Float64.one)) = Float64.gridInt s m := by
  unfold toInt64
  simp only [Float64.trunc_int]
  rw [if_pos]
  unfold Float64.gridInt
  split <;> omega

theorem toUint64_int (rt : GoEnv) (m : Nat) (h : m < 2 ^ 64) :
    toUint64 rt (Float64.fin false (m * Float64.one)) = m := by
  unfold toUint64
  simp only [Float64.trunc_int, Float64.gridInt]
  simp
  omega

theorem formatNumber_int (rt : GoEnv) (e : Engine) (m : Nat) (hb : e.NumberBase = Decimal)
    (h : m < 2 ^ 53) :
    e.formatNumber rt (Float64.fin false (m * Float64.one)) = FormatInt m 10 := by
  unfold Engine.formatNumber
  have h63 : m < 2 ^ 63 := lt_trans h (by decide)
  rw [toInt64_int rt false m h63]
  simp only [hb, Float64.gridInt, ne_eq, not_true_eq_false, if_false, Bool.false_eq_true]
  rw [Float64.ofInt_natCast h, Float64.eq_self_fin]
  simp

/-! ## digits and numerals -/

theorem isDecDigit_iff (c : Char) : isDecDigit c = true ↔ 48 ≤ c.toNat ∧ c.toNat ≤ 57 := by
  simp [isDecDigit]

theorem isDecDigit_cases {c : Char} (h : isDecDigit c = true) :
    c = '0' ∨ c = '1' ∨ c = '2' ∨ c = '3' ∨ c = '4' ∨ c = '5' ∨ c = '6' ∨ c = '7' ∨
    c = '8' ∨ c = '9' := by
  rw [isDecDigit_iff] at h
  obtain ⟨h1, h2⟩ := h
  have hc : c = Char.ofNat c.toNat := (Char.ofNat_toNat c).symm
  generalize c.toNat = n at h1 h2 hc
  subst hc
  interval_cases n <;> decide

theorem digitChar_lt_ten {d : Nat} (h : d < 10) : isDecDigit (digitChar d) = true := by
  interval_cases d <;> decide

theorem digitChar_value {d : Nat} (h : d < 36) :
    (isDecDigit (digitChar d) = true ∨ isLetterUpTo 'z' (digitChar d) = true) ∧
    digitVal (digitChar d) = d := by
  interval_cases d <;> decide

theorem digitChar_upper_value {d : Nat} (h : d < 36) :
    (isDecDigit (digitChar d).toUpper = true ∨ isLetterUpTo 'z' (digitChar d).toUpper = true) ∧
    digitVal (digitChar d).toUpper = d := by
  interval_cases d <;> decide

theorem digitChar_ne_zero {d : Nat} (h : d < 36) (h0 : d ≠ 0) : digitChar d ≠ '0' := by
  interval_cases d <;> first | exact absurd rfl h0 | decide

theorem formatDigits_acc (base : Nat) (fuel : Nat) :
    ∀ (u : Nat) (acc : List Char),
      formatDigits base fuel u acc = formatDigits base fuel u [] ++ acc := by
  induction fuel with
  | zero => intro u acc; simp [formatDigits]
  | succ f ih =>
    intro u acc
    unfold formatDigits
    split
    · rw [ih _ (_ :: acc), ih _ [_]]; simp
    · simp

/-- Shape of the digit string: a leading part and the last digit. -/
theorem formatDigits_succ (base fuel u : Nat) :
    formatDigits base (fuel + 1) u [] =
      if base ≤ u then formatDigits base fuel (u / base) [] ++ [digitChar (u % base)]
      else [digitChar u] := by
  conv_lhs => unfold formatDigits
  split
  · rw [formatDigits_acc]
  · rfl

theorem parseUintLoop_append (base : Nat) (xs ys : List Char) :
    ∀ n m, parseUintLoop base xs n = (m, none) →
      parseUintLoop base (xs ++ ys) n = parseUintLoop base ys m := by
  induction xs with
  | nil => intro n m h; simp [parseUintLoop] at h; simp [h]
  | cons c cs ih =>
    intro n m h
    simp only [List.cons_append]
    rw [parseUintLoop] at h ⊢
    split at h
    · rename_i hc
      rw [if_pos hc]
      simp only at h ⊢
      split at h
      · simp at h
      · split at h
        · simp at h
        · split at h
          · simp at h
          · rename_i h1 h2 h3
            rw [if_neg h1, if_neg h2, if_neg h3]
            exact ih _ _ h
    · simp at h

/-- Reading back the digits `formatDigits` writes, possibly mapped through `g`
(lower or upper case), gives the number. -/
theorem parseUintLoop_formatDigits (base : Nat) (g : Char → Char) (hb : 2 ≤ base)
    (hb36 : base ≤ 36)
    (hg : ∀ d, d < 36 → (isDecDigit (g (digitChar d)) = true ∨
      isLetterUpTo 'z' (g (digitChar d)) = true) ∧ digitVal (g (digitChar d)) = d)
    (fuel : Nat) :
    ∀ u, u < 2 ^ 64 → u < base ^ (fuel + 1) →
      parseUintLoop base ((formatDigits base fuel u []).map g) 0 = (u, none) := by
  have last : ∀ n d, d < base → n * base + d < 2 ^ 64 →
      parseUintLoop base [g (digitChar d)] n = (n * base + d, none) := by
    intro n d hd hn
    have hd36 : d < 36 := by omega
    obtain ⟨h1, h2⟩ := hg d hd36
    unfold parseUintLoop
    have hcut : ¬ ((2 ^ 64 - 1) / base + 1 ≤ n) := by
      intro hc
      have h3 : (2 ^ 64 - 1) / base < n := by omega
      have h4 := (Nat.div_lt_iff_lt_mul (by omega : 0 < base)).mp h3
      omega
    simp only [h2]
    rw [if_pos (by simpa using h1), if_neg (by omega), if_neg hcut, if_neg (by omega)]
    simp [parseUintLoop]
  induction fuel with
  | zero =>
    intro u hu hlt
    simp only [zero_add, pow_one] at hlt
    have := last 0 u hlt (by omega)
    simpa [formatDigits] using this
  | succ f ih =>
    intro u hu hlt
    rw [formatDigits_succ]
    split
    · rename_i hge
      have hdiv : u / base < base ^ (f + 1) := by
        rw [Nat.div_lt_iff_lt_mul (by omega)]
        rw [pow_succ] at hlt
        exact hlt
      have hdiv64 : u / base < 2 ^ 64 := lt_of_le_of_lt (Nat.div_le_self _ _) hu
      have h1 := ih (u / base) hdiv64 hdiv
      rw [List.map_append, parseUintLoop_append _ _ _ _ _ h1]
      have hmod : u % base < base := Nat.mod_lt _ (by omega)
      have hsum : u / base * base + u % base = u := Nat.div_add_mod' u base
      have := last (u / base) (u % base) hmod (by omega)
      rw [hsum] at this
      simpa using this
    · rename_i hlt2
      have := last 0 u (by omega) (by omega)
      simpa using this

theorem fuel64 {base u : Nat} (hb : 2 ≤ base) (hu : u < 2 ^ 64) : u < base ^ (64 + 1) := by
  have : (2:Nat) ^ 65 ≤ base ^ 65 := Nat.pow_le_pow_left hb 65
  show u < base ^ 65
  omega

theorem formatDigits_ne_nil (base fuel u : Nat) (acc : List Char) :
    formatDigits base fuel u acc ≠ [] := by
  induction fuel generalizing u acc with
  | zero => simp [formatDigits]
  | succ f ih =>
    unfold formatDigits
    split
    · exact ih _ _
    · simp

theorem ParseUint_of_loop {base : Nat} {cs : List Char} {u : Nat}
    (h : parseUintLoop base cs 0 = (u, none)) (hne : cs ≠ []) :
    ParseUint cs base = (u, none) := by
  cases cs with
  | nil => exact absurd rfl hne
  | cons c cs => simpa [ParseUint] using h

theorem head_not_sign {base : Nat} {c : Char} {cs : List Char} {u : Nat}
    (h : parseUintLoop base (c :: cs) 0 = (u, none)) : c ≠ '+' ∧ c ≠ '-' := by
  rw [parseUintLoop] at h
  split at h
  · rename_i hc
    constructor
    · rintro rfl
      revert hc; decide
    · rintro rfl
      revert hc; decide
  · simp at h

/-- The function `ParseInt` reads back what `FormatInt` writes, in lower or upper case. -/
theorem ParseInt_FormatInt (base : Nat) (g : Char → Char) (hb : 2 ≤ base) (hb36 : base ≤ 36)
    (hg : ∀ d, d < 36 → (isDecDigit (g (digitChar d)) = true ∨
      isLetterUpTo 'z' (g (digitChar d)) = true) ∧ digitVal (g (digitChar d)) = d)
    (hgm : g '-' = '-') (n : Int) (hlo : -(2 ^ 63) ≤ n) (hhi : n < 2 ^ 63) :
    ParseInt (String.mk ((FormatInt n base).data.map g)) base = (n, none) := by
  have hu : n.natAbs < 2 ^ 64 := by omega
  have hloop := parseUintLoop_formatDigits base g hb hb36 hg 64 n.natAbs hu (fuel64 hb hu)
  have hne : (formatDigits base 64 n.natAbs []).map g ≠ [] := by
    simpa using formatDigits_ne_nil base 64 n.natAbs []
  have hpu := ParseUint_of_loop hloop hne
  unfold FormatInt ParseInt
  by_cases hneg : n < 0
  · simp only [hneg, if_true, List.map_cons, hgm]
    simp only [or_true, if_true, hpu, decide_True, not_true_eq_false, false_and, if_false,
      true_and]
    rw [if_neg (by omega)]
    congr 1
    omega
  · simp only [hneg, if_false]
    cases hds : (formatDigits base 64 n.natAbs []).map g with
    | nil => exact absurd hds hne
    | cons c cs =>
      rw [hds] at hloop hpu
      obtain ⟨hp, hm⟩ := head_not_sign hloop
      simp only [hp, hm, or_self, if_false, hpu, decide_False, not_false_eq_true, true_and,
        false_and, Bool.false_eq_true]
      have h63 : ¬ (2 ^ 63 ≤ n.natAbs) := by omega
      simp only [h63, and_false, if_false]
      congr 1
      omega

/-- C8: formatting a signed 64-bit integer in the active number base and parsing the
result back in the same base succeeds and returns the integer, for decimal, binary,
octal and hexadecimal, negative values and the minimum value included. -/
theorem FormatInBase_ParseCurrentBase_roundtrip (e : Engine) (n : Int)
    (hb : e.NumberBase = Decimal ∨ e.NumberBase = Binary ∨ e.NumberBase = Octal ∨
      e.NumberBase = Hexadecimal)
    (hlo : -(2 ^ 63) ≤ n) (hhi : n < 2 ^ 63) :
    e.ParseCurrentBase (e.FormatInBase n) = (n, none) := by
  have key : ∀ base, 2 ≤ base → base ≤ 36 → ParseInt (FormatInt n base) base = (n, none) := by
    intro base h2 h36
    have := ParseInt_FormatInt base id h2 h36 (fun d hd => digitChar_value hd) rfl n hlo hhi
    simpa using this
  have keyU : ParseInt (ToUpper (FormatInt n 16)) 16 = (n, none) :=
    ParseInt_FormatInt 16 Char.toUpper (by decide) (by decide)
      (fun d hd => digitChar_upper_value hd) (by decide) n hlo hhi
  unfold Engine.ParseCurrentBase Engine.FormatInBase
  rcases hb with h | h | h | h <;> rw [h]
  · simpa [Decimal, Binary, Octal, Hexadecimal] using key 10 (by decide) (by decide)
  · simpa [Decimal, Binary, Octal, Hexadecimal] using key 2 (by decide) (by decide)
  · simpa [Decimal, Binary, Octal, Hexadecimal] using key 8 (by decide) (by decide)
  · simpa [Decimal, Binary, Octal, Hexadecimal] using keyU

theorem FormatInBase_ParseCurrentBase_roundtrip_witness :
    ({ NewEngine with NumberBase := Hexadecimal }).ParseCurrentBase
      (({ NewEngine with NumberBase := Hexadecimal }).FormatInBase (-(2 ^ 63))) =
      (-(2 ^ 63), none) :=
  FormatInBase_ParseCurrentBase_roundtrip { NewEngine with NumberBase := Hexadecimal }
    (-(2 ^ 63)) (by decide) (by decide) (by decide)

theorem numeral_formatDigits (base : Nat) (hb : 2 ≤ base) (hb36 : base ≤ 36) (fuel : Nat) :
    ∀ u, u < base ^ (fuel + 1) →
      (formatDigits base fuel u []).foldl (fun n c => n * base + digitVal c) 0 = u := by
  induction fuel with
  | zero =>
    intro u hu
    simp only [zero_add, pow_one] at hu
    simp [formatDigits, (digitChar_value (by omega : u < 36)).2]
  | succ f ih =>
    intro u hu
    rw [formatDigits_succ]
    split
    · have hdiv : u / base < base ^ (f + 1) := by
        rw [Nat.div_lt_iff_lt_mul (by omega)]
        rw [pow_succ] at hu
        exact hu
      have hmod : u % base < base := Nat.mod_lt _ (by omega)
      rw [List.foldl_append, ih _ hdiv]
      simp only [List.foldl_cons, List.foldl_nil, (digitChar_value (by omega : u % base < 36)).2]
      exact Nat.div_add_mod' u base
    · rename_i h
      simp [(digitChar_value (by omega : u < 36)).2]

theorem formatDigits_all_dec (fuel : Nat) :
    ∀ u, (formatDigits 10 fuel u []).all isDecDigit = true ∨ 10 ^ (fuel + 1) ≤ u := by
  induction fuel with
  | zero =>
    intro u
    by_cases h : u < 10
    · left; simp [formatDigits, digitChar_lt_ten h]
    · right; simpa using h
  | succ f ih =>
    intro u
    rw [formatDigits_succ]
    split
    · rcases ih (u / 10) with h | h
      · left
        rw [List.all_append, h]
        simp [digitChar_lt_ten (Nat.mod_lt u (by decide : 0 < 10))]
      · right
        have := (Nat.le_div_iff_mul_le (by decide : 0 < 10)).mp h
        rw [pow_succ]
        exact this
    · rename_i h
      left
      simp [digitChar_lt_ten (by omega : u < 10)]

/-- The digit string of a positive number does not start with `0`. -/
theorem formatDigits_head (base : Nat) (hb36 : base ≤ 36) (fuel : Nat) :
    ∀ u, 0 < u → u < base ^ (fuel + 1) →
      ∃ c t, formatDigits base fuel u [] = c :: t ∧ c ≠ '0' := by
  induction fuel with
  | zero =>
    intro u h0 hu
    simp only [zero_add, pow_one] at hu
    exact ⟨digitChar u, [], by simp [formatDigits],
      digitChar_ne_zero (by omega) (by omega)⟩
  | succ f ih =>
    intro u h0 hu
    rw [formatDigits_succ]
    split
    · rename_i hge
      have hb0 : 0 < base := by
        rcases Nat.eq_zero_or_pos base with h | h
        · subst h; simp at hu
        · exact h
      have hdiv : u / base < base ^ (f + 1) := by
        rw [Nat.div_lt_iff_lt_mul hb0]
        rw [pow_succ] at hu
        exact hu
      have hpos : 0 < u / base := Nat.div_pos hge hb0
      obtain ⟨c, t, h1, h2⟩ := ih _ hpos hdiv
      exact ⟨c, t ++ [digitChar (u % base)], by rw [h1]; rfl, h2⟩
    · rename_i h
      exact ⟨digitChar u, [], rfl, digitChar_ne_zero (by omega) (by omega)⟩

theorem FormatInt_natCast (m base : Nat) :
    FormatInt (m : Int) base = String.mk (formatDigits base 64 m []) := by
  unfold FormatInt
  have : ¬ ((m : Int) < 0) := by omega
  simp [this]

theorem lowerAZ_digit {c : Char} (h : isDecDigit c = true) : lowerAZ c = c := by
  rcases isDecDigit_cases h with h | h | h | h | h | h | h | h | h | h <;> subst h <;> decide

theorem special_digit {c : Char} (rest : List Char) (h : isDecDigit c = true) :
    special (c :: rest) = none := by
  have e1 : "inf".data = ['i', 'n', 'f'] := rfl
  have e2 : "infinity".data = ['i', 'n', 'f', 'i', 'n', 'i', 't', 'y'] := rfl
  have e3 : "+inf".data = ['+', 'i', 'n', 'f'] := rfl
  have e4 : "+infinity".data = ['+', 'i', 'n', 'f', 'i', 'n', 'i', 't', 'y'] := rfl
  have e5 : "-inf".data = ['-', 'i', 'n', 'f'] := rfl
  have e6 : "-infinity".data = ['-', 'i', 'n', 'f', 'i', 'n', 'i', 't', 'y'] := rfl
  have e7 : "nan".data = ['n', 'a', 'n'] := rfl
  unfold special
  simp only [List.map_cons, lowerAZ_digit h, e1, e2, e3, e4, e5, e6, e7]
  rcases isDecDigit_cases h with h | h | h | h | h | h | h | h | h | h <;> subst h <;> simp

theorem digitVal_dec {c : Char} (h : isDecDigit c = true) : digitVal c = c.toNat - '0'.toNat := by
  simp [digitVal, h]

/-- The mantissa loop on a string of decimal digits reads all of it. -/
theorem readMantissa_digits (cs : List Char) (hall : cs.all isDecDigit = true) :
    ∀ st : Mantissa, st.sawdot = false → st.sawdigits = true →
      readMantissa 10 cs st =
        ({ st with n := cs.foldl (fun n c => n * 10 + digitVal c) st.n }, []) := by
  induction cs with
  | nil => intro st _ _; simp [readMantissa]
  | cons c cs ih =>
    intro st hdot hdig
    simp only [List.all_cons, Bool.and_eq_true] at hall
    obtain ⟨hc, hrest⟩ := hall
    have h1 : c ≠ '_' := by rintro rfl; revert hc; decide
    have h2 : c ≠ '.' := by rintro rfl; revert hc; decide
    rw [readMantissa, if_neg h1, if_neg h2, if_pos hc]
    rw [ih hrest _ (by simp [Mantissa.push, hdot]) (by simp [Mantissa.push])]
    simp [Mantissa.push, hdot, hdig, digitVal_dec hc]

theorem readMantissa_digits_cons (c : Char) (rest : List Char)
    (hall : (c :: rest).all isDecDigit = true) (st : Mantissa) (hdot : st.sawdot = false) :
    readMantissa 10 (c :: rest) st =
      ({ st with n := (c :: rest).foldl (fun n c => n * 10 + digitVal c) st.n,
                 sawdigits := true }, []) := by
  simp only [List.all_cons, Bool.and_eq_true] at hall
  obtain ⟨hc, hrest⟩ := hall
  have h1 : c ≠ '_' := by rintro rfl; revert hc; decide
  have h2 : c ≠ '.' := by rintro rfl; revert hc; decide
  rw [readMantissa, if_neg h1, if_neg h2, if_pos hc]
  rw [readMantissa_digits rest hrest _ (by simp [Mantissa.push, hdot]) (by simp [Mantissa.push])]
  simp [Mantissa.push, hdot, digitVal_dec hc]

theorem lower_digit {c : Char} (h : isDecDigit c = true) : lower c ≤ 57 := by
  rcases isDecDigit_cases h with h | h | h | h | h | h | h | h | h | h <;> subst h <;> decide

theorem floatOfDigits_fst (neg : Bool) (n b : Nat) (e : Int) :
    (floatOfDigits neg n b e).1 =
      if 0 ≤ e then Float64.roundGrid neg (n * b ^ e.toNat * Float64.one) 1
      else Float64.roundGrid neg (n * Float64.one) (b ^ (-e).toNat) := by
  unfold floatOfDigits
  split
  · generalize Float64.roundGrid neg (n * b ^ e.toNat * Float64.one) 1 = f
    cases f <;> rfl
  · generalize Float64.roundGrid neg (n * Float64.one) (b ^ (-e).toNat) = f
    cases f <;> rfl

/-- The result of `ParseFloat` on a non-empty string of decimal digits: the number it denotes,
rounded to the nearest `float64`. -/
theorem ParseFloat_digits (cs : List Char) (hne : cs ≠ []) (hall : cs.all isDecDigit = true) :
    (ParseFloat (String.mk cs)).1 =
      Float64.roundGrid false (numeralValue 10 (String.mk cs) * Float64.one) 1 := by
  cases cs with
  | nil => exact absurd rfl hne
  | cons c rest =>
    have hall' := hall
    simp only [List.all_cons, Bool.and_eq_true] at hall'
    obtain ⟨hc, hrest⟩ := hall'
    have hm : c ≠ '-' := by rintro rfl; revert hc; decide
    have hp : c ≠ '+' := by rintro rfl; revert hc; decide
    have hhex : (match c :: rest with
        | c0 :: c1 :: _ :: _ => decide (c0 = '0' ∧ lower c1 = 'x'.toNat)
        | _ => false) = false := by
      cases rest with
      | nil => rfl
      | cons c1 r =>
        cases r with
        | nil => rfl
        | cons c2 r2 =>
          simp only [List.all_cons, Bool.and_eq_true] at hrest
          have := lower_digit hrest.1
          have h120 : lower c1 ≠ 120 := by omega
          simp [h120]
    have hread := readMantissa_digits_cons c rest hall ⟨0, 0, false, false, false⟩ rfl
    unfold ParseFloat
    simp only [special_digit rest hc]
    unfold parseNumber
    simp only [hm, hp, or_self, if_false, hhex, decide_False, Bool.false_eq_true,
      hread]
    simp only [not_true_eq_false, if_false, ne_eq, not_true_eq_false, Bool.false_eq_true,
      false_and, sub_zero]
    have hval : (c :: rest).foldl (fun n c => n * 10 + digitVal c) 0 =
        numeralValue 10 (String.mk (c :: rest)) := rfl
    rw [hval, floatOfDigits_fst]
    simp

/-! ## digit entry -/

theorem mk_singleton_ne_dot {c : Char} (h : c ≠ '.') : String.mk [c] ≠ "." := by
  intro hh
  have : [c] = ['.'] := congrArg String.data hh
  simp at this
  exact h this

theorem mk_ne_zero {h : Char} (t : List Char) (hh : h ≠ '0') : String.mk (h :: t) ≠ "0" := by
  intro heq
  have : h :: t = ['0'] := congrArg String.data heq
  simp at this
  exact hh this.1

/-- The effect of `InputDigit` with a one-character key other than the point. -/
theorem InputDigit_char (e : Engine) (c : Char) (hc : c ≠ '.') :
    e.InputDigit (String.mk [c]) =
      { e with
        Display := if e.NewInput = true ∨ e.Display = "0" then String.mk [c]
                   else e.Display ++ String.mk [c],
        NewInput := false,
        CurrentValue := (ParseFloat (if e.NewInput = true ∨ e.Display = "0" then String.mk [c]
                   else e.Display ++ String.mk [c])).1 } := by
  have hdot := mk_singleton_ne_dot hc
  unfold Engine.InputDigit
  cases hN : e.NewInput
  · by_cases hD : e.Display = "0"
    · simp [hD, hdot, hN]
    · simp [hD, hN]
  · simp

/-- Keys entered after a display that is not `0` are appended. -/
theorem enter_append (rest : List Char) :
    ∀ (e : Engine) (h : Char) (t : List Char), e.NewInput = false →
      e.Display = String.mk (h :: t) → h ≠ '0' → rest ≠ [] →
      rest.foldl (fun st c => st.InputDigit (String.mk [c])) e =
        { e with Display := String.mk (h :: t ++ rest),
                 CurrentValue := (ParseFloat (String.mk (h :: t ++ rest))).1 } := by
  induction rest with
  | nil => intro e h t _ _ _ hne; exact absurd rfl hne
  | cons c r ih =>
    intro e h t hN hD hh _
    have hstep : e.InputDigit (String.mk [c]) =
        { e with Display := String.mk (h :: t ++ [c]),
                 CurrentValue := (ParseFloat (String.mk (h :: t ++ [c]))).1 } := by
      have hD0 : e.Display ≠ "0" := by rw [hD]; exact mk_ne_zero t hh
      have happ : e.Display ++ String.mk [c] = String.mk (h :: t ++ [c]) := by
        rw [hD]; rfl
      unfold Engine.InputDigit
      simp [hN, hD0, happ]
    rw [List.foldl_cons]
    by_cases hr : r = []
    · subst hr; simp [hstep]
    · have h1N : (e.InputDigit (String.mk [c])).NewInput = false := by rw [hstep]; exact hN
      have h1D : (e.InputDigit (String.mk [c])).Display = String.mk (h :: (t ++ [c])) := by
        rw [hstep]; rfl
      rw [ih _ h (t ++ [c]) h1N h1D hh hr, hstep]
      simp

/-- Entering a digit string without a leading zero on a fresh operand shows it. -/
theorem enterDigits_fresh (e : Engine) (c : Char) (rest : List Char) (hN : e.NewInput = true)
    (hc : c ≠ '.') (h0 : c ≠ '0' ∨ rest = []) :
    enterDigits e (String.mk (c :: rest)) =
      { e with Display := String.mk (c :: rest), NewInput := false,
               CurrentValue := (ParseFloat (String.mk (c :: rest))).1 } := by
  unfold enterDigits
  simp only [List.foldl_cons]
  rw [InputDigit_char e c hc]
  simp only [hN, true_or, if_true]
  by_cases hr : rest = []
  · subst hr; simp
  · have hc0 : c ≠ '0' := by
      rcases h0 with h | h
      · exact h
      · exact absurd h hr
    rw [enter_append rest _ c [] rfl rfl hc0 hr]
    simp

theorem pow53_lt_pow10 : (2 : Nat) ^ 53 < 10 ^ (64 + 1) := by decide

/-- Entering the decimal numeral of `a` on a fresh operand. -/
theorem enterDigits_number (e : Engine) (a : Nat) (hN : e.NewInput = true) (ha : a < 2 ^ 53) :
    enterDigits e (FormatInt a 10) =
      { e with Display := FormatInt a 10, NewInput := false,
               CurrentValue := Float64.fin false (a * Float64.one) } := by
  have hlt : a < 10 ^ (64 + 1) := lt_trans ha pow53_lt_pow10
  have hall : (formatDigits 10 64 a []).all isDecDigit = true := by
    rcases formatDigits_all_dec 64 a with h | h
    · exact h
    · omega
  have hval : numeralValue 10 (String.mk (formatDigits 10 64 a [])) = a :=
    numeral_formatDigits 10 (by decide) (by decide) 64 a hlt
  have hshape : ∃ c rest, formatDigits 10 64 a [] = c :: rest ∧ (c ≠ '0' ∨ rest = []) := by
    rcases Nat.eq_zero_or_pos a with h | h
    · subst h
      exact ⟨'0', [], by decide, Or.inr rfl⟩
    · obtain ⟨c, t, h1, h2⟩ := formatDigits_head 10 (by decide) 64 a h hlt
      exact ⟨c, t, h1, Or.inl h2⟩
  obtain ⟨c, rest, hds, h0⟩ := hshape
  have hcdig : isDecDigit c = true := by
    rw [hds] at hall
    simp only [List.all_cons, Bool.and_eq_true] at hall
    exact hall.1
  have hcdot : c ≠ '.' := by rintro rfl; revert hcdig; decide
  have hpf := ParseFloat_digits (formatDigits 10 64 a []) (formatDigits_ne_nil _ _ _ _) hall
  rw [hval] at hpf
  have hexact := Float64.roundGrid_exact false (a * Float64.one) 1 (by decide)
    (Float64.exact_int ha)
  rw [Nat.mul_one] at hexact
  rw [hexact] at hpf
  rw [FormatInt_natCast, hds, enterDigits_fresh e c rest hN hcdot h0, ← hds, hpf]

theorem SetOperation_idle (rt : GoEnv) (e : Engine) (op : Operation)
    (h : e.PendingOp = OpNone ∨ e.NewInput = true) :
    e.SetOperation rt op =
      { e with StoredValue := e.CurrentValue, PendingOp := op, NewInput := true } := by
  unfold Engine.SetOperation
  rcases h with h | h <;> simp [h]

/-- The run of C3: enter `a`, press `+`, enter `b`, press `=`. -/
theorem add_run (rt : GoEnv) (a b : Nat) (h : a + b < 2 ^ 53) :
    (enterDigits ((enterDigits NewEngine (FormatInt a 10)).SetOperation rt OpAdd)
        (FormatInt b 10)).Calculate rt =
      ({ NewEngine with
          Display := FormatInt ((a + b : Nat) : Int) 10,
          CurrentValue := Float64.ofInt ((a + b : Nat) : Int),
          StoredValue := Float64.ofInt (a : Int),
          History := [FormatInt a 10 ++ " " ++ "+" ++ " " ++ FormatInt b 10 ++ " = " ++
            FormatInt ((a + b : Nat) : Int) 10] },
        Float64.ofInt ((a + b : Nat) : Int)) := by
  have ha : a < 2 ^ 53 := by omega
  have hb : b < 2 ^ 53 := by omega
  rw [enterDigits_number NewEngine a rfl ha, SetOperation_idle rt _ OpAdd (Or.inl rfl),
    enterDigits_number _ b rfl hb]
  unfold Engine.Calculate
  simp only [OpAdd, OpNone, one_ne_zero, if_false, if_true]
  unfold Engine.finishCalculate
  simp only [Float64.add_int, Float64.ofInt_natCast h, Float64.ofInt_natCast ha]
  rw [formatNumber_int rt _ a rfl ha, formatNumber_int rt _ b rfl hb,
    formatNumber_int rt _ (a + b) rfl h]
  simp [NewEngine, Engine.opSymbol, OpAdd, OpNone]

theorem digitChar_eq_core {d : Nat} (h : d < 10) : Nat.digitChar d = digitChar d := by
  interval_cases d <;> decide

/-- In base ten `formatDigits` writes the usual decimal numeral. -/
theorem toDigitsCore_eq_formatDigits (fuel2 : Nat) :
    ∀ (fuel1 n : Nat) (acc : List Char), n < fuel1 → n < 10 ^ (fuel2 + 1) →
      Nat.toDigitsCore 10 fuel1 n acc = formatDigits 10 fuel2 n acc := by
  induction fuel2 with
  | zero =>
    intro fuel1 n acc h1 h2
    simp only [zero_add, pow_one] at h2
    cases fuel1 with
    | zero => omega
    | succ f =>
      have h0 : n / 10 = 0 := by omega
      have hm : n % 10 = n := by omega
      simp [Nat.toDigitsCore, formatDigits, h0, hm, digitChar_eq_core h2]
  | succ f2 ih =>
    intro fuel1 n acc h1 h2
    cases fuel1 with
    | zero => omega
    | succ f =>
      unfold formatDigits
      by_cases hn : 10 ≤ n
      · have h0 : n / 10 ≠ 0 := by omega
        have hlt : n / 10 < 10 ^ (f2 + 1) := by
          rw [Nat.div_lt_iff_lt_mul (by decide)]
          rw [pow_succ] at h2
          exact h2
        simp only [Nat.toDigitsCore, h0, if_false, hn, if_true]
        rw [digitChar_eq_core (Nat.mod_lt n (by decide))]
        exact ih f (n / 10) _ (by omega) hlt
      · have h0 : n / 10 = 0 := by omega
        have hm : n % 10 = n := by omega
        simp [Nat.toDigitsCore, h0, hm, hn, digitChar_eq_core (by omega : n < 10)]

theorem FormatInt_eq_toString (n : Nat) (h : n < 2 ^ 64) : FormatInt (n : Int) 10 = toString n := by
  rw [FormatInt_natCast]
  have hlt : n < 10 ^ (64 + 1) := lt_trans h (by decide)
  have := toDigitsCore_eq_formatDigits 64 (n + 1) n [] (by omega) hlt
  show _ = Nat.repr n
  unfold Nat.repr Nat.toDigits
  rw [this]
  rfl

theorem isDigitString_iff (s : String) :
    isDigitString s = true ↔ s.data ≠ [] ∧ s.data.all isDecDigit = true := by
  simp [isDigitString]

theorem isDecDigit_ne_dot {c : Char} (h : isDecDigit c = true) : c ≠ '.' := by
  rintro rfl; revert h; decide

/-- After one digit key the display is a digit string and the value is its parse. -/
theorem InputDigit_digit_step (e : Engine) (c : Char) (hc : isDecDigit c = true)
    (hstart : e.NewInput = true ∨ isDigitString e.Display = true) :
    (e.InputDigit (String.mk [c])).NewInput = false ∧
    isDigitString (e.InputDigit (String.mk [c])).Display = true ∧
    (e.InputDigit (String.mk [c])).CurrentValue =
      (ParseFloat (e.InputDigit (String.mk [c])).Display).1 := by
  rw [InputDigit_char e c (isDecDigit_ne_dot hc)]
  refine ⟨rfl, ?_, rfl⟩
  simp only
  split
  · simp [isDigitString, hc]
  · rename_i hno
    have hN : ¬ e.NewInput = true := fun h => hno (Or.inl h)
    have hD : isDigitString e.Display = true := by
      rcases hstart with h | h
      · exact absurd h hN
      · exact h
    rw [isDigitString_iff] at hD ⊢
    have : (e.Display ++ String.mk [c]).data = e.Display.data ++ [c] := rfl
    rw [this]
    refine ⟨by simp, ?_⟩
    rw [List.all_append, hD.2]
    simp [hc]

theorem enterDigits_digits (ds : List Char) :
    ∀ e : Engine, ds ≠ [] → ds.all isDecDigit = true →
      (e.NewInput = true ∨ isDigitString e.Display = true) →
      (enterDigits e (String.mk ds)).NewInput = false ∧
      isDigitString (enterDigits e (String.mk ds)).Display = true ∧
      (enterDigits e (String.mk ds)).CurrentValue =
        (ParseFloat (enterDigits e (String.mk ds)).Display).1 := by
  induction ds with
  | nil => intro e h; exact absurd rfl h
  | cons c r ih =>
    intro e _ hall hstart
    simp only [List.all_cons, Bool.and_eq_true] at hall
    have hstep := InputDigit_digit_step e c hall.1 hstart
    by_cases hr : r = []
    · subst hr
      simpa [enterDigits] using hstep
    · have := ih (e.InputDigit (String.mk [c])) hr hall.2 (Or.inr hstep.2.1)
      simpa [enterDigits] using this

/-! ## the arithmetic engine -/

/-- C1: with no operation pending, `Calculate` returns `CurrentValue` and leaves
every field of the engine as it was, so a second call gives the same state and the
same value as the first. -/
theorem Calculate_none_noop (rt : GoEnv) (e : Engine) (h : e.PendingOp = OpNone) :
    e.Calculate rt = (e, e.CurrentValue) ∧
    (e.Calculate rt).1.Calculate rt = e.Calculate rt := by
  have h1 : e.Calculate rt = (e, e.CurrentValue) := by
    unfold Engine.Calculate
    rw [if_pos h]
  refine ⟨h1, ?_⟩
  rw [h1]
  exact h1

theorem Calculate_none_noop_witness :
    NewEngine.Calculate GoEnv.sample = (NewEngine, NewEngine.CurrentValue) ∧
    (NewEngine.Calculate GoEnv.sample).1.Calculate GoEnv.sample =
      NewEngine.Calculate GoEnv.sample :=
  Calculate_none_noop GoEnv.sample NewEngine rfl

/-- C2: division or modulo by a zero `CurrentValue`: `Calculate` returns 0, sets
`Display` to "Error" and `NewInput` to true, and changes no other field (no history
entry is added). -/
theorem Calculate_zero_divisor (rt : GoEnv) (e : Engine)
    (hop : e.PendingOp = OpDivide ∨ e.PendingOp = OpModulo)
    (hz : Float64.eq e.CurrentValue Float64.zero = true) :
    e.Calculate rt = ({ e with Display := "Error", NewInput := true }, Float64.zero) := by
  unfold Engine.Calculate
  rcases hop with h | h <;>
    simp [h, OpNone, OpAdd, OpSubtract, OpMultiply, OpDivide, OpModulo, Float64.ne, hz]

theorem Calculate_zero_divisor_witness :
    ({ NewEngine with PendingOp := OpModulo, StoredValue := Float64.ofInt 7,
                      History := ["1 + 1 = 2"] } : Engine).Calculate GoEnv.sample =
      ({ NewEngine with PendingOp := OpModulo, StoredValue := Float64.ofInt 7,
                        History := ["1 + 1 = 2"], Display := "Error", NewInput := true },
        Float64.zero) :=
  Calculate_zero_divisor GoEnv.sample
    { NewEngine with PendingOp := OpModulo, StoredValue := Float64.ofInt 7,
                     History := ["1 + 1 = 2"] } (Or.inr rfl) rfl

/-- C3: from a fresh engine, entering `a`, pressing `+`, entering `b` and pressing `=`
(with `a + b` below `2^53`, so that every value is exact) returns `a + b`, leaves
`CurrentValue = a + b`, `Display` the decimal numeral of `a + b`, no pending
operation, `NewInput` set, and the history `["<a> + <b> = <a+b>"]`. -/
theorem add_digits_then_equals (rt : GoEnv) (a b : Nat) (h : a + b < 2 ^ 53) :
    ((enterDigits ((enterDigits NewEngine (toString a)).SetOperation rt OpAdd)
        (toString b)).Calculate rt).2 = Float64.fin false ((a + b) * Float64.one) ∧
    ((enterDigits ((enterDigits NewEngine (toString a)).SetOperation rt OpAdd)
        (toString b)).Calculate rt).1 =
      { NewEngine with
        CurrentValue := Float64.fin false ((a + b) * Float64.one),
        StoredValue := Float64.fin false (a * Float64.one),
        Display := toString (a + b),
        PendingOp := OpNone,
        NewInput := true,
        History := [toString a ++ " + " ++ toString b ++ " = " ++ toString (a + b)] } := by
  have ha : a < 2 ^ 64 := by omega
  have hb : b < 2 ^ 64 := by omega
  have hab : a + b < 2 ^ 64 := by omega
  have ha53 : a < 2 ^ 53 := by omega
  have key := add_run rt a b h
  rw [FormatInt_eq_toString a ha, FormatInt_eq_toString b hb,
    FormatInt_eq_toString (a + b) hab, Float64.ofInt_natCast h,
    Float64.ofInt_natCast ha53] at key
  rw [key]
  refine ⟨rfl, ?_⟩
  simp [NewEngine, String.append_assoc]

theorem add_digits_then_equals_witness :
    ((enterDigits ((enterDigits NewEngine "5").SetOperation GoEnv.sample OpAdd)
        "3").Calculate GoEnv.sample).1.Display = "8" ∧
    ((enterDigits ((enterDigits NewEngine "5").SetOperation GoEnv.sample OpAdd)
        "3").Calculate GoEnv.sample).1.History = ["5 + 3 = 8"] := by
  have h := (add_digits_then_equals GoEnv.sample 5 3 (by decide)).2
  have e5 : toString 5 = "5" := by decide
  have e3 : toString 3 = "3" := by decide
  have e8 : toString (5 + 3) = "8" := by decide
  rw [e5, e3, e8] at h
  rw [h]
  exact ⟨rfl, by decide⟩

/-- A pending arithmetic operation with a typed operand is resolved first. -/
theorem SetOperation_pending (rt : GoEnv) (e : Engine) (op : Operation)
    (hp : e.PendingOp = OpAdd ∨ e.PendingOp = OpSubtract ∨ e.PendingOp = OpMultiply ∨
      e.PendingOp = OpDivide ∨ e.PendingOp = OpModulo ∨ e.PendingOp = OpPower)
    (hN : e.NewInput = false)
    (hok : (e.PendingOp = OpDivide ∨ e.PendingOp = OpModulo) →
      Float64.ne e.CurrentValue Float64.zero = true) :
    e.SetOperation rt op =
      { e with
        CurrentValue := applyOp rt e.PendingOp e.StoredValue e.CurrentValue,
        StoredValue := applyOp rt e.PendingOp e.StoredValue e.CurrentValue,
        Display := e.formatNumber rt (applyOp rt e.PendingOp e.StoredValue e.CurrentValue),
        PendingOp := op,
        NewInput := true,
        History :=
          if 50 < (e.History ++ [e.formatNumber rt e.StoredValue ++ " " ++
              Engine.opSymbol e.PendingOp ++ " " ++ e.formatNumber rt e.CurrentValue ++ " = " ++
              e.formatNumber rt (applyOp rt e.PendingOp e.StoredValue e.CurrentValue)]).length
          then (e.History ++ [e.formatNumber rt e.StoredValue ++ " " ++
              Engine.opSymbol e.PendingOp ++ " " ++ e.formatNumber rt e.CurrentValue ++ " = " ++
              e.formatNumber rt (applyOp rt e.PendingOp e.StoredValue e.CurrentValue)]).drop 1
          else e.History ++ [e.formatNumber rt e.StoredValue ++ " " ++
              Engine.opSymbol e.PendingOp ++ " " ++ e.formatNumber rt e.CurrentValue ++ " = " ++
              e.formatNumber rt (applyOp rt e.PendingOp e.StoredValue e.CurrentValue)] } := by
  unfold Engine.SetOperation Engine.Calculate applyOp
  rcases hp with h | h | h | h | h | h
  · simp [h, hN, OpNone, OpAdd, OpSubtract, OpMultiply, OpDivide, OpModulo, OpPower,
      Engine.finishCalculate]
  · simp [h, hN, OpNone, OpAdd, OpSubtract, OpMultiply, OpDivide, OpModulo, OpPower,
      Engine.finishCalculate]
  · simp [h, hN, OpNone, OpAdd, OpSubtract, OpMultiply, OpDivide, OpModulo, OpPower,
      Engine.finishCalculate]
  · have := hok (Or.inl h)
    simp [h, hN, OpNone, OpAdd, OpSubtract, OpMultiply, OpDivide, OpModulo, OpPower,
      Engine.finishCalculate, this]
  · have := hok (Or.inr h)
    simp [h, hN, OpNone, OpAdd, OpSubtract, OpMultiply, OpDivide, OpModulo, OpPower,
      Engine.finishCalculate, this]
  · simp [h, hN, OpNone, OpAdd, OpSubtract, OpMultiply, OpDivide, OpModulo, OpPower,
      Engine.finishCalculate]

theorem Calculate_multiply (rt : GoEnv) (e : Engine) (h : e.PendingOp = OpMultiply) :
    e.Calculate rt = e.finishCalculate rt (Float64.mul e.StoredValue e.CurrentValue) := by
  unfold Engine.Calculate
  simp [h, OpNone, OpAdd, OpSubtract, OpMultiply]

theorem SetOperation_pending_add (rt : GoEnv) (e : Engine) (op : Operation)
    (hp : e.PendingOp = OpAdd) (hN : e.NewInput = false) :
    e.SetOperation rt op =
      { (e.finishCalculate rt (Float64.add e.StoredValue e.CurrentValue)).1 with
        StoredValue := Float64.add e.StoredValue e.CurrentValue,
        PendingOp := op, NewInput := true } := by
  unfold Engine.SetOperation Engine.Calculate
  simp [hp, hN, OpNone, OpAdd, Engine.finishCalculate]

/-- The run `a + b × c =`: the sum is formed when `×` is pressed. -/
theorem chain_run (rt : GoEnv) (a b c : Nat) (hab : a + b < 2 ^ 53) (hc : c < 2 ^ 53)
    (habc : (a + b) * c < 2 ^ 53) :
    ((enterDigits ((enterDigits ((enterDigits NewEngine (FormatInt a 10)).SetOperation rt
        OpAdd) (FormatInt b 10)).SetOperation rt OpMultiply) (FormatInt c 10)).Calculate rt).2 =
      Float64.fin false ((a + b) * c * Float64.one) ∧
    ((enterDigits ((enterDigits ((enterDigits NewEngine (FormatInt a 10)).SetOperation rt
        OpAdd) (FormatInt b 10)).SetOperation rt OpMultiply) (FormatInt c 10)).Calculate rt).1.Display =
      FormatInt (((a + b) * c : Nat) : Int) 10 := by
  have ha : a < 2 ^ 53 := by omega
  have hb : b < 2 ^ 53 := by omega
  rw [enterDigits_number NewEngine a rfl ha, SetOperation_idle rt _ OpAdd (Or.inl rfl),
    enterDigits_number _ b rfl hb]
  rw [SetOperation_pending_add rt _ OpMultiply rfl rfl]
  rw [enterDigits_number _ c rfl hc]
  rw [Calculate_multiply rt _ rfl]
  unfold Engine.finishCalculate
  simp only [Float64.add_int, Float64.ofInt_natCast hab, Float64.mul_int _ _ habc]
  refine ⟨trivial, ?_⟩
  exact formatNumber_int rt _ ((a + b) * c) rfl habc

/-- C4: `SetOperation` evaluates strictly left to right. With an arithmetic operation
`p` pending, a typed operand (`NewInput` false) and no division by zero, it first
replaces `CurrentValue` by `p(StoredValue, CurrentValue)` and appends the history
entry (dropping the oldest beyond 50), then stores that result, sets `PendingOp` to
the new operation and `NewInput` to true; with nothing pending or no operand typed it
only copies `CurrentValue` into `StoredValue` and sets `PendingOp` and `NewInput`.
The keys `2 + 3 × 4 =` give 20. -/
theorem SetOperation_left_to_right (rt : GoEnv) (e : Engine) (op : Operation) :
    ((e.PendingOp = OpAdd ∨ e.PendingOp = OpSubtract ∨ e.PendingOp = OpMultiply ∨
        e.PendingOp = OpDivide ∨ e.PendingOp = OpModulo ∨ e.PendingOp = OpPower) →
      e.NewInput = false →
      ((e.PendingOp = OpDivide ∨ e.PendingOp = OpModulo) →
        Float64.ne e.CurrentValue Float64.zero = true) →
      e.SetOperation rt op =
        { e with
          CurrentValue := applyOp rt e.PendingOp e.StoredValue e.CurrentValue,
          StoredValue := applyOp rt e.PendingOp e.StoredValue e.CurrentValue,
          Display := e.formatNumber rt (applyOp rt e.PendingOp e.StoredValue e.CurrentValue),
          PendingOp := op,
          NewInput := true,
          History :=
            if 50 < (e.History ++ [e.formatNumber rt e.StoredValue ++ " " ++
                Engine.opSymbol e.PendingOp ++ " " ++ e.formatNumber rt e.CurrentValue ++ " = " ++
                e.formatNumber rt (applyOp rt e.PendingOp e.StoredValue e.CurrentValue)]).length
            then (e.History ++ [e.formatNumber rt e.StoredValue ++ " " ++
                Engine.opSymbol e.PendingOp ++ " " ++ e.formatNumber rt e.CurrentValue ++ " = " ++
                e.formatNumber rt (applyOp rt e.PendingOp e.StoredValue e.CurrentValue)]).drop 1
            else e.History ++ [e.formatNumber rt e.StoredValue ++ " " ++
                Engine.opSymbol e.PendingOp ++ " " ++ e.formatNumber rt e.CurrentValue ++ " = " ++
                e.formatNumber rt (applyOp rt e.PendingOp e.StoredValue e.CurrentValue)] }) ∧
    ((e.PendingOp = OpNone ∨ e.NewInput = true) →
      e.SetOperation rt op =
        { e with StoredValue := e.CurrentValue, PendingOp := op, NewInput := true }) ∧
    ((((((NewEngine.InputDigit "2").SetOperation rt OpAdd).InputDigit "3").SetOperation rt
        OpMultiply).InputDigit "4").Calculate rt).2 = Float64.fin false (20 * Float64.one) ∧
    ((((((NewEngine.InputDigit "2").SetOperation rt OpAdd).InputDigit "3").SetOperation rt
        OpMultiply).InputDigit "4").Calculate rt).1.Display = "20" := by
  refine ⟨SetOperation_pending rt e op, SetOperation_idle rt e op, ?_⟩
  have h := chain_run rt 2 3 4 (by decide) (by decide) (by decide)
  have e20 : FormatInt (((2 + 3) * 4 : Nat) : Int) 10 = "20" := by decide
  rw [e20] at h
  exact h

theorem SetOperation_left_to_right_witness :
    ({ NewEngine with PendingOp := OpSubtract, NewInput := false,
                      StoredValue := Float64.ofInt 9, CurrentValue := Float64.ofInt 4,
                      Display := "4" } : Engine).SetOperation GoEnv.sample OpMultiply =
      { NewEngine with PendingOp := OpMultiply, NewInput := true,
                       StoredValue := Float64.ofInt 5, CurrentValue := Float64.ofInt 5,
                       Display := "5", History := [utf8 "9 − 4 = 5"] } ∧
    ({ NewEngine with CurrentValue := Float64.ofInt 4, Display := "4" } : Engine).SetOperation
        GoEnv.sample OpMultiply =
      { NewEngine with CurrentValue := Float64.ofInt 4, Display := "4",
                       StoredValue := Float64.ofInt 4, PendingOp := OpMultiply,
                       NewInput := true } := by
  refine ⟨?_, ?_⟩
  · rw [(SetOperation_left_to_right GoEnv.sample _ OpMultiply).1 (Or.inr (Or.inl rfl)) rfl
      (by decide)]
    decide!
  · rw [(SetOperation_left_to_right GoEnv.sample _ OpMultiply).2.1 (Or.inl rfl)]

/-! ## the history bound -/

theorem finishCalculate_history (rt : GoEnv) (e : Engine) (result : Float64) :
    (e.finishCalculate rt result).1.History =
      if 50 < (e.History ++ [e.formatNumber rt e.StoredValue ++ " " ++
          Engine.opSymbol e.PendingOp ++ " " ++ e.formatNumber rt e.CurrentValue ++ " = " ++
          e.formatNumber rt result]).length
      then (e.History ++ [e.formatNumber rt e.StoredValue ++ " " ++
          Engine.opSymbol e.PendingOp ++ " " ++ e.formatNumber rt e.CurrentValue ++ " = " ++
          e.formatNumber rt result]).drop 1
      else e.History ++ [e.formatNumber rt e.StoredValue ++ " " ++
          Engine.opSymbol e.PendingOp ++ " " ++ e.formatNumber rt e.CurrentValue ++ " = " ++
          e.formatNumber rt result] := rfl

theorem finishCalculate_history_le (rt : GoEnv) (e : Engine) (result : Float64)
    (h : e.History.length ≤ 50) : (e.finishCalculate rt result).1.History.length ≤ 50 := by
  rw [finishCalculate_history]
  split
  · simp only [List.length_drop, List.length_append, List.length_singleton]
    omega
  · rename_i hle
    omega

/-- A call of `Calculate` either stops early (no operation, or division by zero) and keeps
the history, or goes through `finishCalculate` with the value it returns. -/
theorem Calculate_cases (rt : GoEnv) (e : Engine) :
    ((e.Calculate rt).1.History = e.History ∧
      (e.PendingOp = OpNone ∨ ((e.PendingOp = OpDivide ∨ e.PendingOp = OpModulo) ∧
        Float64.ne e.CurrentValue Float64.zero = false))) ∨
    (e.Calculate rt = e.finishCalculate rt (e.Calculate rt).2 ∧ e.PendingOp ≠ OpNone ∧
      ((e.PendingOp = OpDivide ∨ e.PendingOp = OpModulo) →
        Float64.ne e.CurrentValue Float64.zero = true)) := by
  unfold Engine.Calculate
  by_cases h0 : e.PendingOp = OpNone
  · left; simp [h0]
  by_cases h1 : e.PendingOp = OpAdd
  · right; simp [h1, OpAdd, OpNone, OpDivide, OpModulo, Engine.finishCalculate]
  by_cases h2 : e.PendingOp = OpSubtract
  · right; simp [h2, OpAdd, OpSubtract, OpNone, OpDivide, OpModulo, Engine.finishCalculate]
  by_cases h3 : e.PendingOp = OpMultiply
  · right
    simp [h3, OpAdd, OpSubtract, OpMultiply, OpNone, OpDivide, OpModulo,
      Engine.finishCalculate]
  by_cases h4 : e.PendingOp = OpDivide
  · cases hz : Float64.ne e.CurrentValue Float64.zero
    · left; simp [h4, hz, OpAdd, OpSubtract, OpMultiply, OpNone, OpDivide, OpModulo]
    · right
      simp [h4, hz, OpAdd, OpSubtract, OpMultiply, OpNone, OpDivide, OpModulo,
        Engine.finishCalculate]
  by_cases h5 : e.PendingOp = OpModulo
  · cases hz : Float64.ne e.CurrentValue Float64.zero
    · left; simp [h5, hz, OpAdd, OpSubtract, OpMultiply, OpNone, OpDivide, OpModulo]
    · right
      simp [h5, hz, OpAdd, OpSubtract, OpMultiply, OpNone, OpDivide, OpModulo,
        Engine.finishCalculate]
  by_cases h6 : e.PendingOp = OpPower
  · right
    simp [h6, OpAdd, OpSubtract, OpMultiply, OpNone, OpDivide, OpModulo, OpPower,
      Engine.finishCalculate]
  · right
    simp [h0, h1, h2, h3, h4, h5, h6, Engine.finishCalculate]

theorem Calculate_history_le (rt : GoEnv) (e : Engine) (h : e.History.length ≤ 50) :
    (e.Calculate rt).1.History.length ≤ 50 := by
  rcases Calculate_cases rt e with h1 | h1
  · rw [h1.1]; exact h
  · rw [h1.1]; exact finishCalculate_history_le rt e _ h

/-- Every call keeps the history, except where it runs `Calculate`. -/
theorem step_history (rt : GoEnv) (e e1 : Engine) (op : Op) (h : step rt e op = some e1) :
    e1.History = e.History ∨ e1.History = (e.Calculate rt).1.History := by
  cases op
  case Calculate => right; simp only [step, Option.some.injEq] at h; rw [← h]
  case SetOperation p =>
    simp only [step, Option.some.injEq, Engine.SetOperation] at h
    rw [← h]
    by_cases hc : e.PendingOp ≠ OpNone ∧ ¬ e.NewInput = true
    · right; simp only [if_pos hc]
    · left; simp only [if_neg hc]
  case SetBitwiseOperation p =>
    simp only [step, Option.some.injEq, Engine.SetBitwiseOperation] at h
    rw [← h]
    by_cases hc : e.PendingOp ≠ OpNone ∧ ¬ e.NewInput = true
    · right; simp only [if_pos hc]
    · left; simp only [if_neg hc]
  case RotateLeft b w =>
    left
    simp only [step, Engine.RotateLeft] at h
    split at h
    · simp at h
    · simp only [Option.some.injEq] at h; rw [← h]; rfl
  case RotateRight b w =>
    left
    simp only [step, Engine.RotateRight] at h
    split at h
    · simp at h
    · simp only [Option.some.injEq] at h; rw [← h]; rfl
  case LeadingZeros w =>
    left
    simp only [step, Engine.LeadingZeros] at h
    split at h
    · simp at h
    · simp only [Option.some.injEq] at h; rw [← h]; rfl
  case TwosComplement w =>
    left
    simp only [step, Engine.TwosComplement] at h
    split at h
    · simp at h
    · simp only [Option.some.injEq] at h; rw [← h]; rfl
  all_goals
    left
    simp only [step, Option.some.injEq] at h
    rw [← h]
    simp only [Engine.Clear, Engine.ClearEntry, Engine.InputDigit, Engine.InputDecimal,
      Engine.InputExponent, Engine.InputHexDigit, Engine.Negate, Engine.Percent,
      Engine.MemoryClear, Engine.MemoryRecall, Engine.MemoryAdd, Engine.MemorySubtract,
      Engine.MemoryStore, Engine.Backspace, Engine.SetNumberBase, Engine.And, Engine.Or,
      Engine.Xor, Engine.Not, Engine.Nand, Engine.Nor, Engine.LeftShift, Engine.RightShift,
      Engine.SetBit, Engine.ClearBit, Engine.ToggleBit, Engine.CountBits,
      Engine.TrailingZeros, Engine.ByteSwap, Engine.CalculateBitwise, Engine.Sin, Engine.Cos,
      Engine.Tan, Engine.Asin, Engine.Acos, Engine.Atan, Engine.Sinh, Engine.Cosh,
      Engine.Tanh, Engine.Asinh, Engine.Acosh, Engine.Atanh, Engine.Log, Engine.Ln,
      Engine.Log2, Engine.Exp, Engine.Exp10, Engine.Exp2, Engine.Sqrt, Engine.Cbrt,
      Engine.Square, Engine.Cube, Engine.Reciprocal, Engine.Factorial, Engine.Abs,
      Engine.Floor, Engine.Ceil, Engine.Round, Engine.Pi, Engine.E, Engine.SetAngleMode,
      Engine.putInt64, Engine.putUint64, Engine.putFloat, Engine.putError]
    repeat' split
    all_goals rfl

theorem step_history_le (rt : GoEnv) (e e1 : Engine) (op : Op) (h : step rt e op = some e1)
    (hle : e.History.length ≤ 50) : e1.History.length ≤ 50 := by
  rcases step_history rt e e1 op h with h1 | h1
  · rw [h1]; exact hle
  · rw [h1]; exact Calculate_history_le rt e hle

theorem runOps_history_le (rt : GoEnv) (ops : List Op) :
    ∀ e0 e : Engine, e0.History.length ≤ 50 → runOps rt e0 ops = some e →
      e.History.length ≤ 50 := by
  induction ops with
  | nil =>
    intro e0 e h0 h
    simp only [runOps, Option.some.injEq] at h
    rw [← h]; exact h0
  | cons op ops ih =>
    intro e0 e h0 h
    simp only [runOps] at h
    cases hs : step rt e0 op with
    | none => rw [hs] at h; simp at h
    | some e1 =>
      rw [hs] at h
      exact ih e1 e (step_history_le rt e0 e1 op hs h0) h

/-- C5: the history never holds more than 50 entries in a state reachable from
`NewEngine()` by any sequence of calls; and when `Calculate` completes on a state
whose history has 50 entries, the new history is the old one without its first
entry, followed by the new entry. -/
theorem history_bounded (rt : GoEnv) (e : Engine) :
    (Reachable rt e → e.History.length ≤ 50) ∧
    (e.History.length = 50 → e.PendingOp ≠ OpNone →
      ((e.PendingOp = OpDivide ∨ e.PendingOp = OpModulo) →
        Float64.ne e.CurrentValue Float64.zero = true) →
      (e.Calculate rt).1.History =
        e.History.drop 1 ++ [e.formatNumber rt e.StoredValue ++ " " ++
          Engine.opSymbol e.PendingOp ++ " " ++ e.formatNumber rt e.CurrentValue ++ " = " ++
          e.formatNumber rt (e.Calculate rt).2]) := by
  constructor
  · rintro ⟨ops, h⟩
    exact runOps_history_le rt ops NewEngine e (by decide) h
  · intro hlen hp hok
    rcases Calculate_cases rt e with h1 | h1
    · rcases h1.2 with h2 | ⟨h2, h3⟩
      · exact absurd h2 hp
      · rw [hok h2] at h3
        exact absurd h3 (by decide)
    · have hh := congrArg (fun r => r.1.History) h1.1
      simp only at hh
      rw [hh, finishCalculate_history]
      have hgt : 50 < (e.History ++ [e.formatNumber rt e.StoredValue ++ " " ++
          Engine.opSymbol e.PendingOp ++ " " ++ e.formatNumber rt e.CurrentValue ++ " = " ++
          e.formatNumber rt (e.Calculate rt).2]).length := by
        simp only [List.length_append, List.length_singleton]
        omega
      rw [if_pos hgt]
      have hne : 1 ≤ e.History.length := by omega
      exact List.drop_append_of_le_length hne

theorem history_bounded_witness :
    (runOps GoEnv.sample NewEngine
        [Op.InputDigit "5", Op.SetOperation OpAdd, Op.InputDigit "3", Op.Calculate] =
        some { NewEngine with Display := "8", CurrentValue := Float64.ofInt 8,
                              StoredValue := Float64.ofInt 5, History := ["5 + 3 = 8"] } ∧
      ({ NewEngine with Display := "8", CurrentValue := Float64.ofInt 8,
                        StoredValue := Float64.ofInt 5,
                        History := ["5 + 3 = 8"] } : Engine).History.length ≤ 50) ∧
    (({ NewEngine with PendingOp := OpAdd,
                       History := List.replicate 50 "1 + 1 = 2" } : Engine).Calculate
        GoEnv.sample).1.History = List.replicate 49 "1 + 1 = 2" ++ ["0 + 0 = 0"] := by
  have hrun : runOps GoEnv.sample NewEngine
      [Op.InputDigit "5", Op.SetOperation OpAdd, Op.InputDigit "3", Op.Calculate] =
      some { NewEngine with Display := "8", CurrentValue := Float64.ofInt 8,
                            StoredValue := Float64.ofInt 5, History := ["5 + 3 = 8"] } := by
    decide!
  refine ⟨⟨hrun, (history_bounded GoEnv.sample _).1 ⟨_, hrun⟩⟩, ?_⟩
  rw [(history_bounded GoEnv.sample
    { NewEngine with PendingOp := OpAdd, History := List.replicate 50 "1 + 1 = 2" }).2
    (by decide) (by decide) (by decide)]
  decide!

/-- C6, as stated, fails: entering the digits of `2^53 + 1` on a fresh engine shows
`9007199254740993` while `CurrentValue` is `9007199254740992`. -/
theorem InputDigit_digits_counterexample :
    (enterDigits NewEngine "9007199254740993").Display = "9007199254740993" ∧
    numeralValue 10 (enterDigits NewEngine "9007199254740993").Display = 9007199254740993 ∧
    (enterDigits NewEngine "9007199254740993").CurrentValue =
      Float64.fin false (9007199254740992 * Float64.one) ∧
    (enterDigits NewEngine "9007199254740993").CurrentValue ≠
      Float64.fin false (9007199254740993 * Float64.one) := by
  decide!

theorem special_signed {sgn c : Char} (rest : List Char) (hs : sgn = '-' ∨ sgn = '+')
    (h : isDecDigit c = true) : special (sgn :: c :: rest) = none := by
  have e1 : "inf".data = ['i', 'n', 'f'] := rfl
  have e2 : "infinity".data = ['i', 'n', 'f', 'i', 'n', 'i', 't', 'y'] := rfl
  have e3 : "+inf".data = ['+', 'i', 'n', 'f'] := rfl
  have e4 : "+infinity".data = ['+', 'i', 'n', 'f', 'i', 'n', 'i', 't', 'y'] := rfl
  have e5 : "-inf".data = ['-', 'i', 'n', 'f'] := rfl
  have e6 : "-infinity".data = ['-', 'i', 'n', 'f', 'i', 'n', 'i', 't', 'y'] := rfl
  have e7 : "nan".data = ['n', 'a', 'n'] := rfl
  have l1 : lowerAZ '-' = '-' := by decide
  have l2 : lowerAZ '+' = '+' := by decide
  unfold special
  simp only [List.map_cons, lowerAZ_digit h, e1, e2, e3, e4, e5, e6, e7]
  rcases hs with hs | hs <;> subst hs <;>
    rcases isDecDigit_cases h with h | h | h | h | h | h | h | h | h | h <;> subst h <;>
    simp [l1, l2]

/-- The result of `ParseFloat` on a sign followed by decimal digits. -/
theorem ParseFloat_signed (sgn : Char) (hs : sgn = '-' ∨ sgn = '+') (cs : List Char)
    (hne : cs ≠ []) (hall : cs.all isDecDigit = true) :
    (ParseFloat (String.mk (sgn :: cs))).1 =
      Float64.roundGrid (decide (sgn = '-')) (numeralValue 10 (String.mk cs) * Float64.one) 1 := by
  cases cs with
  | nil => exact absurd rfl hne
  | cons c rest =>
    have hall' := hall
    simp only [List.all_cons, Bool.and_eq_true] at hall'
    obtain ⟨hc, hrest⟩ := hall'
    have hsor : sgn = '+' ∨ sgn = '-' := hs.symm
    have hread := readMantissa_digits_cons c rest hall ⟨0, 0, false, false, false⟩ rfl
    have hval : (c :: rest).foldl (fun n c => n * 10 + digitVal c) 0 =
        numeralValue 10 (String.mk (c :: rest)) := rfl
    unfold ParseFloat
    simp only [special_signed rest hs hc]
    unfold parseNumber
    simp only [hsor, if_true]
    rcases rest with _ | ⟨c1, _ | ⟨c2, r2⟩⟩
    · simp only [Bool.false_eq_true, if_false, hread]
      simp only [not_true_eq_false, if_false, ne_eq, Bool.false_eq_true, false_and, sub_zero]
      rw [hval, floatOfDigits_fst]
      simp
    · simp only [Bool.false_eq_true, if_false, hread]
      simp only [not_true_eq_false, if_false, ne_eq, Bool.false_eq_true, false_and, sub_zero]
      rw [hval, floatOfDigits_fst]
      simp
    · simp only [List.all_cons, Bool.and_eq_true] at hrest
      have := lower_digit hrest.1
      have h120 : lower c1 ≠ 120 := by omega
      have hx : ('x'.toNat) = 120 := rfl
      simp only [hx, h120, and_false, decide_False, Bool.false_eq_true, if_false, hread]
      simp only [not_true_eq_false, if_false, ne_eq, Bool.false_eq_true, false_and, sub_zero]
      rw [hval, floatOfDigits_fst]
      simp

theorem splitSign_digit {c : Char} (rest : List Char) (h : isDecDigit c = true) :
    splitSign (c :: rest) = (false, c :: rest) := by
  have hm : c ≠ '-' := by rintro rfl; revert h; decide
  have hp : c ≠ '+' := by rintro rfl; revert h; decide
  simp [splitSign, hm, hp]

theorem splitSign_append (d : List Char) {c : Char} (hc : isDecDigit c = true) :
    splitSign (d ++ [c]) = ((splitSign d).1, (splitSign d).2 ++ [c]) := by
  cases d with
  | nil => rw [List.nil_append, splitSign_digit [] hc]; rfl
  | cons x xs =>
    simp only [List.cons_append, splitSign]
    split_ifs <;> rfl

/-- The value `ParseFloat` reads from a decimal integer numeral: the integer it denotes,
rounded to the nearest `float64`. -/
theorem ParseFloat_integer (s : String) (h : isIntegerNumeral s = true) :
    (ParseFloat s).1 =
      Float64.roundGrid (splitSign s.data).1 (magnitude s * Float64.one) 1 := by
  obtain ⟨cs⟩ := s
  unfold isIntegerNumeral at h
  unfold magnitude
  simp only [decide_eq_true_eq] at h
  cases cs with
  | nil => exact absurd rfl h.1
  | cons c rest =>
    by_cases hm : c = '-'
    · subst hm
      have hsp : splitSign ('-' :: rest) = (true, rest) := by simp [splitSign]
      simp only [hsp] at h ⊢
      exact ParseFloat_signed '-' (Or.inl rfl) rest h.1 h.2
    · by_cases hp : c = '+'
      · subst hp
        have hsp : splitSign ('+' :: rest) = (false, rest) := by simp [splitSign]
        simp only [hsp] at h ⊢
        exact ParseFloat_signed '+' (Or.inr rfl) rest h.1 h.2
      · have hsp : splitSign (c :: rest) = (false, c :: rest) := by simp [splitSign, hm, hp]
        simp only [hsp] at h ⊢
        exact ParseFloat_digits (c :: rest) h.1 h.2

theorem isIntegerNumeral_iff (s : String) :
    isIntegerNumeral s = true ↔
      (splitSign s.data).2 ≠ [] ∧ (splitSign s.data).2.all isDecDigit = true := by
  simp [isIntegerNumeral]

/-- After one digit key on a fresh operand or on a signed digit string the display is a
decimal integer numeral. -/
theorem InputDigit_signed_step (e : Engine) (c : Char) (hc : isDecDigit c = true)
    (hstart : e.NewInput = true ∨ isSignedDigits e.Display = true) :
    (e.InputDigit (String.mk [c])).NewInput = false ∧
    isIntegerNumeral (e.InputDigit (String.mk [c])).Display = true := by
  rw [InputDigit_char e c (isDecDigit_ne_dot hc)]
  refine ⟨rfl, ?_⟩
  simp only
  rw [isIntegerNumeral_iff]
  split
  · show (splitSign [c]).2 ≠ [] ∧ (splitSign [c]).2.all isDecDigit = true
    rw [splitSign_digit [] hc]
    simp [hc]
  · rename_i hno
    have hN : ¬ e.NewInput = true := fun h => hno (Or.inl h)
    have hD : (splitSign e.Display.data).2.all isDecDigit = true := by
      rcases hstart with h | h
      · exact absurd h hN
      · exact h
    have : (e.Display ++ String.mk [c]).data = e.Display.data ++ [c] := rfl
    rw [this, splitSign_append _ hc]
    refine ⟨by simp, ?_⟩
    simp only
    rw [List.all_append, hD]
    simp [hc]

theorem enterDigits_signed (ds : List Char) :
    ∀ e : Engine, ds ≠ [] → ds.all isDecDigit = true →
      (e.NewInput = true ∨ isSignedDigits e.Display = true) →
      isIntegerNumeral (enterDigits e (String.mk ds)).Display = true := by
  induction ds with
  | nil => intro e h; exact absurd rfl h
  | cons c r ih =>
    intro e _ hall hstart
    simp only [List.all_cons, Bool.and_eq_true] at hall
    have hstep := InputDigit_signed_step e c hall.1 hstart
    by_cases hr : r = []
    · subst hr
      simpa [enterDigits] using hstep.2
    · have h2 : isSignedDigits (e.InputDigit (String.mk [c])).Display = true :=
        ((isIntegerNumeral_iff _).mp hstep.2).2
      have := ih (e.InputDigit (String.mk [c])) hr hall.2 (Or.inr h2)
      simpa [enterDigits] using this

/-- After one or more keys of `InputDigit` the value is what `ParseFloat` reads from the
display, in every state. -/
theorem enterDigits_parsed (ds : List Char) :
    ∀ e : Engine, ds ≠ [] →
      (enterDigits e (String.mk ds)).CurrentValue =
        (ParseFloat (enterDigits e (String.mk ds)).Display).1 := by
  induction ds with
  | nil => intro e h; exact absurd rfl h
  | cons c r ih =>
    intro e _
    by_cases hr : r = []
    · subst hr
      have h : (e.InputDigit (String.mk [c])).CurrentValue =
          (ParseFloat (e.InputDigit (String.mk [c])).Display).1 := by
        unfold Engine.InputDigit
        rfl
      simpa [enterDigits] using h
    · have := ih (e.InputDigit (String.mk [c])) hr
      simpa [enterDigits] using this

/-- C6, amended: after a non-empty sequence of digit keys, applied to any state,
`CurrentValue` is the value `ParseFloat` reads from `Display`.  When the sequence starts
a fresh operand (`NewInput`) or continues a display made of decimal digits after an
optional sign (as `-5` after a change of sign), `Display` is a decimal integer numeral,
without a sign if there was none; and whenever `Display` is a decimal integer numeral,
`CurrentValue` is the `float64` nearest to the integer it denotes, which is that integer
itself when its magnitude is below `2^53`.  `InputDigit` replaces the display by the
digit when `NewInput` is true or the display is exactly "0", and appends it otherwise. -/
theorem InputDigit_digits_value (e : Engine) (ds : List Char) (hne : ds ≠ [])
    (hall : ds.all isDecDigit = true) :
    (enterDigits e (String.mk ds)).CurrentValue =
      (ParseFloat (enterDigits e (String.mk ds)).Display).1 ∧
    (e.NewInput = true ∨ isSignedDigits e.Display = true →
      isIntegerNumeral (enterDigits e (String.mk ds)).Display = true) ∧
    (e.NewInput = true ∨ isDigitString e.Display = true →
      isDigitString (enterDigits e (String.mk ds)).Display = true) ∧
    (isIntegerNumeral (enterDigits e (String.mk ds)).Display = true →
      (enterDigits e (String.mk ds)).CurrentValue =
        Float64.roundGrid (splitSign (enterDigits e (String.mk ds)).Display.data).1
          (magnitude (enterDigits e (String.mk ds)).Display * Float64.one) 1 ∧
      (magnitude (enterDigits e (String.mk ds)).Display < 2 ^ 53 →
        (enterDigits e (String.mk ds)).CurrentValue =
          Float64.fin (splitSign (enterDigits e (String.mk ds)).Display.data).1
            (magnitude (enterDigits e (String.mk ds)).Display * Float64.one))) ∧
    (∀ (st : Engine) (c : Char), isDecDigit c = true →
      (st.InputDigit (String.mk [c])).Display =
        if st.NewInput = true ∨ st.Display = "0" then String.mk [c]
        else st.Display ++ String.mk [c]) := by
  have hval := enterDigits_parsed ds e hne
  refine ⟨hval, fun hs => enterDigits_signed ds e hne hall hs,
    fun hs => (enterDigits_digits ds e hne hall hs).2.1, ?_, ?_⟩
  · intro hnum
    have hround : (enterDigits e (String.mk ds)).CurrentValue =
        Float64.roundGrid (splitSign (enterDigits e (String.mk ds)).Display.data).1
          (magnitude (enterDigits e (String.mk ds)).Display * Float64.one) 1 := by
      rw [hval]; exact ParseFloat_integer _ hnum
    refine ⟨hround, ?_⟩
    intro hlt
    rw [hround]
    have := Float64.roundGrid_exact (splitSign (enterDigits e (String.mk ds)).Display.data).1
      _ 1 (by decide) (Float64.exact_int hlt)
    rwa [Nat.mul_one] at this
  · intro st c hc
    rw [InputDigit_char st c (isDecDigit_ne_dot hc)]

theorem InputDigit_digits_value_witness :
    (enterDigits ((NewEngine.InputDigit "5").Negate GoEnv.sample) "3").Display = "-53" ∧
    (enterDigits ((NewEngine.InputDigit "5").Negate GoEnv.sample) "3").CurrentValue =
      Float64.fin true (53 * Float64.one) := by
  have h := InputDigit_digits_value ((NewEngine.InputDigit "5").Negate GoEnv.sample)
    ['3'] (by decide) (by decide)
  have hd : (enterDigits ((NewEngine.InputDigit "5").Negate GoEnv.sample)
      (String.mk ['3'])).Display = "-53" := by decide!
  have hnum := h.2.1 (Or.inr (by decide!))
  have hm : magnitude (enterDigits ((NewEngine.InputDigit "5").Negate GoEnv.sample)
      (String.mk ['3'])).Display = 53 := by rw [hd]; decide
  have hs : (splitSign (enterDigits ((NewEngine.InputDigit "5").Negate GoEnv.sample)
      (String.mk ['3'])).Display.data).1 = true := by rw [hd]; decide
  have h3 := (h.2.2.2.1 hnum).2 (by rw [hm]; decide)
  rw [hm, hs] at h3
  exact ⟨hd, h3⟩

/-! ## hexadecimal entry -/

theorem foldl_digits_ge (base : Nat) (cs : List Char) :
    ∀ n, 0 < base → n ≤ cs.foldl (fun n c => n * base + digitVal c) n := by
  induction cs with
  | nil => intro n _; exact le_refl _
  | cons c r ih =>
    intro n hb
    simp only [List.foldl_cons]
    have h1 : n ≤ n * base + digitVal c := by
      have : n * 1 ≤ n * base := Nat.mul_le_mul_left n hb
      omega
    exact le_trans h1 (ih _ hb)

/-- The digit loop `parseUintLoop` on valid digits whose value fits in 64 bits. -/
theorem parseUintLoop_numeral (base : Nat) (hb : 2 ≤ base) (cs : List Char) :
    ∀ n, (∀ c ∈ cs, (isDecDigit c = true ∨ isLetterUpTo 'z' c = true) ∧ digitVal c < base) →
      cs.foldl (fun n c => n * base + digitVal c) n < 2 ^ 64 →
      parseUintLoop base cs n = (cs.foldl (fun n c => n * base + digitVal c) n, none) := by
  induction cs with
  | nil => intro n _ _; simp [parseUintLoop]
  | cons c r ih =>
    intro n hall hlt
    simp only [List.foldl_cons] at hlt ⊢
    have hc := hall c (List.mem_cons_self _ _)
    have hr : ∀ c ∈ r, (isDecDigit c = true ∨ isLetterUpTo 'z' c = true) ∧ digitVal c < base :=
      fun x hx => hall x (List.mem_cons_of_mem _ hx)
    have hge := foldl_digits_ge base r (n * base + digitVal c) (by omega)
    have hcut : ¬ ((2 ^ 64 - 1) / base + 1 ≤ n) := by
      intro hcon
      have h3 : (2 ^ 64 - 1) / base < n := by omega
      have h4 := (Nat.div_lt_iff_lt_mul (by omega : 0 < base)).mp h3
      omega
    rw [parseUintLoop, if_pos hc.1]
    simp only
    rw [if_neg (by omega), if_neg hcut, if_neg (by omega)]
    exact ih _ hr hlt

theorem ParseInt_numeral (c : Char) (rest : List Char)
    (hall : ∀ x ∈ c :: rest, (isDecDigit x = true ∨ isLetterUpTo 'z' x = true) ∧
      digitVal x < 16)
    (hlt : numeralValue 16 (String.mk (c :: rest)) < 2 ^ 63) :
    ParseInt (String.mk (c :: rest)) 16 =
      (((numeralValue 16 (String.mk (c :: rest)) : Nat) : Int), none) := by
  have hloop := parseUintLoop_numeral 16 (by decide) (c :: rest) 0 hall
    (lt_trans hlt (by decide))
  have hpu := ParseUint_of_loop hloop (by simp)
  obtain ⟨hp, hm⟩ := head_not_sign hloop
  have hv : (c :: rest).foldl (fun n c => n * 16 + digitVal c) 0 =
      numeralValue 16 (String.mk (c :: rest)) := rfl
  rw [hv] at hpu
  unfold ParseInt
  simp only [hp, hm, or_self, if_false, hpu, decide_False, not_false_eq_true, true_and,
    false_and, Bool.false_eq_true]
  rw [if_neg (by omega)]

/-- The effect of `InputHexDigit` in hexadecimal mode. -/
theorem InputHexDigit_char (e : Engine) (c : Char) (hb : e.NumberBase = Hexadecimal) :
    e.InputHexDigit (String.mk [c]) =
      { e with
        Display := if e.NewInput = true ∨ e.Display = "0" then String.mk [c]
                   else e.Display ++ String.mk [c],
        NewInput := false,
        CurrentValue := Float64.ofInt (ParseInt (if e.NewInput = true ∨ e.Display = "0" then
          String.mk [c] else e.Display ++ String.mk [c]) 16).1 } := by
  unfold Engine.InputHexDigit
  cases hN : e.NewInput
  · by_cases hD : e.Display = "0"
    · simp [hD, hN, hb]
    · simp [hD, hN, hb]
  · simp [hb]

theorem enterHex_append (rest : List Char) :
    ∀ (e : Engine) (h : Char) (t : List Char), e.NumberBase = Hexadecimal →
      e.NewInput = false → e.Display = String.mk (h :: t) → h ≠ '0' → rest ≠ [] →
      rest.foldl (fun st c => st.InputHexDigit (String.mk [c])) e =
        { e with Display := String.mk (h :: t ++ rest),
                 CurrentValue := Float64.ofInt (ParseInt (String.mk (h :: t ++ rest)) 16).1 } := by
  induction rest with
  | nil => intro e h t _ _ _ _ hne; exact absurd rfl hne
  | cons c r ih =>
    intro e h t hb hN hD hh _
    have hstep : e.InputHexDigit (String.mk [c]) =
        { e with Display := String.mk (h :: t ++ [c]),
                 CurrentValue := Float64.ofInt (ParseInt (String.mk (h :: t ++ [c])) 16).1 } := by
      have hD0 : e.Display ≠ "0" := by rw [hD]; exact mk_ne_zero t hh
      have happ : e.Display ++ String.mk [c] = String.mk (h :: t ++ [c]) := by
        rw [hD]; rfl
      rw [InputHexDigit_char e c hb]
      simp [hN, hD0, happ]
    rw [List.foldl_cons]
    by_cases hr : r = []
    · subst hr; simp [hstep]
    · have h1N : (e.InputHexDigit (String.mk [c])).NewInput = false := by rw [hstep]; exact hN
      have h1D : (e.InputHexDigit (String.mk [c])).Display = String.mk (h :: (t ++ [c])) := by
        rw [hstep]; rfl
      have h1B : (e.InputHexDigit (String.mk [c])).NumberBase = Hexadecimal := by
        rw [hstep]; exact hb
      rw [ih _ h (t ++ [c]) h1B h1N h1D hh hr, hstep]
      simp

theorem enterHexDigits_fresh (e : Engine) (c : Char) (rest : List Char)
    (hb : e.NumberBase = Hexadecimal) (hN : e.NewInput = true) (h0 : c ≠ '0' ∨ rest = []) :
    enterHexDigits e (String.mk (c :: rest)) =
      { e with Display := String.mk (c :: rest), NewInput := false,
               CurrentValue := Float64.ofInt (ParseInt (String.mk (c :: rest)) 16).1 } := by
  unfold enterHexDigits
  simp only [List.foldl_cons]
  rw [InputHexDigit_char e c hb]
  simp only [hN, true_or, if_true]
  by_cases hr : rest = []
  · subst hr; simp
  · have hc0 : c ≠ '0' := by
      rcases h0 with h | h
      · exact h
      · exact absurd h hr
    rw [enterHex_append rest _ c [] (by exact hb) rfl rfl hc0 hr]
    simp

theorem isHexDigit_valid {c : Char} (h : isHexDigit c = true) :
    (isDecDigit c = true ∨ isLetterUpTo 'z' c = true) ∧ digitVal c < 16 := by
  unfold isHexDigit at h
  simp only [Bool.or_eq_true] at h
  by_cases hd : isDecDigit c = true
  · refine ⟨Or.inl hd, ?_⟩
    rw [digitVal_dec hd]
    rw [isDecDigit_iff] at hd
    have : '0'.toNat = 48 := rfl
    omega
  · have hl : isLetterUpTo 'f' c = true := by
      rcases h with h | h
      · exact absurd h hd
      · exact h
    have hl2 := hl
    simp only [isLetterUpTo, decide_eq_true_eq] at hl2
    have ha : 'a'.toNat = 97 := rfl
    have hf : 'f'.toNat = 102 := rfl
    have hz : 'z'.toNat = 122 := rfl
    refine ⟨Or.inr ?_, ?_⟩
    · simp only [isLetterUpTo, decide_eq_true_eq]
      omega
    · unfold digitVal
      rw [if_neg hd]
      omega

theorem toInt64_natCast (rt : GoEnv) (m : Nat) (h : m < 2 ^ 63) :
    toInt64 rt (Float64.fin false (m * Float64.one)) = (m : Int) := by
  rw [toInt64_int rt false m h]
  simp [Float64.gridInt]

/-- C7, as stated, fails: in hexadecimal mode the digits `20000000000001` (the value
`2^53 + 1`) leave `CurrentValue` at `2^53`. -/
theorem hex_entry_counterexample :
    (enterHexDigits (NewEngine.SetNumberBase GoEnv.sample Hexadecimal)
      "20000000000001").Display = "20000000000001" ∧
    numeralValue 16 "20000000000001" = 9007199254740993 ∧
    (enterHexDigits (NewEngine.SetNumberBase GoEnv.sample Hexadecimal)
      "20000000000001").CurrentValue = Float64.fin false (9007199254740992 * Float64.one) ∧
    (enterHexDigits (NewEngine.SetNumberBase GoEnv.sample Hexadecimal)
      "20000000000001").CurrentValue ≠ Float64.fin false (9007199254740993 * Float64.one) := by
  decide!

/-- C7, amended: in hexadecimal mode on a fresh operand, entering hex digits that
do not start with a superfluous `0` and whose base-16 value is below `2^53` leaves
`Display` equal to the entered string and `CurrentValue` equal to its value; a
following `SetNumberBase(b)` leaves `CurrentValue` unchanged and sets `Display` to the
numeral of that value in base `b`. The digits `F`, `F` give "FF" and 255, and the
switch to decimal gives "255". -/
theorem hex_entry_then_base (rt : GoEnv) (e : Engine) (c : Char) (rest : List Char)
    (b : NumberBase) (hb : e.NumberBase = Hexadecimal) (hN : e.NewInput = true)
    (hall : (c :: rest).all isHexDigit = true) (h0 : c ≠ '0' ∨ rest = [])
    (hv : numeralValue 16 (String.mk (c :: rest)) < 2 ^ 53) :
    (enterHexDigits e (String.mk (c :: rest))).Display = String.mk (c :: rest) ∧
    (enterHexDigits e (String.mk (c :: rest))).CurrentValue =
      Float64.fin false (numeralValue 16 (String.mk (c :: rest)) * Float64.one) ∧
    ((enterHexDigits e (String.mk (c :: rest))).SetNumberBase rt b).CurrentValue =
      (enterHexDigits e (String.mk (c :: rest))).CurrentValue ∧
    ((enterHexDigits e (String.mk (c :: rest))).SetNumberBase rt b).Display =
      (if b = Binary then FormatInt (numeralValue 16 (String.mk (c :: rest))) 2
       else if b = Octal then FormatInt (numeralValue 16 (String.mk (c :: rest))) 8
       else if b = Hexadecimal then
         ToUpper (FormatInt (numeralValue 16 (String.mk (c :: rest))) 16)
       else toString (numeralValue 16 (String.mk (c :: rest)))) ∧
    (enterHexDigits (NewEngine.SetNumberBase rt Hexadecimal) "FF").Display = "FF" ∧
    (enterHexDigits (NewEngine.SetNumberBase rt Hexadecimal) "FF").CurrentValue =
      Float64.fin false (255 * Float64.one) ∧
    ((enterHexDigits (NewEngine.SetNumberBase rt Hexadecimal) "FF").SetNumberBase rt
      Decimal).Display = "255" := by
  have gen : ∀ (e : Engine) (c : Char) (rest : List Char) (b : NumberBase),
      e.NumberBase = Hexadecimal → e.NewInput = true →
      (c :: rest).all isHexDigit = true → (c ≠ '0' ∨ rest = []) →
      numeralValue 16 (String.mk (c :: rest)) < 2 ^ 53 →
      (enterHexDigits e (String.mk (c :: rest))).Display = String.mk (c :: rest) ∧
      (enterHexDigits e (String.mk (c :: rest))).CurrentValue =
        Float64.fin false (numeralValue 16 (String.mk (c :: rest)) * Float64.one) ∧
      ((enterHexDigits e (String.mk (c :: rest))).SetNumberBase rt b).CurrentValue =
        (enterHexDigits e (String.mk (c :: rest))).CurrentValue ∧
      ((enterHexDigits e (String.mk (c :: rest))).SetNumberBase rt b).Display =
        (if b = Binary then FormatInt (numeralValue 16 (String.mk (c :: rest))) 2
         else if b = Octal then FormatInt (numeralValue 16 (String.mk (c :: rest))) 8
         else if b = Hexadecimal then
           ToUpper (FormatInt (numeralValue 16 (String.mk (c :: rest))) 16)
         else toString (numeralValue 16 (String.mk (c :: rest)))) := by
    intro e c rest b hb hN hall h0 hv
    have hvalid : ∀ x ∈ c :: rest, (isDecDigit x = true ∨ isLetterUpTo 'z' x = true) ∧
        digitVal x < 16 := by
      intro x hx
      exact isHexDigit_valid (List.all_eq_true.mp hall x hx)
    have hparse := ParseInt_numeral c rest hvalid (lt_trans hv (by decide))
    have hstate := enterHexDigits_fresh e c rest hb hN h0
    rw [hparse] at hstate
    simp only at hstate
    rw [Float64.ofInt_natCast hv] at hstate
    rw [hstate]
    refine ⟨rfl, rfl, rfl, ?_⟩
    simp only [Engine.SetNumberBase, Engine.FormatInBase]
    rw [toInt64_natCast rt _ (lt_trans hv (by decide)),
      FormatInt_eq_toString _ (lt_trans hv (by decide))]
  refine ⟨(gen e c rest b hb hN hall h0 hv).1, (gen e c rest b hb hN hall h0 hv).2.1,
    (gen e c rest b hb hN hall h0 hv).2.2.1, (gen e c rest b hb hN hall h0 hv).2.2.2, ?_⟩
  have hval : numeralValue 16 (String.mk ['F', 'F']) = 255 := by decide
  have h := gen (NewEngine.SetNumberBase rt Hexadecimal) 'F' ['F'] Decimal rfl rfl
    (by decide) (Or.inl (by decide)) (by rw [hval]; decide)
  rw [hval] at h
  refine ⟨h.1, h.2.1, ?_⟩
  have h4 := h.2.2.2
  simp only [Decimal, Binary, Octal, Hexadecimal] at h4
  exact h4

theorem hex_entry_then_base_witness :
    (enterHexDigits { NewEngine with NumberBase := Hexadecimal } "1e").Display = "1e" ∧
    (enterHexDigits { NewEngine with NumberBase := Hexadecimal } "1e").CurrentValue =
      Float64.fin false (30 * Float64.one) ∧
    ((enterHexDigits { NewEngine with NumberBase := Hexadecimal } "1e").SetNumberBase
      GoEnv.sample Binary).Display = "11110" := by
  have hval : numeralValue 16 (String.mk ['1', 'e']) = 30 := by decide
  have h := hex_entry_then_base GoEnv.sample { NewEngine with NumberBase := Hexadecimal }
    '1' ['e'] Binary rfl rfl (by decide) (Or.inl (by decide)) (by rw [hval]; decide)
  rw [hval] at h
  refine ⟨h.1, h.2.1, ?_⟩
  rw [h.2.2.2.1]
  decide

/-! ## rotations -/

theorem testBit_shl64 (x n i : Nat) :
    (shl64 x n).testBit i =
      (decide (n < 64) && (decide (i < 64) && (decide (n ≤ i) && x.testBit (i - n)))) := by
  unfold shl64
  by_cases h : 64 ≤ n
  · have : ¬ n < 64 := by omega
    simp [h, this]
  · have h' : n < 64 := by omega
    rw [if_neg h, ← Nat.shiftLeft_eq, Nat.testBit_mod_two_pow, Nat.testBit_shiftLeft]
    simp [h']

theorem testBit_shr64 (x n i : Nat) :
    (shr64 x n).testBit i = (decide (n < 64) && x.testBit (n + i)) := by
  unfold shr64
  by_cases h : 64 ≤ n
  · have : ¬ n < 64 := by omega
    simp [h, this]
  · have h' : n < 64 := by omega
    rw [if_neg h, ← Nat.shiftRight_eq_div_pow, Nat.testBit_shiftRight]
    simp [h']

theorem testBit_high {x W i : Nat} (h : x < 2 ^ W) (hi : W ≤ i) : x.testBit i = false :=
  Nat.testBit_lt_two_pow (lt_of_lt_of_le h (Nat.pow_le_pow_right (by decide) hi))

/-- Rotating left and then right by the same count within `W` bits is the identity. -/
theorem rotate_inverse (W b val : Nat) (hW : W ≤ 64) (hb : b < W) (hval : val < 2 ^ W) :
    (shr64 ((shl64 val b ||| shr64 val (W - b)) &&& (2 ^ W - 1)) b |||
      shl64 ((shl64 val b ||| shr64 val (W - b)) &&& (2 ^ W - 1)) (W - b)) &&& (2 ^ W - 1) =
      val := by
  apply Nat.eq_of_testBit_eq
  intro i
  simp only [Nat.testBit_and, Nat.testBit_or, testBit_shl64, testBit_shr64,
    Nat.testBit_two_pow_sub_one]
  have hb64 : b < 64 := by omega
  by_cases hi : i < W
  · have hi64 : i < 64 := by omega
    by_cases h1 : b + i < W
    · -- the bit comes back through the right shift
      have e1 : b + i - b = i := by omega
      have h2 : ¬ (W - b ≤ i) := by omega
      have h7 : val.testBit (W - b + (b + i)) = false := testBit_high hval (by omega)
      simp [hi, hi64, hb64, h1, e1, h2, h7, (by omega : b + i < 64), (by omega : b ≤ b + i)]
    · -- the bit wrapped around
      have h2 : W - b ≤ i := by omega
      have e1 : W - b + (i - (W - b)) = i := by omega
      have h3 : ¬ (b ≤ i - (W - b)) := by omega
      have h4 : W - b < 64 := by omega
      have h5 : i - (W - b) < W := by omega
      have h6 : i - (W - b) < 64 := by omega
      simp [hi, hi64, hb64, h1, h2, e1, h3, h4, h5, h6]
  · have := testBit_high hval (by omega : W ≤ i)
    simp [hi, this]

theorem and_mask_lt (x W : Nat) : x &&& (2 ^ W - 1) < 2 ^ W := by
  rw [Nat.and_pow_two_sub_one_eq_mod]
  exact Nat.mod_lt _ (Nat.two_pow_pos W)

theorem and_mask_idem (x m : Nat) : (x &&& m) &&& m = x &&& m := by
  rw [Nat.and_assoc, Nat.and_self]

/-- The two rotations on a width for which mask and width are as expected. -/
theorem rotate_core (rt : GoEnv) (e : Engine) (amount : Nat) (w : BitWidth) (W : Nat)
    (hpos : ¬ w ≤ 0) (hW : wrapUint64 w = W) (hW64 : W ≤ 64) (hW0 : 0 < W)
    (hmask : maskU w = 2 ^ W - 1)
    (hexact : (shl64 (toUint64 rt e.CurrentValue &&& (2 ^ W - 1)) (amount % W) |||
      shr64 (toUint64 rt e.CurrentValue &&& (2 ^ W - 1)) (W - amount % W)) &&& (2 ^ W - 1)
        < 2 ^ 53) :
    ((e.RotateLeft rt amount w).bind (fun e1 => e1.RotateRight rt amount w)).map
        (fun e2 => e2.CurrentValue) =
      some (Float64.ofInt ((toUint64 rt e.CurrentValue &&& (2 ^ W - 1) : Nat) : Int)) := by
  unfold Engine.RotateLeft
  rw [if_neg hpos]
  simp only [Option.some_bind]
  unfold Engine.RotateRight
  rw [if_neg hpos]
  simp only [Option.map_some', hW, hmask, Engine.putUint64]
  rw [Float64.ofInt_natCast hexact, toUint64_int rt _ (lt_trans hexact (by decide)),
    and_mask_idem]
  rw [rotate_inverse W (amount % W) _ hW64 (Nat.mod_lt _ hW0) (and_mask_lt _ W)]

/-- C9, as stated, fails at width 64: the value 3 rotated left by 63 is `2^63 + 1`,
which `float64` holds as `2^63`, and rotating that right by 63 gives 1. -/
theorem rotate_roundtrip_counterexample :
    toUint64 GoEnv.sample (enterDigits NewEngine "3").CurrentValue &&& (2 ^ 64 - 1) = 3 ∧
    (((enterDigits NewEngine "3").RotateLeft GoEnv.sample 63 Bits64).bind
        (fun e1 => e1.RotateRight GoEnv.sample 63 Bits64)).map (fun e2 => e2.CurrentValue) =
      some (Float64.fin false (1 * Float64.one)) ∧
    Float64.fin false (1 * Float64.one) ≠ Float64.ofInt 3 := by
  decide!

/-- C9, amended: for the widths 8, 16 and 32, and for width 64 when the rotated
intermediate value is below `2^53` (so that `float64` holds it exactly), `RotateLeft`
followed by `RotateRight` with the same amount and width leaves `CurrentValue` equal to
`v & (2^width - 1)`, `v` being the unsigned truncation of the initial value. -/
theorem rotate_roundtrip (rt : GoEnv) (e : Engine) (amount : Nat) (w : BitWidth)
    (hw : w = Bits8 ∨ w = Bits16 ∨ w = Bits32 ∨ w = Bits64)
    (hexact : w = Bits64 → rotlValue (toUint64 rt e.CurrentValue) amount 64 < 2 ^ 53) :
    ((e.RotateLeft rt amount w).bind (fun e1 => e1.RotateRight rt amount w)).map
        (fun e2 => e2.CurrentValue) =
      some (Float64.ofInt ((toUint64 rt e.CurrentValue &&& (2 ^ w.toNat - 1) : Nat) : Int)) := by
  rcases hw with h | h | h | h <;> subst h
  · exact rotate_core rt e amount Bits8 8 (by decide) (by decide) (by decide)
      (by decide) (by decide) (lt_trans (and_mask_lt _ 8) (by decide))
  · exact rotate_core rt e amount Bits16 16 (by decide) (by decide) (by decide)
      (by decide) (by decide) (lt_trans (and_mask_lt _ 16) (by decide))
  · exact rotate_core rt e amount Bits32 32 (by decide) (by decide) (by decide)
      (by decide) (by decide) (lt_trans (and_mask_lt _ 32) (by decide))
  · exact rotate_core rt e amount Bits64 64 (by decide) (by decide) (by decide)
      (by decide) (by decide) (hexact rfl)

theorem rotate_roundtrip_witness :
    (((enterDigits NewEngine "300").RotateLeft GoEnv.sample 3 Bits8).bind
        (fun e1 => e1.RotateRight GoEnv.sample 3 Bits8)).map (fun e2 => e2.CurrentValue) =
      some (Float64.ofInt 44) ∧
    (((enterDigits NewEngine "5").RotateLeft GoEnv.sample 70 Bits64).bind
        (fun e1 => e1.RotateRight GoEnv.sample 70 Bits64)).map (fun e2 => e2.CurrentValue) =
      some (Float64.ofInt 5) := by
  have h1 := rotate_roundtrip GoEnv.sample (enterDigits NewEngine "300") 3 Bits8
    (Or.inl rfl) (by decide)
  have h2 := rotate_roundtrip GoEnv.sample (enterDigits NewEngine "5") 70 Bits64
    (Or.inr (Or.inr (Or.inr rfl))) (by intro _; decide!)
  have v1 : toUint64 GoEnv.sample (enterDigits NewEngine "300").CurrentValue &&&
      (2 ^ Bits8.toNat - 1) = 44 := by decide!
  have v2 : toUint64 GoEnv.sample (enterDigits NewEngine "5").CurrentValue &&&
      (2 ^ Bits64.toNat - 1) = 5 := by decide!
  rw [v1] at h1
  rw [v2] at h2
  exact ⟨h1, h2⟩

/-! ## two's complement -/

theorem toInt64_range (rt : GoEnv) (x : Float64) :
    -(2 ^ 63) ≤ toInt64 rt x ∧ toInt64 rt x < 2 ^ 63 := by
  have hw : ∀ z : Int, -(2 ^ 63) ≤ wrapInt64 z ∧ wrapInt64 z < 2 ^ 63 := by
    intro z
    unfold wrapInt64
    omega
  unfold toInt64
  split
  · simp only
    split
    · rename_i h; exact h
    · exact hw _
  · exact hw _

theorem andInt64_low (x : Int) (W : Nat) (hW : W = 8 ∨ W = 16 ∨ W = 32) :
    andInt64 x (2 ^ W - 1) = x % 2 ^ W := by
  unfold andInt64
  rcases hW with h | h | h <;> subst h
  · have hm : wrapUint64 (2 ^ 8 - 1) = 2 ^ 8 - 1 := by decide
    rw [hm, Nat.and_pow_two_sub_one_eq_mod]
    unfold wrapUint64 wrapInt64
    omega
  · have hm : wrapUint64 (2 ^ 16 - 1) = 2 ^ 16 - 1 := by decide
    rw [hm, Nat.and_pow_two_sub_one_eq_mod]
    unfold wrapUint64 wrapInt64
    omega
  · have hm : wrapUint64 (2 ^ 32 - 1) = 2 ^ 32 - 1 := by decide
    rw [hm, Nat.and_pow_two_sub_one_eq_mod]
    unfold wrapUint64 wrapInt64
    omega

theorem andInt64_all (x : Int) (h1 : -(2 ^ 63) ≤ x) (h2 : x < 2 ^ 63) :
    andInt64 x (-1) = x := by
  unfold andInt64
  have hm : wrapUint64 (-1) = 2 ^ 64 - 1 := by decide
  rw [hm, Nat.and_pow_two_sub_one_eq_mod]
  unfold wrapUint64 wrapInt64
  omega

theorem toInt64_ofInt_nonneg (rt : GoEnv) (R : Int) (h0 : 0 ≤ R) (h : R < 2 ^ 53) :
    toInt64 rt (Float64.ofInt R) = R := by
  obtain ⟨m, rfl⟩ := Int.eq_ofNat_of_zero_le h0
  have hm : m < 2 ^ 53 := by omega
  rw [Float64.ofInt_natCast hm, toInt64_natCast rt m (lt_trans hm (by decide))]

/-- Two's complement on a width below 64, once and twice. -/
theorem twos_complement_low (rt : GoEnv) (e : Engine) (w : BitWidth) (W : Nat)
    (hneg : ¬ w < 0) (hmask : maskI w = 2 ^ W - 1) (hW : W = 8 ∨ W = 16 ∨ W = 32) :
    (e.TwosComplement rt w).map (fun e1 => e1.CurrentValue) =
      some (Float64.ofInt ((-(toInt64 rt e.CurrentValue)) % 2 ^ W)) ∧
    ((e.TwosComplement rt w).bind (fun e1 => e1.TwosComplement rt w)).map
        (fun e2 => e2.CurrentValue) =
      some (Float64.ofInt (toInt64 rt e.CurrentValue % 2 ^ W)) := by
  have hfirst : ∀ v : Int, andInt64 (wrapInt64 (notInt64 v + 1)) (2 ^ W - 1) = (-v) % 2 ^ W := by
    intro v
    rw [andInt64_low _ W hW]
    unfold wrapInt64 notInt64
    rcases hW with h | h | h <;> subst h <;> omega
  have hrange : ∀ v : Int, 0 ≤ (-v) % 2 ^ W ∧ (-v) % 2 ^ W < 2 ^ 53 := by
    intro v
    rcases hW with h | h | h <;> subst h <;> omega
  have hback : ∀ v : Int, (-((-v) % 2 ^ W)) % 2 ^ W = v % 2 ^ W := by
    intro v
    rcases hW with h | h | h <;> subst h <;> omega
  unfold Engine.TwosComplement
  rw [if_neg hneg]
  simp only [Option.map_some', Option.some_bind, Engine.putInt64, hmask, hfirst]
  refine ⟨trivial, ?_⟩
  rw [if_neg hneg]
  simp only [Option.map_some']
  rw [toInt64_ofInt_nonneg rt _ (hrange _).1 (hrange _).2, hback]

theorem wrapInt64_neg_neg (v : Int) (h1 : -(2 ^ 63) ≤ v) (h2 : v < 2 ^ 63) :
    wrapInt64 (-(wrapInt64 (-v))) = v := by
  unfold wrapInt64
  omega

/-- Two's complement on width 64, once and twice. -/
theorem twos_complement_64 (rt : GoEnv) (e : Engine) :
    (e.TwosComplement rt Bits64).map (fun e1 => e1.CurrentValue) =
      some (Float64.ofInt (wrapInt64 (-(toInt64 rt e.CurrentValue)))) ∧
    (toInt64 rt (Float64.ofInt (wrapInt64 (-(toInt64 rt e.CurrentValue)))) =
        wrapInt64 (-(toInt64 rt e.CurrentValue)) →
      ((e.TwosComplement rt Bits64).bind (fun e1 => e1.TwosComplement rt Bits64)).map
          (fun e2 => e2.CurrentValue) =
        some (Float64.ofInt (toInt64 rt e.CurrentValue))) := by
  have hmask : maskI Bits64 = -1 := by decide
  have hr := toInt64_range rt e.CurrentValue
  have hfirst : ∀ v : Int, andInt64 (wrapInt64 (notInt64 v + 1)) (-1) = wrapInt64 (-v) := by
    intro v
    have e1 : notInt64 v + 1 = -v := by unfold notInt64; omega
    rw [e1]
    have : -(2 ^ 63) ≤ wrapInt64 (-v) ∧ wrapInt64 (-v) < 2 ^ 63 := by
      unfold wrapInt64; omega
    exact andInt64_all _ this.1 this.2
  have hneg : ¬ Bits64 < 0 := by decide
  unfold Engine.TwosComplement
  rw [if_neg hneg]
  simp only [Option.map_some', Option.some_bind, Engine.putInt64, hmask, hfirst]
  refine ⟨trivial, ?_⟩
  intro hex
  rw [if_neg hneg]
  simp only [Option.map_some']
  rw [hex, wrapInt64_neg_neg _ hr.1 hr.2]

/-- C10, as stated, fails at width 64: for the value 5 the call leaves
`CurrentValue = -5`, not `(-5) mod 2^64 = 18446744073709551611`. -/
theorem twos_complement_counterexample :
    toInt64 GoEnv.sample (enterDigits NewEngine "5").CurrentValue = 5 ∧
    ((enterDigits NewEngine "5").TwosComplement GoEnv.sample Bits64).map
        (fun e1 => e1.CurrentValue) = some (Float64.fin true (5 * Float64.one)) ∧
    Float64.fin true (5 * Float64.one) ≠ Float64.ofInt ((-5) % 2 ^ 64) := by
  decide!

/-- C10, amended: for the widths 8, 16 and 32, `TwosComplement(width)` sets
`CurrentValue` to `(-v) mod 2^width`, and applying it twice leaves
`v mod 2^width = v & (2^width - 1)`; for width 64 it sets `CurrentValue` to `-v` as a
signed 64-bit integer (negative for positive `v`), and applying it twice gives back `v`
provided `float64` holds `-v` exactly. Here `v` is the `int64` truncation of the
initial value. -/
theorem twos_complement_twice (rt : GoEnv) (e : Engine) (w : BitWidth)
    (hw : w = Bits8 ∨ w = Bits16 ∨ w = Bits32 ∨ w = Bits64) :
    (w ≠ Bits64 →
      (e.TwosComplement rt w).map (fun e1 => e1.CurrentValue) =
        some (Float64.ofInt ((-(toInt64 rt e.CurrentValue)) % 2 ^ w.toNat)) ∧
      ((e.TwosComplement rt w).bind (fun e1 => e1.TwosComplement rt w)).map
          (fun e2 => e2.CurrentValue) =
        some (Float64.ofInt (toInt64 rt e.CurrentValue % 2 ^ w.toNat)) ∧
      toInt64 rt e.CurrentValue % 2 ^ w.toNat =
        andInt64 (toInt64 rt e.CurrentValue) (2 ^ w.toNat - 1)) ∧
    (w = Bits64 →
      (e.TwosComplement rt w).map (fun e1 => e1.CurrentValue) =
        some (Float64.ofInt (wrapInt64 (-(toInt64 rt e.CurrentValue)))) ∧
      (toInt64 rt (Float64.ofInt (wrapInt64 (-(toInt64 rt e.CurrentValue)))) =
          wrapInt64 (-(toInt64 rt e.CurrentValue)) →
        ((e.TwosComplement rt w).bind (fun e1 => e1.TwosComplement rt w)).map
            (fun e2 => e2.CurrentValue) =
          some (Float64.ofInt (toInt64 rt e.CurrentValue)))) := by
  rcases hw with h | h | h | h <;> subst h
  · refine ⟨fun _ => ?_, fun h => absurd h (by decide)⟩
    have := twos_complement_low rt e Bits8 8 (by decide) (by decide) (Or.inl rfl)
    exact ⟨this.1, this.2, (andInt64_low _ 8 (Or.inl rfl)).symm⟩
  · refine ⟨fun _ => ?_, fun h => absurd h (by decide)⟩
    have := twos_complement_low rt e Bits16 16 (by decide) (by decide) (Or.inr (Or.inl rfl))
    exact ⟨this.1, this.2, (andInt64_low _ 16 (Or.inr (Or.inl rfl))).symm⟩
  · refine ⟨fun _ => ?_, fun h => absurd h (by decide)⟩
    have := twos_complement_low rt e Bits32 32 (by decide) (by decide) (Or.inr (Or.inr rfl))
    exact ⟨this.1, this.2, (andInt64_low _ 32 (Or.inr (Or.inr rfl))).symm⟩
  · exact ⟨fun h => absurd rfl h, fun _ => twos_complement_64 rt e⟩

theorem twos_complement_twice_witness :
    (((enterDigits NewEngine "300").TwosComplement GoEnv.sample Bits8).bind
        (fun e1 => e1.TwosComplement GoEnv.sample Bits8)).map (fun e2 => e2.CurrentValue) =
      some (Float64.ofInt 44) ∧
    (((enterDigits NewEngine "5").TwosComplement GoEnv.sample Bits64).bind
        (fun e1 => e1.TwosComplement GoEnv.sample Bits64)).map (fun e2 => e2.CurrentValue) =
      some (Float64.ofInt 5) := by
  have h1 := ((twos_complement_twice GoEnv.sample (enterDigits NewEngine "300") Bits8
    (Or.inl rfl)).1 (by decide)).2.1
  have h2 := ((twos_complement_twice GoEnv.sample (enterDigits NewEngine "5") Bits64
    (Or.inr (Or.inr (Or.inr rfl)))).2 rfl).2 (by decide!)
  have v1 : toInt64 GoEnv.sample (enterDigits NewEngine "300").CurrentValue % 2 ^ Bits8.toNat
      = 44 := by decide!
  have v2 : toInt64 GoEnv.sample (enterDigits NewEngine "5").CurrentValue = 5 := by decide!
  rw [v1] at h1
  rw [v2] at h2
  exact ⟨h1, h2⟩

/-! ## percent -/

theorem percent_value : Float64.mul (Float64.ofInt 200)
    (Float64.div (Float64.ofInt 10) (Float64.ofInt 100)) = Float64.fin false (20 * Float64.one) := by
  decide!

/-- C17: `Percent` sets `CurrentValue` to `StoredValue * (CurrentValue / 100)` when add
or subtract is pending and to `CurrentValue / 100` for every other pending tag, rewrites
`Display` from the new value and changes no other field; with 200 stored, add pending
and 10 entered it gives 20. -/
theorem Percent_spec (rt : GoEnv) (e : Engine) :
    ((e.PendingOp = OpAdd ∨ e.PendingOp = OpSubtract) →
      e.Percent rt =
        { e with
          CurrentValue :=
            Float64.mul e.StoredValue (Float64.div e.CurrentValue (Float64.ofInt 100)),
          Display := e.formatNumber rt
            (Float64.mul e.StoredValue (Float64.div e.CurrentValue (Float64.ofInt 100))) }) ∧
    (¬ (e.PendingOp = OpAdd ∨ e.PendingOp = OpSubtract) →
      e.Percent rt =
        { e with
          CurrentValue := Float64.div e.CurrentValue (Float64.ofInt 100),
          Display := e.formatNumber rt (Float64.div e.CurrentValue (Float64.ofInt 100)) }) ∧
    (e.NumberBase = Decimal → e.PendingOp = OpAdd → e.StoredValue = Float64.ofInt 200 →
      e.CurrentValue = Float64.ofInt 10 →
      (e.Percent rt).CurrentValue = Float64.fin false (20 * Float64.one) ∧
      (e.Percent rt).Display = "20") := by
  refine ⟨?_, ?_, ?_⟩
  · intro h
    unfold Engine.Percent
    simp only [if_pos h]
  · intro h
    unfold Engine.Percent
    simp only [if_neg h]
  · intro hb hp hs hc
    unfold Engine.Percent
    simp only [hp, true_or, if_true, hs, hc, percent_value]
    refine ⟨trivial, ?_⟩
    have h := formatNumber_int rt e 20 hb (by decide)
    rw [h]
    decide

theorem Percent_spec_witness :
    ((((enterDigits NewEngine "200").SetOperation GoEnv.sample OpAdd).InputDigit "1").InputDigit
        "0").Percent GoEnv.sample =
      { NewEngine with CurrentValue := Float64.fin false (20 * Float64.one),
                       StoredValue := Float64.ofInt 200, PendingOp := OpAdd,
                       NewInput := false, Display := "20" } ∧
    ({ NewEngine with PendingOp := 103, CurrentValue := Float64.ofInt 50 } : Engine).Percent
        GoEnv.sample =
      { NewEngine with PendingOp := 103, CurrentValue := Float64.fin false (Float64.one / 2),
                       Display := "0.5" } := by
  refine ⟨?_, ?_⟩
  · rw [(Percent_spec GoEnv.sample _).1 (Or.inl (by decide!))]
    decide!
  · rw [(Percent_spec GoEnv.sample _).2.1 (by decide)]
    decide!

/-! ## the error sentinel -/

theorem Char_ofNat_ne_E (n : Nat) (h : n ≠ 69) : Char.ofNat n ≠ 'E' := by
  intro hc
  have h1 : (Char.ofNat n).toNat = 69 := by rw [hc]; rfl
  unfold Char.ofNat at h1
  split at h1
  · rename_i hv
    simp [Char.ofNatAux, Char.toNat] at h1
    exact h h1
  · revert h1; decide

theorem digitChar_ne_E (d : Nat) : digitChar d ≠ 'E' := by
  unfold digitChar
  have h0 : '0'.toNat = 48 := rfl
  have ha : 'a'.toNat = 97 := rfl
  split
  · exact Char_ofNat_ne_E _ (by omega)
  · exact Char_ofNat_ne_E _ (by omega)

theorem formatDigits_head_digit (base : Nat) (fuel : Nat) :
    ∀ (u : Nat) (acc : List Char), ∃ d rest, formatDigits base fuel u acc = digitChar d :: rest := by
  induction fuel with
  | zero => intro u acc; exact ⟨u, acc, rfl⟩
  | succ f ih =>
    intro u acc
    unfold formatDigits
    split
    · exact ih _ _
    · exact ⟨u, acc, rfl⟩

/-- A string whose first character is not `E` has no prefix equal to "Error". -/
theorem prefix_ne_Error {s p : List Char} (hp : p <+: s) (hs : ∀ c rest, s = c :: rest → c ≠ 'E') :
    String.mk p ≠ "Error" := by
  intro h
  have hd : p = ['E', 'r', 'r', 'o', 'r'] := congrArg String.data h
  subst hd
  obtain ⟨t, ht⟩ := hp
  exact hs 'E' _ ht.symm rfl

theorem TrimRight_initial (s : List Char) (c : Char) : TrimRight s c <+: s := by
  unfold TrimRight
  have h := List.dropWhile_suffix (fun x => decide (x = c)) (l := s.reverse)
  have := List.reverse_prefix.mpr h
  simpa using this

theorem FormatInt_ne_Error (n : Int) (base : Nat) : FormatInt n base ≠ "Error" := by
  unfold FormatInt
  apply prefix_ne_Error (List.prefix_refl _)
  intro c rest h
  obtain ⟨d, r, hd⟩ := formatDigits_head_digit base 64 n.natAbs []
  split at h
  · simp only [List.cons.injEq] at h
    rw [← h.1]; decide
  · rw [hd] at h
    simp only [List.cons.injEq] at h
    rw [← h.1]; exact digitChar_ne_E d

theorem toUpper_ne_r (c : Char) : c.toUpper ≠ 'r' := by
  by_cases hc : c.toNat ≥ 97 ∧ c.toNat ≤ 122
  · obtain ⟨h1, h2⟩ := hc
    have he : c = Char.ofNat c.toNat := (Char.ofNat_toNat c).symm
    generalize c.toNat = n at h1 h2 he
    subst he
    interval_cases n <;> decide
  · intro h
    unfold Char.toUpper at h
    simp only at h
    rw [if_neg hc] at h
    subst h
    exact hc (by decide)

theorem ToUpper_ne_Error (s : String) : ToUpper s ≠ "Error" := by
  intro h
  have hd : s.data.map Char.toUpper = ['E', 'r', 'r', 'o', 'r'] := congrArg String.data h
  cases hs : s.data with
  | nil => rw [hs] at hd; simp at hd
  | cons a t =>
    rw [hs] at hd
    cases t with
    | nil => simp at hd
    | cons b t2 =>
      simp only [List.map_cons, List.cons.injEq] at hd
      exact toUpper_ne_r b hd.2.1

theorem fmtFixed10_head (x : Float64) : ∀ c rest, fmtFixed10 x = c :: rest → c ≠ 'E' := by
  intro c rest h
  cases x with
  | nan =>
    have : c = 'N' := by
      have h2 : ['N', 'a', 'N'] = c :: rest := h
      simp only [List.cons.injEq] at h2
      exact h2.1.symm
    rw [this]; decide
  | inf neg =>
    cases neg
    · have h2 : ['+', 'I', 'n', 'f'] = c :: rest := h
      simp only [List.cons.injEq] at h2
      rw [← h2.1]; decide
    · have h2 : ['-', 'I', 'n', 'f'] = c :: rest := h
      simp only [List.cons.injEq] at h2
      rw [← h2.1]; decide
  | fin neg k =>
    simp only [fmtFixed10] at h
    obtain ⟨d, r, hd⟩ := formatDigits_head_digit 10 400
      (Float64.roundHalfEven (k * 10 ^ 10) Float64.one / 10 ^ 10) []
    rw [hd] at h
    split at h
    · simp only [List.cons.injEq] at h
      rw [← h.1]; decide
    · simp only [List.cons_append, List.cons.injEq] at h
      rw [← h.1]; exact digitChar_ne_E d

/-- The rendering of a number is never the text "Error". -/
theorem formatNumber_ne_Error (rt : GoEnv) (e : Engine) (x : Float64) :
    e.formatNumber rt x ≠ "Error" := by
  unfold Engine.formatNumber
  split
  · unfold Engine.FormatInBase
    split
    · exact FormatInt_ne_Error _ _
    · split
      · exact FormatInt_ne_Error _ _
      · split
        · exact ToUpper_ne_Error _
        · exact FormatInt_ne_Error _ _
  · split
    · exact FormatInt_ne_Error _ _
    · exact prefix_ne_Error
        (List.IsPrefix.trans (TrimRight_initial _ _) (TrimRight_initial _ _)) (fmtFixed10_head x)


/-- C15, as stated, fails for NaN, which is not in `[-1, 1]`: the keys `1 EXP 999 - 1 EXP
999 =` leave `CurrentValue` NaN (infinity minus infinity), and `Asin` and `Acos` then
show `NaN`, not `Error`, since both comparisons of the guard are false for NaN. -/
theorem guarded_domain_counterexample :
    (runOps GoEnv.sample NewEngine
      [Op.InputDigit "1", Op.InputExponent, Op.InputDigit "9", Op.InputDigit "9",
       Op.InputDigit "9", Op.SetOperation OpSubtract,
       Op.InputDigit "1", Op.InputExponent, Op.InputDigit "9", Op.InputDigit "9",
       Op.InputDigit "9", Op.Calculate]).map Engine.CurrentValue = some Float64.nan ∧
    Guarded.outside Float64.nan Guarded.Asin = true ∧
    Guarded.outside Float64.nan Guarded.Acos = true ∧
    (runOps GoEnv.sample NewEngine
      [Op.InputDigit "1", Op.InputExponent, Op.InputDigit "9", Op.InputDigit "9",
       Op.InputDigit "9", Op.SetOperation OpSubtract,
       Op.InputDigit "1", Op.InputExponent, Op.InputDigit "9", Op.InputDigit "9",
       Op.InputDigit "9", Op.Calculate, Op.Asin]).map Engine.Display = some "NaN" ∧
    (runOps GoEnv.sample NewEngine
      [Op.InputDigit "1", Op.InputExponent, Op.InputDigit "9", Op.InputDigit "9",
       Op.InputDigit "9", Op.SetOperation OpSubtract,
       Op.InputDigit "1", Op.InputExponent, Op.InputDigit "9", Op.InputDigit "9",
       Op.InputDigit "9", Op.Calculate, Op.Acos]).map Engine.Display = some "NaN" := by
  decide!

/-- C15, amended: for each guarded unary function, an operand that violates the domain,
the violation of `Asin` and `Acos` being `operand < -1 or operand > 1` and every
violation a comparison of numbers (NaN compares false and so violates none), makes the
call set `Display` to "Error" and `NewInput` to true and change nothing else; an operand
that violates nothing leaves a `Display` that is the rendering of the result, never
"Error". -/
theorem guarded_domain (rt : GoEnv) (e : Engine) (g : Guarded) :
    (g.violates e.CurrentValue = true →
      g.run rt e = { e with Display := "Error", NewInput := true }) ∧
    (g.violates e.CurrentValue = false →
      (g.run rt e).Display = e.formatNumber rt (g.run rt e).CurrentValue ∧
      (g.run rt e).Display ≠ "Error") := by
  constructor
  · intro h
    cases g <;>
      simp only [Guarded.violates, Bool.or_eq_true] at h <;>
      simp [Guarded.run, Engine.Asin, Engine.Acos, Engine.Acosh, Engine.Atanh, Engine.Log,
        Engine.Ln, Engine.Log2, Engine.Sqrt, Engine.Reciprocal, Engine.putError, h]
  · intro h
    have key : ∀ v, (e.putFloat rt v).Display = e.formatNumber rt (e.putFloat rt v).CurrentValue ∧
        (e.putFloat rt v).Display ≠ "Error" :=
      fun v => ⟨rfl, formatNumber_ne_Error rt e v⟩
    cases g <;>
      simp only [Guarded.violates, Bool.or_eq_false_iff] at h <;>
      simp only [Guarded.run, Engine.Asin, Engine.Acos, Engine.Acosh, Engine.Atanh, Engine.Log,
        Engine.Ln, Engine.Log2, Engine.Sqrt, Engine.Reciprocal, h, Bool.false_eq_true,
        or_self, if_false] <;>
      exact key _

theorem guarded_domain_witness :
    Guarded.run GoEnv.sample (enterDigits NewEngine "2") Guarded.Asin =
      { enterDigits NewEngine "2" with Display := "Error", NewInput := true } ∧
    (Guarded.run GoEnv.sample (enterDigits NewEngine "2") Guarded.Sqrt).Display ≠ "Error" :=
  ⟨(guarded_domain GoEnv.sample (enterDigits NewEngine "2") Guarded.Asin).1 (by decide!),
   ((guarded_domain GoEnv.sample (enterDigits NewEngine "2") Guarded.Sqrt).2 (by decide!)).2⟩

/-! ## shifts -/

theorem wrapUint64_wrapInt64 (z : Int) : wrapUint64 (wrapInt64 z) = wrapUint64 z := by
  unfold wrapUint64 wrapInt64
  congr 1
  omega

theorem wrapUint64_natCast (n : Nat) : wrapUint64 (n : Int) = n % 2 ^ 64 := by
  unfold wrapUint64
  omega

/-- The bit pattern of a left shift: the pattern of `x` times `2^k`, cut to 64 bits. -/
theorem shlInt64_pattern (x : Int) (k : Nat) :
    wrapUint64 (shlInt64 x k) = (wrapUint64 x * 2 ^ k) % 2 ^ 64 := by
  unfold shlInt64
  split
  · rename_i h
    have hd : (2 : Nat) ^ 64 ∣ wrapUint64 x * 2 ^ k :=
      Dvd.dvd.mul_left (pow_dvd_pow 2 h) _
    rw [Nat.mod_eq_zero_of_dvd hd]
    decide
  · rw [wrapUint64_wrapInt64]
    unfold wrapUint64
    have h1 : (0 : Int) ≤ x * 2 ^ k % 2 ^ 64 := Int.emod_nonneg _ (by norm_num)
    have h2 : (0 : Int) ≤ x % 2 ^ 64 := Int.emod_nonneg _ (by norm_num)
    zify
    rw [Int.toNat_of_nonneg h1, Int.toNat_of_nonneg h2]
    rw [Int.mul_emod]
    conv_rhs => rw [Int.mul_emod, Int.emod_emod]

/-- An arithmetic right shift is the floor of the division by `2^k`. -/
theorem shrInt64_eq_div (x : Int) (k : Nat) (h1 : -(2 ^ 63) ≤ x) (h2 : x < 2 ^ 63) :
    shrInt64 x k = x / 2 ^ k := by
  unfold shrInt64
  split
  · rename_i hk
    have hpow : (2 : Int) ^ 63 < 2 ^ k := by
      have : (2 : Int) ^ 63 < 2 ^ 64 := by norm_num
      have h3 : (2 : Int) ^ 64 ≤ 2 ^ k := pow_le_pow_right₀ (by norm_num) hk
      omega
    split
    · rename_i hneg
      have hpos : (0 : Int) < 2 ^ k := by positivity
      have := (Int.ediv_emod_unique (a := x) (q := -1) (r := x + 2 ^ k) hpos).mpr
        ⟨by ring, by omega, by omega⟩
      exact this.1.symm
    · rename_i hneg
      exact (Int.ediv_eq_zero_of_lt (by omega) (by omega)).symm
  · rfl

theorem shr_nonneg_pattern (x : Int) (k : Nat) (h0 : 0 ≤ x) (h2 : x < 2 ^ 63) :
    wrapUint64 (x / 2 ^ k) = wrapUint64 x / 2 ^ k := by
  obtain ⟨n, rfl⟩ := Int.eq_ofNat_of_zero_le h0
  have hn : n < 2 ^ 63 := by omega
  have hdiv : ((n : Int) / 2 ^ k) = ((n / 2 ^ k : Nat) : Int) := by
    push_cast
    rfl
  rw [hdiv, wrapUint64_natCast, wrapUint64_natCast]
  have h3 : n / 2 ^ k ≤ n := Nat.div_le_self _ _
  rw [Nat.mod_eq_of_lt (by omega : n / 2 ^ k < 2 ^ 64), Nat.mod_eq_of_lt (by omega : n < 2 ^ 64)]


/-- C20, as stated, fails for `RightShift` on a negative value: for -8 the shift by 1
gives -4 (pattern `0xFFFF…FC`), where a logical shift gives `2^63 - 4`, and the shift by
64 gives -1, not 0. -/
theorem shift_logical_counterexample :
    toInt64 GoEnv.sample ((enterDigits NewEngine "8").Negate GoEnv.sample).CurrentValue = -8 ∧
    (((enterDigits NewEngine "8").Negate GoEnv.sample).RightShift GoEnv.sample 1).CurrentValue =
      Float64.fin true (4 * Float64.one) ∧
    wrapUint64 (-8) / 2 ^ 1 = 2 ^ 63 - 4 ∧
    (((enterDigits NewEngine "8").Negate GoEnv.sample).RightShift GoEnv.sample 64).CurrentValue =
      Float64.fin true (1 * Float64.one) ∧
    Float64.fin true (1 * Float64.one) ≠ Float64.ofInt 0 := by
  decide!

/-- C20, amended: with `v` the `int64` truncation of the current value and any count
`k`, `LeftShift(k)` stores the 64-bit pattern of `v` shifted left by `k` with zero fill
(0 for `k >= 64`); `RightShift(k)` is the arithmetic shift, storing the floor of
`v / 2^k`: for `v >= 0` this is the logical shift of the pattern (0 for `k >= 64`), for
negative `v` the sign is kept (the result is negative, and -1 for `k >= 64`). -/
theorem shift_semantics (rt : GoEnv) (e : Engine) (k : Nat) :
    e.LeftShift rt k = e.putInt64 (shlInt64 (toInt64 rt e.CurrentValue) k) ∧
    wrapUint64 (shlInt64 (toInt64 rt e.CurrentValue) k) =
      (wrapUint64 (toInt64 rt e.CurrentValue) * 2 ^ k) % 2 ^ 64 ∧
    (64 ≤ k → shlInt64 (toInt64 rt e.CurrentValue) k = 0) ∧
    e.RightShift rt k = e.putInt64 (toInt64 rt e.CurrentValue / 2 ^ k) ∧
    (0 ≤ toInt64 rt e.CurrentValue →
      wrapUint64 (toInt64 rt e.CurrentValue / 2 ^ k) =
        wrapUint64 (toInt64 rt e.CurrentValue) / 2 ^ k ∧
      (64 ≤ k → toInt64 rt e.CurrentValue / 2 ^ k = 0)) ∧
    (toInt64 rt e.CurrentValue < 0 →
      toInt64 rt e.CurrentValue / 2 ^ k < 0 ∧
      (64 ≤ k → toInt64 rt e.CurrentValue / 2 ^ k = -1)) := by
  obtain ⟨h1, h2⟩ := toInt64_range rt e.CurrentValue
  have hdiv := shrInt64_eq_div (toInt64 rt e.CurrentValue) k h1 h2
  refine ⟨rfl, shlInt64_pattern _ k, ?_, ?_, ?_, ?_⟩
  · intro hk
    unfold shlInt64
    rw [if_pos hk]
  · unfold Engine.RightShift
    rw [hdiv]
  · intro h0
    refine ⟨shr_nonneg_pattern _ k h0 h2, ?_⟩
    intro hk
    rw [← hdiv]
    unfold shrInt64
    rw [if_pos hk, if_neg (by omega)]
  · intro hneg
    constructor
    · exact Int.ediv_neg' hneg (by positivity)
    · intro hk
      rw [← hdiv]
      unfold shrInt64
      rw [if_pos hk, if_pos hneg]

theorem shift_semantics_witness :
    ((enterDigits NewEngine "8").Negate GoEnv.sample).RightShift GoEnv.sample 1 =
      ((enterDigits NewEngine "8").Negate GoEnv.sample).putInt64 (-4) ∧
    ((enterDigits NewEngine "5").LeftShift GoEnv.sample 62).CurrentValue =
      Float64.ofInt (2 ^ 62) := by
  have h1 := (shift_semantics GoEnv.sample ((enterDigits NewEngine "8").Negate GoEnv.sample) 1).2.2.2.1
  have v1 : toInt64 GoEnv.sample ((enterDigits NewEngine "8").Negate GoEnv.sample).CurrentValue
      / 2 ^ 1 = -4 := by decide!
  rw [v1] at h1
  have h2 := (shift_semantics GoEnv.sample (enterDigits NewEngine "5") 62).1
  refine ⟨h1, ?_⟩
  rw [h2]
  decide!

/-! ## leading zeros -/

theorem shr64_and_one (val i : Nat) (hi : i < 64) :
    (shr64 val i &&& 1 = 0) ↔ val.testBit i = false := by
  unfold shr64
  rw [if_neg (by omega), Nat.and_one_is_mod, Nat.testBit_to_div_mod]
  have : val / 2 ^ i % 2 < 2 := Nat.mod_lt _ (by decide)
  simp only [decide_eq_false_iff_not]
  omega

/-- The loop counts the zero bits from position `n - 1` down to the first set bit. -/
theorem leadingZerosLoop_spec (val : Nat) (n : Nat) :
    ∀ count, n ≤ 64 → ∃ z, Engine.leadingZerosLoop val n count = count + z ∧ z ≤ n ∧
      (∀ i, n - z ≤ i → i < n → val.testBit i = false) ∧
      (z < n → val.testBit (n - z - 1) = true) := by
  induction n with
  | zero =>
    intro count _
    exact ⟨0, rfl, le_refl _, fun i _ hi => absurd hi (by omega), fun h => absurd h (by omega)⟩
  | succ m ih =>
    intro count hn
    unfold Engine.leadingZerosLoop
    by_cases hb : shr64 val m &&& 1 = 0
    · rw [if_pos hb]
      have hbit := (shr64_and_one val m (by omega)).mp hb
      obtain ⟨z, h1, h2, h3, h4⟩ := ih (count + 1) (by omega)
      refine ⟨z + 1, by rw [h1]; omega, by omega, ?_, ?_⟩
      · intro i hi1 hi2
        by_cases him : i = m
        · rw [him]; exact hbit
        · exact h3 i (by omega) (by omega)
      · intro hz
        have := h4 (by omega)
        have e1 : m + 1 - (z + 1) - 1 = m - z - 1 := by omega
        rw [e1]; exact this
    · rw [if_neg hb]
      have hbit : val.testBit m = true := by
        have := (shr64_and_one val m (by omega)).not.mp hb
        simpa using this
      refine ⟨0, rfl, by omega, fun i hi1 hi2 => absurd hi1 (by omega), ?_⟩
      intro _
      simpa using hbit

theorem zero_of_testBit_false {val W : Nat} (hlt : val < 2 ^ W)
    (h : ∀ i, i < W → val.testBit i = false) : val = 0 := by
  apply Nat.eq_of_testBit_eq
  intro i
  rw [Nat.zero_testBit]
  by_cases hi : i < W
  · exact h i hi
  · exact testBit_high hlt (by omega)

/-- The count of `LeadingZeros` within `W` bits of a value below `2^W`. -/
theorem leadingZeros_count (val W : Nat) (hW : W ≤ 64) (hlt : val < 2 ^ W) :
    Engine.leadingZerosLoop val W 0 ≤ W ∧
    (∀ i, W - Engine.leadingZerosLoop val W 0 ≤ i → i < W → val.testBit i = false) ∧
    (Engine.leadingZerosLoop val W 0 < W → val.testBit (W - Engine.leadingZerosLoop val W 0 - 1) = true) ∧
    (Engine.leadingZerosLoop val W 0 = W ↔ val = 0) := by
  obtain ⟨z, h1, h2, h3, h4⟩ := leadingZerosLoop_spec val W 0 hW
  rw [h1, Nat.zero_add]
  refine ⟨h2, h3, h4, ?_⟩
  constructor
  · intro hz
    apply zero_of_testBit_false hlt
    intro i hi
    exact h3 i (by omega) hi
  · intro hv
    by_contra hne
    have := h4 (by omega)
    rw [hv, Nat.zero_testBit] at this
    exact absurd this (by decide)


theorem LeadingZeros_core (rt : GoEnv) (e : Engine) (w : BitWidth) (W : Nat)
    (hpos : ¬ w < 0) (hW : w.toNat = W) (hmask : maskU w = 2 ^ W - 1) :
    e.LeadingZeros rt w = some (e.putInt64
      (Engine.leadingZerosLoop (toUint64 rt e.CurrentValue &&& (2 ^ W - 1)) W 0 : Nat)) := by
  unfold Engine.LeadingZeros
  rw [if_neg hpos, hmask, hW]

/-- C11, as stated, fails for a value that `uint64` cannot hold.  The digits of
`2^64 + 4096` leave exactly that value in `CurrentValue`; its low 16 bits are `4096`,
whose highest set bit is bit 12, so the count of the claim is 3.  The conversion
`uint64(e.CurrentValue)` is implementation-dependent there: where it gives 0 the call
shows 16, and where it saturates to `2^64 - 1` the call shows 0. -/
theorem LeadingZeros_counterexample :
    (enterDigits NewEngine "18446744073709555712").CurrentValue =
      Float64.fin false ((2 ^ 64 + 4096) * Float64.one) ∧
    (2 ^ 64 + 4096) &&& (2 ^ 16 - 1) = 4096 ∧
    Nat.testBit 4096 12 = true ∧ Nat.testBit 4096 13 = false ∧
    Nat.testBit 4096 14 = false ∧ Nat.testBit 4096 15 = false ∧
    ((enterDigits NewEngine "18446744073709555712").LeadingZeros GoEnv.sample Bits16).map
      (fun r => (r.Display, r.CurrentValue)) = some ("16", Float64.ofInt 16) ∧
    ((enterDigits NewEngine "18446744073709555712").LeadingZeros
      { GoEnv.sample with uint64Indef := fun _ => 2 ^ 64 - 1 } Bits16).map
      (fun r => (r.Display, r.CurrentValue)) = some ("0", Float64.ofInt 0) := by
  decide!

/-- C11, amended: for a width `w` among 8, 16, 32 and 64, `LeadingZeros(w)` returns (it
does not panic) and stores a count `c`: `CurrentValue` becomes `c`, `Display` the
rendering of `c` in the active base, `NewInput` true, nothing else changes.  With
`m = v & (2^w - 1)`, `v` being the conversion `uint64(CurrentValue)`, which is the old
`CurrentValue` itself when that is a whole number below `2^64`, `c` lies in `[0, w]`, the
`c` bits of `m` from position `w - 1` downward are zero, the bit just below them (if there
is one) is set, and `c = w` exactly when `m = 0`.  At width 8 the value 255 gives 0 and the
value 15 gives 4. -/
theorem LeadingZeros_spec (rt : GoEnv) (e : Engine) (w : BitWidth)
    (hw : w = Bits8 ∨ w = Bits16 ∨ w = Bits32 ∨ w = Bits64) :
    ∃ c : Nat,
      e.LeadingZeros rt w = some { e with CurrentValue := Float64.ofInt (c : Int),
                                          Display := e.FormatInBase (c : Int),
                                          NewInput := true } ∧
      c ≤ w.toNat ∧
      (∀ i, w.toNat - c ≤ i → i < w.toNat →
        (toUint64 rt e.CurrentValue &&& (2 ^ w.toNat - 1)).testBit i = false) ∧
      (c < w.toNat →
        (toUint64 rt e.CurrentValue &&& (2 ^ w.toNat - 1)).testBit (w.toNat - c - 1) = true) ∧
      (c = w.toNat ↔ toUint64 rt e.CurrentValue &&& (2 ^ w.toNat - 1) = 0) ∧
      (∀ v : Nat, v < 2 ^ 64 → e.CurrentValue = Float64.fin false (v * Float64.one) →
        toUint64 rt e.CurrentValue = v) ∧
      (w = Bits8 → e.CurrentValue = Float64.ofInt 255 → c = 0) ∧
      (w = Bits8 → e.CurrentValue = Float64.ofInt 15 → c = 4) := by
  have key : ∀ W : Nat, ¬ w < 0 → w.toNat = W → W ≤ 64 → maskU w = 2 ^ W - 1 →
      ∃ c : Nat,
        c = Engine.leadingZerosLoop (toUint64 rt e.CurrentValue &&& (2 ^ W - 1)) W 0 ∧
        e.LeadingZeros rt w = some { e with CurrentValue := Float64.ofInt (c : Int),
                                            Display := e.FormatInBase (c : Int),
                                            NewInput := true } ∧
        c ≤ W ∧
        (∀ i, W - c ≤ i → i < W →
          (toUint64 rt e.CurrentValue &&& (2 ^ W - 1)).testBit i = false) ∧
        (c < W → (toUint64 rt e.CurrentValue &&& (2 ^ W - 1)).testBit (W - c - 1) = true) ∧
        (c = W ↔ toUint64 rt e.CurrentValue &&& (2 ^ W - 1) = 0) := by
    intro W hpos hW hW64 hmask
    obtain ⟨h1, h2, h3, h4⟩ := leadingZeros_count
      (toUint64 rt e.CurrentValue &&& (2 ^ W - 1)) W hW64 (and_mask_lt _ W)
    exact ⟨_, rfl, LeadingZeros_core rt e w W hpos hW hmask, h1, h2, h3, h4⟩
  have hconv : ∀ v : Nat, v < 2 ^ 64 → e.CurrentValue = Float64.fin false (v * Float64.one) →
      toUint64 rt e.CurrentValue = v := by
    intro v hv hcv
    rw [hcv]; exact toUint64_int rt v hv
  have h255 : e.CurrentValue = Float64.ofInt 255 → toUint64 rt e.CurrentValue = 255 := by
    intro h
    rw [h, show (255 : Int) = ((255 : Nat) : Int) from rfl, Float64.ofInt_natCast (by decide)]
    exact toUint64_int rt 255 (by decide)
  have h15 : e.CurrentValue = Float64.ofInt 15 → toUint64 rt e.CurrentValue = 15 := by
    intro h
    rw [h, show (15 : Int) = ((15 : Nat) : Int) from rfl, Float64.ofInt_natCast (by decide)]
    exact toUint64_int rt 15 (by decide)
  rcases hw with h | h | h | h <;> subst h
  · obtain ⟨c, hc, h1, h2, h3, h4, h5⟩ := key 8 (by decide) (by decide) (by decide) (by decide)
    refine ⟨c, h1, h2, h3, h4, h5, hconv, ?_, ?_⟩
    · intro _ hv
      rw [hc, h255 hv]; decide
    · intro _ hv
      rw [hc, h15 hv]; decide
  · obtain ⟨c, _, h1, h2, h3, h4, h5⟩ := key 16 (by decide) (by decide) (by decide) (by decide)
    exact ⟨c, h1, h2, h3, h4, h5, hconv, fun h => absurd h (by decide),
      fun h => absurd h (by decide)⟩
  · obtain ⟨c, _, h1, h2, h3, h4, h5⟩ := key 32 (by decide) (by decide) (by decide) (by decide)
    exact ⟨c, h1, h2, h3, h4, h5, hconv, fun h => absurd h (by decide),
      fun h => absurd h (by decide)⟩
  · obtain ⟨c, _, h1, h2, h3, h4, h5⟩ := key 64 (by decide) (by decide) (by decide) (by decide)
    exact ⟨c, h1, h2, h3, h4, h5, hconv, fun h => absurd h (by decide),
      fun h => absurd h (by decide)⟩

theorem LeadingZeros_spec_witness :
    (Bits8 = Bits8 ∨ Bits8 = Bits16 ∨ Bits8 = Bits32 ∨ Bits8 = Bits64) ∧
    ∃ c : Nat,
      (enterDigits NewEngine "15").LeadingZeros GoEnv.sample Bits8 =
        some { enterDigits NewEngine "15" with
                 CurrentValue := Float64.ofInt (c : Int),
                 Display := (enterDigits NewEngine "15").FormatInBase (c : Int),
                 NewInput := true } ∧
      c = 4 := by
  refine ⟨Or.inl rfl, ?_⟩
  obtain ⟨c, h1, _, _, _, _, _, _, h8⟩ :=
    LeadingZeros_spec GoEnv.sample (enterDigits NewEngine "15") Bits8 (Or.inl rfl)
  exact ⟨c, h1, h8 rfl (by decide!)⟩

/-! ## factorial -/

namespace Float64

theorem roundHalfEven_le (p q : Nat) : roundHalfEven p q ≤ p / q + 1 := by
  unfold roundHalfEven
  simp only
  split_ifs <;> omega

theorem roundHalfEven_ge (p q : Nat) : p / q ≤ roundHalfEven p q := by
  unfold roundHalfEven
  simp only
  split_ifs <;> omega

/-- Converting an integer of at most 64 bits gives a finite whole number of its sign. -/
theorem ofInt_integral (n : Int) (h : n.natAbs < 2 ^ 64) :
    ∃ m, ofInt n = fin (decide (n < 0)) (m * one) := by
  unfold ofInt ofGridInt
  by_cases hz : n * (one : Int) = 0
  · rw [if_pos hz]
    have h0 : n = 0 := by
      rcases mul_eq_zero.mp hz with h1 | h1
      · exact h1
      · have := one_pos; omega
    refine ⟨0, ?_⟩
    subst h0
    simp
  · rw [if_neg hz]
    have hsign : decide (n * (one : Int) < 0) = decide (n < 0) := by
      have h1 := one_pos
      have h2 : (0 : Int) < (one : Int) := by exact_mod_cast h1
      congr 1
      apply propext
      constructor
      · intro h3
        by_contra h4
        have : 0 ≤ n * (one : Int) := mul_nonneg (by omega) (le_of_lt h2)
        omega
      · intro h3
        exact mul_neg_of_neg_of_pos h3 h2
    have habs : (n * (one : Int)).natAbs = n.natAbs * one := by
      rw [Int.natAbs_mul, Int.natAbs_ofNat]
    rw [hsign, habs]
    generalize n.natAbs = a at h
    unfold roundGrid
    simp only [Nat.div_one, Nat.one_mul]
    have hp : a * one < 2 ^ 1138 := by
      have : (2 : Nat) ^ 1138 = 2 ^ 64 * one := by rw [one_eq, ← pow_add]
      rw [this]
      exact Nat.mul_lt_mul_of_pos_right h one_pos
    have hb : bitLen (a * one) ≤ 1138 := bitLen_le hp
    obtain ⟨s, hs_def⟩ : ∃ s, s = bitLen (a * one) - 53 := ⟨_, rfl⟩
    rw [← hs_def]
    have hs : s ≤ 1085 := by omega
    by_cases hcase : s ≤ 1074
    · have e1 : a * one = (a * 2 ^ (1074 - s)) * 2 ^ s := by
        rw [Nat.mul_assoc, ← pow_add, one_eq]
        congr 2
        omega
      have e2 : roundHalfEven (a * one) (2 ^ s) = a * 2 ^ (1074 - s) := by
        rw [e1]; exact roundHalfEven_mul _ _ (Nat.two_pow_pos s)
      rw [e2, ← e1]
      have hlt : ¬ huge ≤ a * one := by
        rw [huge_eq]
        have : (2 : Nat) ^ 1138 < 2 ^ 2098 := by
          apply Nat.pow_lt_pow_right
          · decide
          · decide
        exact not_le.mpr (lt_trans hp this)
      rw [if_neg hlt]
      exact ⟨a, rfl⟩
    · have hr := roundHalfEven_le (a * one) (2 ^ s)
      have hk : roundHalfEven (a * one) (2 ^ s) * 2 ^ s ≤ a * one + 2 ^ s := by
        calc roundHalfEven (a * one) (2 ^ s) * 2 ^ s
            ≤ (a * one / 2 ^ s + 1) * 2 ^ s := Nat.mul_le_mul_right _ hr
          _ = a * one / 2 ^ s * 2 ^ s + 2 ^ s := by ring
          _ ≤ a * one + 2 ^ s := Nat.add_le_add_right (Nat.div_mul_le_self _ _) _
      have hs2 : (2 : Nat) ^ s ≤ 2 ^ 1138 := by
        apply Nat.pow_le_pow_right
        · decide
        · omega
      have hlt : ¬ huge ≤ roundHalfEven (a * one) (2 ^ s) * 2 ^ s := by
        rw [huge_eq]
        have h3 : (2 : Nat) ^ 1138 + 2 ^ 1138 = 2 ^ 1139 := by rw [← Nat.two_mul, ← pow_succ']
        have h4 : (2 : Nat) ^ 1139 < 2 ^ 2098 := by
          apply Nat.pow_lt_pow_right
          · decide
          · decide
        apply not_le.mpr
        refine lt_of_le_of_lt hk (lt_of_lt_of_le ?_ (le_of_lt h4))
        rw [← h3]
        exact Nat.add_lt_add_of_lt_of_le hp hs2
      rw [if_neg hlt]
      have e3 : roundHalfEven (a * one) (2 ^ s) * 2 ^ s =
          roundHalfEven (a * one) (2 ^ s) * 2 ^ (s - 1074) * one := by
        rw [Nat.mul_assoc, one_eq, ← pow_add]
        congr 2
        omega
      exact ⟨roundHalfEven (a * one) (2 ^ s) * 2 ^ (s - 1074), by rw [← e3]⟩

end Float64


theorem Float64.ofInt_exact {m : Nat} (h : Float64.Exact (m * Float64.one)) :
    Float64.ofInt (m : Int) = Float64.fin false (m * Float64.one) := by
  unfold Float64.ofInt
  by_cases hm : m = 0
  · subst hm; simp [Float64.ofGridInt]
  · have hne : ((m : Int) * (Float64.one : Int)) ≠ 0 := by
      have := Float64.one_pos
      positivity
    have h1 : ((m : Int) * (Float64.one : Int)).natAbs = m * Float64.one := by
      rw [← Nat.cast_mul, Int.natAbs_ofNat]
    rw [Float64.ofGridInt_exact _ _ _ hne]
    · have h2 : ¬ ((m : Int) * (Float64.one : Int) < 0) := by
        have : (0 : Int) ≤ (m : Int) * (Float64.one : Int) := by positivity
        omega
      simp [h1, h2]
    · rw [h1]; exact h

/-- The float product of `Factorial` is the factorial itself up to 22. -/
theorem factorialLoop_exact (n : Nat) (h : n ≤ 22) :
    Engine.factorialLoop (n - 1) 2 (Float64.ofInt 1) =
      Float64.fin false (n.factorial * Float64.one) := by
  have hall : ∀ k, k < 23 → Engine.factorialLoop (k - 1) 2 (Float64.ofInt 1) =
      Float64.fin false (k.factorial * Float64.one) := by decide!
  exact hall n (by omega)

theorem Factorial_error (rt : GoEnv) (e : Engine)
    (h : Float64.lt e.CurrentValue Float64.zero = true ∨ Float64.isInt e.CurrentValue = false) :
    e.Factorial rt = { e with Display := "Error", NewInput := true } := by
  unfold Engine.Factorial
  simp only
  rw [if_pos]
  · rfl
  · by_cases hn : toInt64 rt e.CurrentValue < 0
    · exact Or.inl hn
    · right
      have hr := toInt64_range rt e.CurrentValue
      obtain ⟨m, hm⟩ := Float64.ofInt_integral (toInt64 rt e.CurrentValue) (by omega)
      rw [hm, decide_eq_false hn]
      cases hcv : e.CurrentValue with
      | nan => simp [Float64.ne, Float64.eq]
      | inf b => simp [Float64.ne, Float64.eq]
      | fin b k =>
        rw [hcv] at h
        simp only [Float64.ne, Float64.eq, Bool.not_eq_true', Bool.or_eq_false_iff,
          Bool.and_eq_false_iff, decide_eq_false_iff_not]
        rcases h with h | h
        · have h1 : b = true ∧ k ≠ 0 := by
            simp only [Float64.lt, Float64.zero, Float64.gridInt, decide_eq_true_eq] at h
            cases b
            · simp at h
              omega
            · simp at h
              exact ⟨rfl, by omega⟩
          exact ⟨Or.inl h1.2, Or.inl (by rw [h1.1]; decide)⟩
        · have h1 : k % Float64.one ≠ 0 := by
            simpa [Float64.isInt] using h
          refine ⟨Or.inl ?_, Or.inr ?_⟩
          · intro hk; rw [hk] at h1; simp at h1
          · intro hk; rw [hk] at h1; simp at h1


theorem Factorial_overflow (rt : GoEnv) (e : Engine) (n : Nat) (h1 : 170 < n) (h2 : n < 2 ^ 63)
    (hx : Float64.Exact (n * Float64.one))
    (hcv : e.CurrentValue = Float64.fin false (n * Float64.one)) :
    e.Factorial rt = { e with Display := "Overflow", NewInput := true } := by
  have hn : toInt64 rt e.CurrentValue = (n : Int) := by
    rw [hcv, toInt64_natCast rt n h2]
  have heq : Float64.eq e.CurrentValue (Float64.fin false (n * Float64.one)) = true := by
    rw [hcv]; exact Float64.eq_self_fin _ _
  unfold Engine.Factorial
  simp only
  rw [hn, Float64.ofInt_exact hx, if_neg, if_pos]
  · rfl
  · omega
  · simp only [Float64.ne, heq]
    simp

theorem Factorial_value (rt : GoEnv) (e : Engine) (b : Bool) (n : Nat) (h1 : n ≤ 170)
    (hb : b = true → n = 0) (hcv : e.CurrentValue = Float64.fin b (n * Float64.one)) :
    e.Factorial rt =
      { e with CurrentValue := Engine.factorialLoop (n - 1) 2 (Float64.ofInt 1),
               Display := e.formatNumber rt (Engine.factorialLoop (n - 1) 2 (Float64.ofInt 1)),
               NewInput := true } := by
  have hn : toInt64 rt e.CurrentValue = (n : Int) := by
    rw [hcv, toInt64_int rt b n (by omega)]
    unfold Float64.gridInt
    cases b
    · simp
    · simp [hb rfl]
  have hof : Float64.ofInt (n : Int) = Float64.fin false (n * Float64.one) :=
    Float64.ofInt_natCast (by omega)
  have heq : Float64.eq e.CurrentValue (Float64.fin false (n * Float64.one)) = true := by
    rw [hcv]
    cases b
    · exact Float64.eq_self_fin _ _
    · simp [Float64.eq, hb rfl]
  unfold Engine.Factorial
  simp only
  rw [hn, hof, if_neg, if_neg]
  · rfl
  · omega
  · simp only [Float64.ne, heq]
    simp

/-- C16, as stated, fails twice.  From the integer 23 on the float product is not the
factorial: for `CurrentValue = 23` the result is 25852016738884978212864, while
`23! = 25852016738884976640000`.  And an integral operand that `int` cannot hold is
answered `"Error"`, not `"Overflow"`: so for `CurrentValue = 2^64`. -/
theorem Factorial_counterexample :
    (enterDigits NewEngine "23").CurrentValue = Float64.fin false (23 * Float64.one) ∧
    ((enterDigits NewEngine "23").Factorial GoEnv.sample).CurrentValue =
      Float64.fin false (25852016738884978212864 * Float64.one) ∧
    Nat.factorial 23 = 25852016738884976640000 ∧
    (enterDigits NewEngine "18446744073709551616").CurrentValue =
      Float64.fin false (2 ^ 64 * Float64.one) ∧
    Float64.isInt (enterDigits NewEngine "18446744073709551616").CurrentValue = true ∧
    ((enterDigits NewEngine "18446744073709551616").Factorial GoEnv.sample).Display =
      "Error" := by
  decide!

/-- C16, amended: `Factorial` answers an operand that is negative or not a whole number
(infinities and NaN included) with `Display = "Error"`, and a whole number above 170 and
below `2^63` with `Display = "Overflow"`; in both cases `NewInput` becomes true and
nothing else changes.  For a whole number `n` from 0 to 170 `CurrentValue` becomes the
`float64` product `1 * 2 * ... * n`, rounded after each multiplication, `Display` its
rendering and `NewInput` true; up to `n = 22` that product is `n!` itself. -/
theorem Factorial_spec (rt : GoEnv) (e : Engine) :
    ((Float64.lt e.CurrentValue Float64.zero = true ∨ Float64.isInt e.CurrentValue = false) →
      e.Factorial rt = { e with Display := "Error", NewInput := true }) ∧
    (∀ n : Nat, 170 < n → n < 2 ^ 63 → Float64.Exact (n * Float64.one) →
      e.CurrentValue = Float64.fin false (n * Float64.one) →
      e.Factorial rt = { e with Display := "Overflow", NewInput := true }) ∧
    (∀ (b : Bool) (n : Nat), n ≤ 170 → (b = true → n = 0) →
      e.CurrentValue = Float64.fin b (n * Float64.one) →
      e.Factorial rt =
        { e with CurrentValue := Engine.factorialLoop (n - 1) 2 (Float64.ofInt 1),
                 Display := e.formatNumber rt
                   (Engine.factorialLoop (n - 1) 2 (Float64.ofInt 1)),
                 NewInput := true } ∧
      (n ≤ 22 → Engine.factorialLoop (n - 1) 2 (Float64.ofInt 1) =
        Float64.fin false (n.factorial * Float64.one))) :=
  ⟨Factorial_error rt e, Factorial_overflow rt e,
    fun b n h1 hb hcv => ⟨Factorial_value rt e b n h1 hb hcv, factorialLoop_exact n⟩⟩

theorem Factorial_spec_witness :
    (enterDigits NewEngine "5").Factorial GoEnv.sample =
      { enterDigits NewEngine "5" with
          CurrentValue := Float64.fin false (120 * Float64.one),
          Display := "120", NewInput := true } ∧
    (enterDigits NewEngine "171").Factorial GoEnv.sample =
      { enterDigits NewEngine "171" with Display := "Overflow", NewInput := true } ∧
    ((enterDigits NewEngine "5").Negate GoEnv.sample).Factorial GoEnv.sample =
      { (enterDigits NewEngine "5").Negate GoEnv.sample with
          Display := "Error", NewInput := true } := by
  have h5 := (Factorial_spec GoEnv.sample (enterDigits NewEngine "5")).2.2 false 5
    (by decide) (by decide) (by decide!)
  have h171 := (Factorial_spec GoEnv.sample (enterDigits NewEngine "171")).2.1 171
    (by decide) (by decide) (Float64.exact_int (by decide)) (by decide!)
  have hneg := (Factorial_spec GoEnv.sample ((enterDigits NewEngine "5").Negate GoEnv.sample)).1
    (Or.inl (by decide!))
  refine ⟨?_, h171, hneg⟩
  rw [h5.1, h5.2 (by decide)]
  have hd : (enterDigits NewEngine "5").formatNumber GoEnv.sample
      (Float64.fin false (Nat.factorial 5 * Float64.one)) = "120" := by decide!
  rw [hd]
  rfl

/-! ## parse errors -/

theorem ParseOK_ite {c : Prop} [Decidable c] {a b : Float64 × Option NumError}
    (ha : ParseOK a) (hb : ParseOK b) : ParseOK (if c then a else b) := by
  split <;> assumption

theorem ParseOK_bad : ParseOK (Float64.zero, some NumError.ErrSyntax) :=
  ⟨fun _ => rfl, fun h => by simp at h⟩

theorem ParseOK_floatOfDigits (neg : Bool) (n b : Nat) (e : Int) :
    ParseOK (floatOfDigits neg n b e) := by
  unfold floatOfDigits ParseOK
  simp only
  split
  · rename_i s hs
    exact ⟨fun h => by simp at h, fun _ => ⟨s, hs⟩⟩
  · exact ⟨fun h => by simp at h, fun h => by simp at h⟩

theorem ParseOK_parseNumber (s : List Char) : ParseOK (parseNumber s) := by
  have hbad := ParseOK_bad
  have hfin : ∀ (c1 c2 : Prop) [Decidable c1] [Decidable c2] neg n b e,
      ParseOK (if c1 then (Float64.zero, some NumError.ErrSyntax)
        else if c2 then (Float64.zero, some NumError.ErrSyntax) else floatOfDigits neg n b e) :=
    fun c1 c2 _ _ neg n b e =>
      ParseOK_ite hbad (ParseOK_ite hbad (ParseOK_floatOfDigits neg n b e))
  unfold parseNumber
  simp only []
  generalize readMantissa _ _ _ = r
  obtain ⟨m, rest⟩ := r
  simp only []
  apply ParseOK_ite hbad
  cases rest with
  | nil =>
    simp only []
    exact ParseOK_ite hbad (hfin _ _ _ _ _ _)
  | cons c cs =>
    simp only []
    apply ParseOK_ite ?_ (ParseOK_ite hbad (hfin _ _ _ _ _ _))
    cases cs with
    | nil => exact hbad
    | cons d r =>
      simp only []
      by_cases hd : d = '+' ∨ d = '-'
      · simp only [if_pos hd]
        cases r with
        | nil => exact hbad
        | cons d2 r2 =>
          simp only []
          exact ParseOK_ite (hfin _ _ _ _ _ _) hbad
      · simp only [if_neg hd]
        exact ParseOK_ite (hfin _ _ _ _ _ _) hbad

theorem ParseOK_ParseFloat (s : String) : ParseOK (ParseFloat s) := by
  unfold ParseFloat
  split
  · exact ⟨fun h => by simp at h, fun h => by simp at h⟩
  · exact ParseOK_parseNumber s.data

/-- The slice of `Backspace` cuts a byte, not a character: the Go string `é` is the two
bytes `C3 A9`, and from that display `Backspace` leaves the byte `C3`, which does not
parse, and the value 0.  The symbols of `opSymbol` are the bytes of their UTF-8
encoding. -/
theorem Backspace_cuts_one_byte :
    len (utf8 "é") = 2 ∧
    ({ NewEngine with Display := utf8 "é", NewInput := false } : Engine).Backspace =
      { NewEngine with Display := "\xc3", NewInput := false } ∧
    utf8 "−" = "\xe2\x88\x92" ∧ utf8 "×" = "\xc3\x97" ∧ utf8 "÷" = "\xc3\xb7" ∧
    utf8 "mod" = "mod" := by
  decide!

/-- C18, as stated, fails: after the digit 5 and a change of sign the display is `-5`
and the value -5; `Backspace` leaves the display `-`, which does not parse, and the
value 0.  Likewise `Backspace` turns `5e3` (value 5000) into `5e` with value 0. -/
theorem parse_error_counterexample :
    ((NewEngine.InputDigit "5").Negate GoEnv.sample).Display = "-5" ∧
    ((NewEngine.InputDigit "5").Negate GoEnv.sample).CurrentValue =
      Float64.fin true (5 * Float64.one) ∧
    ((NewEngine.InputDigit "5").Negate GoEnv.sample).Backspace.Display = "-" ∧
    (ParseFloat "-").2 = some NumError.ErrSyntax ∧
    ((NewEngine.InputDigit "5").Negate GoEnv.sample).Backspace.CurrentValue =
      Float64.fin false 0 ∧
    (((NewEngine.InputDigit "5").InputExponent).InputDigit "3").Display = "5e3" ∧
    (((NewEngine.InputDigit "5").InputExponent).InputDigit "3").CurrentValue =
      Float64.fin false (5000 * Float64.one) ∧
    (((NewEngine.InputDigit "5").InputExponent).InputDigit "3").Backspace.Display = "5e" ∧
    (ParseFloat "5e").2 = some NumError.ErrSyntax ∧
    (((NewEngine.InputDigit "5").InputExponent).InputDigit "3").Backspace.CurrentValue =
      Float64.fin false 0 := by
  decide!

/-- C18, amended: `InputDigit` and `Backspace` ignore the error of `ParseFloat` but store
the value it returns with the error: `CurrentValue` after the call is the value
`ParseFloat` gives for the new `Display` (for `Backspace` on a display longer than one
byte, which loses its last byte; a shorter one becomes `0` with the value 0).  So when the new
`Display` fails to parse as a number, `CurrentValue` becomes 0, whatever it was before;
and when the number is too large for `float64`, `CurrentValue` becomes an infinity. -/
theorem parse_error_value (e : Engine) (digit : String) :
    (e.InputDigit digit).CurrentValue = (ParseFloat (e.InputDigit digit).Display).1 ∧
    (1 < len e.Display →
      e.Backspace.CurrentValue = (ParseFloat e.Backspace.Display).1) ∧
    (¬ 1 < len e.Display →
      e.Backspace.Display = "0" ∧ e.Backspace.CurrentValue = Float64.zero) ∧
    ((ParseFloat (e.InputDigit digit).Display).2 = some NumError.ErrSyntax →
      (e.InputDigit digit).CurrentValue = Float64.zero) ∧
    ((ParseFloat e.Backspace.Display).2 = some NumError.ErrSyntax →
      e.Backspace.CurrentValue = Float64.zero) ∧
    ((ParseFloat (e.InputDigit digit).Display).2 = some NumError.ErrRange →
      ∃ b, (e.InputDigit digit).CurrentValue = Float64.inf b) ∧
    ((ParseFloat e.Backspace.Display).2 = some NumError.ErrRange →
      ∃ b, e.Backspace.CurrentValue = Float64.inf b) := by
  have hI : (e.InputDigit digit).CurrentValue = (ParseFloat (e.InputDigit digit).Display).1 := by
    unfold Engine.InputDigit
    rfl
  have hB1 : 1 < len e.Display →
      e.Backspace.CurrentValue = (ParseFloat e.Backspace.Display).1 := by
    intro h
    unfold Engine.Backspace
    rw [if_pos h]
  have hB0 : ¬ 1 < len e.Display →
      e.Backspace.Display = "0" ∧ e.Backspace.CurrentValue = Float64.zero := by
    intro h
    unfold Engine.Backspace
    rw [if_neg h]
    exact ⟨rfl, rfl⟩
  have hB : e.Backspace.CurrentValue = (ParseFloat e.Backspace.Display).1 := by
    by_cases h : 1 < len e.Display
    · exact hB1 h
    · rw [(hB0 h).1, (hB0 h).2]
      decide!
  refine ⟨hI, hB1, hB0, ?_, ?_, ?_, ?_⟩
  · intro h; rw [hI]; exact (ParseOK_ParseFloat _).1 h
  · intro h; rw [hB]; exact (ParseOK_ParseFloat _).1 h
  · intro h; rw [hI]; exact (ParseOK_ParseFloat _).2 h
  · intro h; rw [hB]; exact (ParseOK_ParseFloat _).2 h

theorem parse_error_value_witness :
    (ParseFloat (((NewEngine.InputDigit "5").Negate GoEnv.sample).Backspace).Display).2 =
      some NumError.ErrSyntax ∧
    (((NewEngine.InputDigit "5").Negate GoEnv.sample).Backspace).CurrentValue =
      Float64.zero :=
  ⟨by decide!,
   (parse_error_value ((NewEngine.InputDigit "5").Negate GoEnv.sample) "").2.2.2.2.1
     (by decide!)⟩

/-! ## display and value -/

theorem floatOfDigits_not_syntax (neg : Bool) (n b : Nat) (e : Int) :
    (floatOfDigits neg n b e).2 ≠ some NumError.ErrSyntax := by
  unfold floatOfDigits
  simp only
  split <;> simp

/-- The mantissa loop reads all of the rest of a numeral. -/
theorem readMantissa_numeral (cs : List Char) :
    ∀ st : Mantissa, cs.all isNumeralChar = true →
      cs.count '.' + (if st.sawdot = true then 1 else 0) ≤ 1 → st.sawdigits = true →
      ∃ m, readMantissa 10 cs st = (m, []) ∧ m.sawdigits = true ∧
        m.underscores = st.underscores := by
  induction cs with
  | nil => intro st _ _ hd; exact ⟨st, by simp [readMantissa], hd, rfl⟩
  | cons c cs ih =>
    intro st hall hcount hd
    simp only [List.all_cons, Bool.and_eq_true] at hall
    obtain ⟨hc, hrest⟩ := hall
    by_cases hdot : c = '.'
    · subst hdot
      rw [List.count_cons_self] at hcount
      have hs : st.sawdot = false := by
        cases h : st.sawdot
        · rfl
        · rw [h] at hcount; simp at hcount
      rw [readMantissa, if_neg (by decide), if_pos rfl, hs]
      simp only [Bool.false_eq_true, if_false]
      obtain ⟨m, h1, h2, h3⟩ := ih { st with sawdot := true } hrest (by simp; omega) hd
      exact ⟨m, h1, h2, h3⟩
    · have hdig : isDecDigit c = true := by
        simpa [isNumeralChar, hdot] using hc
      have h1 : c ≠ '_' := by rintro rfl; revert hdig; decide
      rw [readMantissa, if_neg h1, if_neg hdot, if_pos hdig]
      rw [List.count_cons_of_ne (Ne.symm hdot)] at hcount
      obtain ⟨m, h1, h2, h3⟩ := ih (st.push 10 (c.toNat - '0'.toNat)) hrest
        (by simpa [Mantissa.push] using hcount) (by simp [Mantissa.push])
      exact ⟨m, h1, h2, by rw [h3]; simp [Mantissa.push]⟩

theorem readMantissa_numeral_init (c : Char) (cs : List Char) (h : isNumeral (c :: cs) = true) :
    ∃ m, readMantissa 10 (c :: cs) ⟨0, 0, false, false, false⟩ = (m, []) ∧
      m.sawdigits = true ∧ m.underscores = false := by
  simp only [isNumeral, Bool.and_eq_true, decide_eq_true_eq] at h
  obtain ⟨hc, hall, hcount⟩ := h
  have h1 : c ≠ '_' := by rintro rfl; revert hc; decide
  have h2 : c ≠ '.' := by rintro rfl; revert hc; decide
  rw [readMantissa, if_neg h1, if_neg h2, if_pos hc]
  obtain ⟨m, e1, e2, e3⟩ := readMantissa_numeral cs
    ((⟨0, 0, false, false, false⟩ : Mantissa).push 10 (c.toNat - '0'.toNat)) hall
    (by simpa [Mantissa.push] using hcount) (by simp [Mantissa.push])
  exact ⟨m, e1, e2, by rw [e3]; simp [Mantissa.push]⟩

theorem lower_numeralChar {c : Char} (h : isNumeralChar c = true) : lower c ≠ 120 := by
  simp only [isNumeralChar, Bool.or_eq_true, decide_eq_true_eq] at h
  rcases h with h | h
  · have := lower_digit h
    omega
  · subst h; decide

/-- The parser on a numeral: no sign, base 10, the whole text read as the mantissa. -/
theorem parseNumber_numeral (s : List Char) (h : isNumeral s = true) :
    ∃ m, readMantissa 10 s ⟨0, 0, false, false, false⟩ = (m, []) ∧
      parseNumber s = floatOfDigits false m.n 10 (0 - (m.frac : Int)) := by
  cases s with
  | nil => simp [isNumeral] at h
  | cons c rest =>
    obtain ⟨m, hread, hdig, hund⟩ := readMantissa_numeral_init c rest h
    refine ⟨m, hread, ?_⟩
    simp only [isNumeral, Bool.and_eq_true, decide_eq_true_eq] at h
    obtain ⟨hc, hall, _⟩ := h
    have hm : c ≠ '-' := by rintro rfl; revert hc; decide
    have hp : c ≠ '+' := by rintro rfl; revert hc; decide
    have e120 : 'x'.toNat = 120 := by decide
    unfold parseNumber
    rcases rest with _ | ⟨c1, _ | ⟨c2, r2⟩⟩
    · simp only [hm, hp, or_self, if_false, decide_False, Bool.false_eq_true, hread]
      simp [hdig, hund]
    · simp only [hm, hp, or_self, if_false, decide_False, Bool.false_eq_true, hread]
      simp [hdig, hund]
    · simp only [List.all_cons, Bool.and_eq_true] at hall
      have h120 := lower_numeralChar hall.1
      simp only [hm, hp, or_self, if_false, decide_False, Bool.false_eq_true, e120, h120,
        and_false, hread]
      simp [hdig, hund]

theorem ParseFloat_numeral (cs : List Char) (h : isNumeral cs = true) :
    ∃ m, readMantissa 10 cs ⟨0, 0, false, false, false⟩ = (m, []) ∧
      ParseFloat (String.mk cs) = floatOfDigits false m.n 10 (0 - (m.frac : Int)) := by
  obtain ⟨m, h1, h2⟩ := parseNumber_numeral cs h
  refine ⟨m, h1, ?_⟩
  cases cs with
  | nil => simp [isNumeral] at h
  | cons c rest =>
    simp only [isNumeral, Bool.and_eq_true] at h
    unfold ParseFloat
    simp only [special_digit rest h.1]
    exact h2

theorem ParseFloat_numeral_ok (cs : List Char) (h : isNumeral cs = true) :
    (ParseFloat (String.mk cs)).2 ≠ some NumError.ErrSyntax := by
  obtain ⟨m, _, h2⟩ := ParseFloat_numeral cs h
  rw [h2]
  exact floatOfDigits_not_syntax _ _ _ _

/-- A point after the digits does not change what the mantissa loop has read. -/
theorem readMantissa_append_dot (cs : List Char) (hall : cs.all isDecDigit = true) :
    ∀ st : Mantissa, st.sawdot = false →
      readMantissa 10 (cs ++ ['.']) st =
        ({ (readMantissa 10 cs st).1 with sawdot := true }, []) := by
  induction cs with
  | nil =>
    intro st hs
    simp [readMantissa, hs]
  | cons c cs ih =>
    intro st hs
    simp only [List.all_cons, Bool.and_eq_true] at hall
    obtain ⟨hc, hrest⟩ := hall
    have h1 : c ≠ '_' := by rintro rfl; revert hc; decide
    have h2 : c ≠ '.' := by rintro rfl; revert hc; decide
    rw [List.cons_append, readMantissa, if_neg h1, if_neg h2, if_pos hc]
    rw [ih hrest _ (by simp [Mantissa.push, hs])]
    conv_rhs => rw [readMantissa, if_neg h1, if_neg h2, if_pos hc]

theorem isNumeral_of_digits {cs : List Char} (hne : cs ≠ []) (hall : cs.all isDecDigit = true) :
    isNumeral cs = true := by
  cases cs with
  | nil => exact absurd rfl hne
  | cons c rest =>
    simp only [List.all_cons, Bool.and_eq_true] at hall
    simp only [isNumeral, Bool.and_eq_true, decide_eq_true_eq]
    refine ⟨hall.1, ?_, ?_⟩
    · rw [List.all_eq_true] at *
      intro x hx
      simp [isNumeralChar, hall.2 x hx]
    · have : rest.count '.' = 0 := by
        rw [List.count_eq_zero]
        intro hmem
        have := (List.all_eq_true.mp hall.2) '.' hmem
        revert this; decide
      omega

theorem isNumeral_append_dot {cs : List Char} (hne : cs ≠ [])
    (hall : cs.all isDecDigit = true) : isNumeral (cs ++ ['.']) = true := by
  cases cs with
  | nil => exact absurd rfl hne
  | cons c rest =>
    simp only [List.all_cons, Bool.and_eq_true] at hall
    simp only [List.cons_append, isNumeral, Bool.and_eq_true, decide_eq_true_eq]
    have hcount : rest.count '.' = 0 := by
      rw [List.count_eq_zero]
      intro hmem
      have := (List.all_eq_true.mp hall.2) '.' hmem
      revert this; decide
    refine ⟨hall.1, ?_, ?_⟩
    · rw [List.all_append, Bool.and_eq_true]
      refine ⟨?_, by decide⟩
      rw [List.all_eq_true]
      intro x hx
      simp [isNumeralChar, (List.all_eq_true.mp hall.2) x hx]
    · rw [List.count_append, hcount]
      decide

/-- A point after a string of digits does not change what `ParseFloat` returns. -/
theorem ParseFloat_append_dot (cs : List Char) (hne : cs ≠ [])
    (hall : cs.all isDecDigit = true) :
    ParseFloat (String.mk (cs ++ ['.'])) = ParseFloat (String.mk cs) := by
  obtain ⟨m1, r1, p1⟩ := ParseFloat_numeral cs (isNumeral_of_digits hne hall)
  obtain ⟨m2, r2, p2⟩ := ParseFloat_numeral (cs ++ ['.']) (isNumeral_append_dot hne hall)
  rw [readMantissa_append_dot cs hall _ rfl, r1] at r2
  have hm : m2 = { m1 with sawdot := true } := by
    have := congrArg Prod.fst r2
    exact this.symm
  rw [p1, p2, hm]


theorem isNumeral_append_digit {d : List Char} {c : Char} (hd : isNumeral d = true)
    (hc : isDecDigit c = true) : isNumeral (d ++ [c]) = true := by
  cases d with
  | nil => simp [isNumeral] at hd
  | cons x rest =>
    simp only [isNumeral, Bool.and_eq_true, decide_eq_true_eq] at hd
    simp only [List.cons_append, isNumeral, Bool.and_eq_true, decide_eq_true_eq]
    obtain ⟨h1, h2, h3⟩ := hd
    refine ⟨h1, ?_, ?_⟩
    · rw [List.all_append, Bool.and_eq_true]
      exact ⟨h2, by simp [isNumeralChar, hc]⟩
    · have hne : c ≠ '.' := isDecDigit_ne_dot hc
      rw [List.count_append]
      have : [c].count '.' = 0 := by
        rw [List.count_eq_zero]
        simp
        exact Ne.symm hne
      omega

theorem isNumeral_dropLast {d : List Char} (hd : isNumeral d = true) (hlen : 1 < d.length) :
    isNumeral d.dropLast = true := by
  cases d with
  | nil => simp [isNumeral] at hd
  | cons x rest =>
    cases rest with
    | nil => simp at hlen
    | cons y r =>
      simp only [isNumeral, Bool.and_eq_true, decide_eq_true_eq] at hd
      obtain ⟨h1, h2, h3⟩ := hd
      rw [List.dropLast_cons₂]
      simp only [isNumeral, Bool.and_eq_true, decide_eq_true_eq]
      have hsub : (y :: r).dropLast.Sublist (y :: r) := List.dropLast_sublist _
      refine ⟨h1, ?_, ?_⟩
      · rw [List.all_eq_true] at *
        intro z hz
        exact h2 z (hsub.subset hz)
      · exact le_trans (hsub.count_le '.') h3

theorem digits_of_numeral {d : List Char} (hd : isNumeral d = true)
    (hno : d.contains '.' = false) : d ≠ [] ∧ d.all isDecDigit = true := by
  cases d with
  | nil => simp [isNumeral] at hd
  | cons x rest =>
    simp only [isNumeral, Bool.and_eq_true, decide_eq_true_eq] at hd
    obtain ⟨h1, h2, _⟩ := hd
    refine ⟨by simp, ?_⟩
    have hmem : '.' ∉ x :: rest := by
      intro h
      have : (x :: rest).contains '.' = true := by simpa using h
      rw [hno] at this
      exact absurd this (by decide)
    rw [List.all_eq_true]
    intro z hz
    rcases List.mem_cons.mp hz with hz1 | hz1
    · rw [hz1]; exact h1
    · have h3 := (List.all_eq_true.mp h2) z hz1
      simp only [isNumeralChar, Bool.or_eq_true, decide_eq_true_eq] at h3
      rcases h3 with h3 | h3
      · exact h3
      · exact absurd (h3 ▸ hz) hmem

theorem ParseFloat_zero_text : (ParseFloat "0").1 = Float64.zero ∧
    (ParseFloat "0.").1 = Float64.zero ∧ isNumeral "0".data = true ∧
    isNumeral "0.".data = true := by
  decide!

theorem EntryInv_NewEngine : EntryInv NewEngine :=
  ⟨rfl, ParseFloat_zero_text.2.2.1, ParseFloat_zero_text.1.symm, fun _ => rfl⟩

theorem EntryInv_Clear (e : Engine) (h : EntryInv e) : EntryInv e.Clear :=
  ⟨h.1, ParseFloat_zero_text.2.2.1, ParseFloat_zero_text.1.symm, fun _ => rfl⟩

theorem EntryInv_ClearEntry (e : Engine) (h : EntryInv e) : EntryInv e.ClearEntry :=
  ⟨h.1, ParseFloat_zero_text.2.2.1, ParseFloat_zero_text.1.symm, fun _ => rfl⟩

theorem EntryInv_InputDigit (e : Engine) (c : Char) (hc : isDecDigit c = true)
    (h : EntryInv e) : EntryInv (e.InputDigit (String.mk [c])) := by
  obtain ⟨hb, hn, _, _⟩ := h
  rw [InputDigit_char e c (isDecDigit_ne_dot hc)]
  refine ⟨hb, ?_, rfl, fun hN => by simp at hN⟩
  show isNumeral (if e.NewInput = true ∨ e.Display = "0" then String.mk [c]
    else e.Display ++ String.mk [c]).data = true
  split
  · simp [isNumeral, hc]
  · rw [String.data_append]
    exact isNumeral_append_digit hn hc

theorem EntryInv_InputDecimal (e : Engine) (h : EntryInv e) : EntryInv e.InputDecimal := by
  obtain ⟨hb, hn, hv, hnew⟩ := h
  unfold Engine.InputDecimal
  by_cases hN : e.NewInput = true
  · rw [if_pos hN]
    refine ⟨hb, ParseFloat_zero_text.2.2.2, ?_, fun hN => by simp at hN⟩
    show e.CurrentValue = (ParseFloat "0.").1
    rw [hv, hnew hN, ParseFloat_zero_text.1, ParseFloat_zero_text.2.1]
  · rw [if_neg hN]
    by_cases hdot : e.Display.data.contains '.' = true
    · rw [if_neg (not_not.mpr hdot)]
      exact ⟨hb, hn, hv, hnew⟩
    · rw [if_pos (by simpa using hdot)]
      have hno : e.Display.data.contains '.' = false := by simpa using hdot
      obtain ⟨hne, hall⟩ := digits_of_numeral hn hno
      have hdata : (e.Display ++ ".").data = e.Display.data ++ ['.'] := by
        rw [String.data_append]
      refine ⟨hb, ?_, ?_, fun h1 => absurd h1 hN⟩
      · show isNumeral (e.Display ++ ".").data = true
        rw [hdata]; exact isNumeral_append_dot hne hall
      · show e.CurrentValue = (ParseFloat (e.Display ++ ".")).1
        have e1 : e.Display ++ "." = String.mk (e.Display.data ++ ['.']) := by
          rw [← hdata]
        rw [e1, ParseFloat_append_dot _ hne hall, hv]

theorem EntryInv_Backspace (e : Engine) (h : EntryInv e) : EntryInv e.Backspace := by
  obtain ⟨hb, hn, hv, hnew⟩ := h
  unfold Engine.Backspace
  by_cases hlen : 1 < e.Display.length
  · rw [if_pos hlen]
    refine ⟨hb, isNumeral_dropLast hn hlen, rfl, ?_⟩
    intro hN
    have h0 := hnew hN
    rw [h0] at hlen
    exact absurd hlen (by decide)
  · rw [if_neg hlen]
    exact ⟨hb, ParseFloat_zero_text.2.2.1, ParseFloat_zero_text.1.symm, fun _ => rfl⟩

/-- Each key of plain decimal entry is answered, and keeps the invariant. -/
theorem EntryInv_step (rt : GoEnv) (e : Engine) (k : EntryKey) (hk : k.valid = true)
    (h : EntryInv e) : ∃ e1, step rt e k.toOp = some e1 ∧ EntryInv e1 := by
  cases k with
  | Digit c => exact ⟨_, rfl, EntryInv_InputDigit e c hk h⟩
  | Decimal => exact ⟨_, rfl, EntryInv_InputDecimal e h⟩
  | Backspace => exact ⟨_, rfl, EntryInv_Backspace e h⟩
  | Clear => exact ⟨_, rfl, EntryInv_Clear e h⟩
  | ClearEntry => exact ⟨_, rfl, EntryInv_ClearEntry e h⟩

theorem EntryInv_run (rt : GoEnv) (keys : List EntryKey) :
    ∀ e, EntryInv e → (∀ k ∈ keys, k.valid = true) →
      ∃ e1, runOps rt e (keys.map EntryKey.toOp) = some e1 ∧ EntryInv e1 := by
  induction keys with
  | nil => intro e h _; exact ⟨e, rfl, h⟩
  | cons k ks ih =>
    intro e h hk
    obtain ⟨e1, hs, h1⟩ := EntryInv_step rt e k (hk k (List.mem_cons_self _ _)) h
    obtain ⟨e2, hr, h2⟩ := ih e1 h1 (fun x hx => hk x (List.mem_cons_of_mem _ hx))
    refine ⟨e2, ?_, h2⟩
    simp only [List.map_cons, runOps, hs, Option.some_bind]
    exact hr


/-- C19, as stated, fails in reachable states that show neither `Error` nor `Overflow`.
After `5`, `+` and the decimal key the display is `0.` while the value is still 5.
In binary mode the keys `1`, `0` show `10`, which is 2 in base 2, while the value is 10.
After `5` and the exponent key the display `5e` is no numeral at all.  After `2.5`,
`SetNumberBase(Decimal)` shows `2` while the value is 2.5. -/
theorem display_value_counterexample :
    (runOps GoEnv.sample NewEngine
        [Op.InputDigit "5", Op.SetOperation OpAdd, Op.InputDecimal]).map
        (fun e => (e.Display, e.CurrentValue)) =
      some ("0.", Float64.fin false (5 * Float64.one)) ∧
    ParseFloat "0." = (Float64.zero, none) ∧
    (runOps GoEnv.sample NewEngine
        [Op.SetNumberBase Binary, Op.InputDigit "1", Op.InputDigit "0"]).map
        (fun e => (e.Display, e.CurrentValue)) =
      some ("10", Float64.fin false (10 * Float64.one)) ∧
    (runOps GoEnv.sample NewEngine
        [Op.SetNumberBase Binary, Op.InputDigit "1", Op.InputDigit "0"]).map
        (fun e => (decide (e.NumberBase = Binary), (e.ParseCurrentBase e.Display).1)) =
      some (true, (2 : Int)) ∧
    (runOps GoEnv.sample NewEngine [Op.InputDigit "5", Op.InputExponent]).map
        (fun e => (e.Display, e.CurrentValue)) =
      some ("5e", Float64.fin false (5 * Float64.one)) ∧
    ParseFloat "5e" = (Float64.zero, some NumError.ErrSyntax) ∧
    (runOps GoEnv.sample NewEngine
        [Op.InputDigit "2", Op.InputDecimal, Op.InputDigit "5",
         Op.SetNumberBase Decimal]).map
        (fun e => (e.Display, decide (e.NumberBase = Decimal),
          Float64.eq e.CurrentValue (Float64.ofInt 2),
          Float64.eq (Float64.add e.CurrentValue e.CurrentValue) (Float64.ofInt 5))) =
      some ("2", true, false, true) := by
  decide!

/-- C19, amended: every sequence of the keys of plain decimal entry (`InputDigit` with one
of `0`..`9`, `InputDecimal`, `Backspace`, `Clear`, `ClearEntry`) runs from `NewEngine()`
to a state in decimal base whose `Display` is a decimal numeral (digits, optionally a
point and further digits) that `ParseFloat` reads without a syntax error, and whose
`CurrentValue` is the `float64` that `ParseFloat` returns for that `Display`. -/
theorem decimal_entry_invariant (rt : GoEnv) (keys : List EntryKey)
    (hk : ∀ k ∈ keys, k.valid = true) :
    ∃ e, runOps rt NewEngine (keys.map EntryKey.toOp) = some e ∧ Reachable rt e ∧
      e.NumberBase = Decimal ∧ isNumeral e.Display.data = true ∧
      (ParseFloat e.Display).2 ≠ some NumError.ErrSyntax ∧
      e.CurrentValue = (ParseFloat e.Display).1 := by
  obtain ⟨e, hr, hb, hn, hv, _⟩ := EntryInv_run rt keys NewEngine EntryInv_NewEngine hk
  exact ⟨e, hr, ⟨_, hr⟩, hb, hn, ParseFloat_numeral_ok e.Display.data hn, hv⟩

theorem decimal_entry_invariant_witness :
    (∀ k ∈ [EntryKey.Digit '1', EntryKey.Decimal, EntryKey.Digit '5', EntryKey.Backspace,
        EntryKey.Digit '2'], k.valid = true) ∧
    ∃ e, runOps GoEnv.sample NewEngine
        ([EntryKey.Digit '1', EntryKey.Decimal, EntryKey.Digit '5', EntryKey.Backspace,
          EntryKey.Digit '2'].map EntryKey.toOp) = some e ∧ Reachable GoEnv.sample e ∧
      e.NumberBase = Decimal ∧ isNumeral e.Display.data = true ∧
      (ParseFloat e.Display).2 ≠ some NumError.ErrSyntax ∧
      e.CurrentValue = (ParseFloat e.Display).1 :=
  ⟨by decide, decimal_entry_invariant GoEnv.sample _ (by decide)⟩

/-! ## leap years -/

/-- C12: `IsLeapYear()` is true exactly when the year `y` of `StartDate` is divisible by
4 and either not divisible by 100 or divisible by 400; so 2000 and 2024 are leap years,
1900 and 2023 are not. -/
theorem IsLeapYear_spec (d : DateTimeCalc) :
    (d.IsLeapYear = true ↔
      ((4 : Int) ∣ d.StartDate.Year ∧
        (¬ (100 : Int) ∣ d.StartDate.Year ∨ (400 : Int) ∣ d.StartDate.Year))) ∧
    (d.StartDate.Year = 2000 → d.IsLeapYear = true) ∧
    (d.StartDate.Year = 1900 → d.IsLeapYear = false) ∧
    (d.StartDate.Year = 2024 → d.IsLeapYear = true) ∧
    (d.StartDate.Year = 2023 → d.IsLeapYear = false) := by
  refine ⟨?_, ?_, ?_, ?_, ?_⟩
  · unfold DateTimeCalc.IsLeapYear
    simp only [Bool.and_eq_true, Bool.or_eq_true, beq_iff_eq, bne_iff_ne, ne_eq]
    rw [← Int.dvd_iff_tmod_eq_zero, ← Int.dvd_iff_tmod_eq_zero, ← Int.dvd_iff_tmod_eq_zero]
  all_goals
    intro h
    unfold DateTimeCalc.IsLeapYear
    rw [h]
    decide

theorem IsLeapYear_spec_witness :
    (Date 2024 2 29 12 0 0 0 UTC).Year = 2024 ∧
    (DateTimeCalc.mk (Date 2024 2 29 12 0 0 0 UTC) (Date 2024 2 29 12 0 0 0 UTC) "").IsLeapYear
      = true ∧
    (Date 1900 3 1 0 0 0 0 UTC).Year = 1900 ∧
    (DateTimeCalc.mk (Date 1900 3 1 0 0 0 0 UTC) (Date 2024 2 29 12 0 0 0 UTC) "").IsLeapYear
      = false :=
  ⟨by decide,
   (IsLeapYear_spec ⟨Date 2024 2 29 12 0 0 0 UTC, Date 2024 2 29 12 0 0 0 UTC, ""⟩).2.2.2.1
     (by decide),
   by decide,
   (IsLeapYear_spec ⟨Date 1900 3 1 0 0 0 0 UTC, Date 2024 2 29 12 0 0 0 UTC, ""⟩).2.2.1
     (by decide)⟩

/-! ## date difference -/

/-- C14 fails in the code: from 31 January 2023 to 1 March 2023 (midnight, UTC) the
breakdown is 0 years, 1 month and -2 days: the borrow adds the 28 days of February to
`1 - 31`. -/
theorem CalculateDifference_negative_days (rt : GoEnv) :
    ((DateTimeCalc.mk (Date 2023 1 31 0 0 0 0 UTC) (Date 2023 3 1 0 0 0 0 UTC)
        "").CalculateDifference rt).Years = 0 ∧
    ((DateTimeCalc.mk (Date 2023 1 31 0 0 0 0 UTC) (Date 2023 3 1 0 0 0 0 UTC)
        "").CalculateDifference rt).Months = 1 ∧
    ((DateTimeCalc.mk (Date 2023 1 31 0 0 0 0 UTC) (Date 2023 3 1 0 0 0 0 UTC)
        "").CalculateDifference rt).Days = -2 ∧
    ((DateTimeCalc.mk (Date 2023 3 1 0 0 0 0 UTC) (Date 2023 1 31 0 0 0 0 UTC)
        "").CalculateDifference rt).Days = -2 := by
  simp only [DateTimeCalc.CalculateDifference]
  decide

/-! ## totals of a date difference -/

namespace Float64

theorem bitLenAux_ge (fuel : Nat) : ∀ n, 0 < n → 2 ^ (bitLenAux fuel n - 1) ≤ n := by
  induction fuel with
  | zero => intro n hn; simp [bitLenAux]; omega
  | succ f ih =>
    intro n hn
    unfold bitLenAux
    rw [if_neg (by omega)]
    simp only [Nat.add_sub_cancel]
    by_cases h2 : n / 2 = 0
    · have : bitLenAux f (n / 2) = 0 := by
        rw [h2]; cases f <;> simp [bitLenAux]
      rw [this]; simp; omega
    · have h3 := ih (n / 2) (by omega)
      by_cases hb : bitLenAux f (n / 2) = 0
      · rw [hb]; simp; omega
      · have e : bitLenAux f (n / 2) = (bitLenAux f (n / 2) - 1) + 1 := by omega
        rw [e, pow_succ]
        omega

/-- Rounding at most doubles: the rounded value is at most `2 * (p / q) + 1`. -/
theorem roundGrid_bound (neg : Bool) (p q : Nat) (h : 2 * (p / q) + 1 < huge) :
    ∃ k, roundGrid neg p q = fin neg k ∧ k ≤ 2 * (p / q) + 1 := by
  unfold roundGrid
  simp only
  obtain ⟨s, hs⟩ : ∃ s, s = bitLen (p / q) - 53 := ⟨_, rfl⟩
  rw [← hs]
  have h2s : 0 < 2 ^ s := Nat.two_pow_pos s
  have hpow : 2 ^ s ≤ p / q + 1 := by
    by_cases h0 : p / q = 0
    · have : bitLen (p / q) = 0 := by rw [h0]; rfl
      rw [this] at hs
      simp at hs
      rw [hs, h0]
      simp
    · have h1 := bitLenAux_ge (p / q) (p / q) (by omega)
      have h3 : (2 : Nat) ^ s ≤ 2 ^ (bitLenAux (p / q) (p / q) - 1) := by
        apply Nat.pow_le_pow_right
        · decide
        · rw [hs]; unfold bitLen; omega
      omega
  have hk : roundHalfEven p (q * 2 ^ s) * 2 ^ s ≤ 2 * (p / q) + 1 := by
    have hr := roundHalfEven_le p (q * 2 ^ s)
    have e1 : p / (q * 2 ^ s) = p / q / 2 ^ s := (Nat.div_div_eq_div_mul p q (2 ^ s)).symm
    calc roundHalfEven p (q * 2 ^ s) * 2 ^ s
        ≤ (p / q / 2 ^ s + 1) * 2 ^ s := by
          rw [← e1]; exact Nat.mul_le_mul_right _ hr
      _ = p / q / 2 ^ s * 2 ^ s + 2 ^ s := by ring
      _ ≤ p / q + 2 ^ s := Nat.add_le_add_right (Nat.div_mul_le_self _ _) _
      _ ≤ 2 * (p / q) + 1 := by omega
  rw [if_neg (by omega)]
  exact ⟨_, rfl, hk⟩

theorem Within_ofInt (n : Nat) (h : n < 2 ^ 53) : Within (ofInt (n : Int)) n :=
  ⟨n * one, ofInt_natCast h, le_refl _⟩

theorem pow64_one_lt_huge : 2 ^ 64 * one < huge := by
  rw [one_eq, huge_eq, ← pow_add]
  apply Nat.pow_lt_pow_right
  · decide
  · decide

theorem Within_div {x : Float64} {B : Nat} (hx : Within x B) (c : Nat) (hc : 0 < c)
    (hc2 : c < 2 ^ 53) (hB : 2 * B + 1 < 2 ^ 64) :
    Within (div x (ofInt (c : Int))) (2 * B + 1) := by
  obtain ⟨k, rfl, hk⟩ := hx
  rw [ofInt_natCast hc2]
  have hone := one_pos
  have hne : c * one ≠ 0 := Nat.mul_ne_zero (by omega) (by omega)
  simp only [div, if_neg hne, Bool.xor_self]
  have hdiv : k * one / (c * one) ≤ B * one := by
    rw [Nat.mul_div_mul_right _ _ hone]
    exact le_trans (Nat.div_le_self _ _) hk
  have hlt : 2 * (k * one / (c * one)) + 1 < huge := by
    have h1 : 2 * (k * one / (c * one)) + 1 ≤ (2 * B + 1) * one := by
      have : (2 * B + 1) * one = 2 * (B * one) + one := by ring
      omega
    have h2 : (2 * B + 1) * one < 2 ^ 64 * one := Nat.mul_lt_mul_of_pos_right hB hone
    exact lt_of_le_of_lt h1 (lt_trans h2 pow64_one_lt_huge)
  obtain ⟨k2, h1, h2⟩ := roundGrid_bound false (k * one) (c * one) hlt
  refine ⟨k2, h1, ?_⟩
  have : (2 * B + 1) * one = 2 * (B * one) + one := by ring
  omega

theorem Within_add {x y : Float64} {A B : Nat} (hx : Within x A) (hy : Within y B)
    (hAB : 2 * (A + B) + 1 < 2 ^ 64) : Within (add x y) (2 * (A + B) + 1) := by
  obtain ⟨a, rfl, ha⟩ := hx
  obtain ⟨b, rfl, hb⟩ := hy
  have hone := one_pos
  simp only [add, gridInt, Bool.and_self, Bool.false_eq_true, if_false]
  unfold ofGridInt
  by_cases hz : (a : Int) + (b : Int) = 0
  · rw [if_pos hz]
    exact ⟨0, rfl, Nat.zero_le _⟩
  · rw [if_neg hz]
    have hneg : decide ((a : Int) + (b : Int) < 0) = false := by
      apply decide_eq_false; omega
    have habs : ((a : Int) + (b : Int)).natAbs = a + b := by omega
    rw [hneg, habs]
    have hsum : a + b ≤ (A + B) * one := by
      have : (A + B) * one = A * one + B * one := by ring
      omega
    have e : (2 * (A + B) + 1) * one = 2 * ((A + B) * one) + one := by ring
    have hlt : 2 * ((a + b) / 1) + 1 < huge := by
      rw [Nat.div_one]
      have h2 : (2 * (A + B) + 1) * one < 2 ^ 64 * one := Nat.mul_lt_mul_of_pos_right hAB hone
      have := pow64_one_lt_huge
      omega
    obtain ⟨k2, h1, h2⟩ := roundGrid_bound false (a + b) 1 hlt
    rw [Nat.div_one] at h2
    exact ⟨k2, h1, by omega⟩

end Float64

theorem toInt64_Within (rt : GoEnv) {x : Float64} {B : Nat} (hx : Float64.Within x B)
    (hB : B < 2 ^ 63) : 0 ≤ toInt64 rt x ∧ toInt64 rt x ≤ B := by
  obtain ⟨k, rfl, hk⟩ := hx
  have hone := Float64.one_pos
  have hq : k / Float64.one ≤ B := by
    apply Nat.div_le_of_le_mul
    rw [Nat.mul_comm]; exact hk
  have h0 : (0 : Int) ≤ (k : Int) / (Float64.one : Int) := by
    rw [← Int.ofNat_ediv]; exact Int.ofNat_nonneg _
  have h1 : (k : Int) / (Float64.one : Int) ≤ (B : Int) := by
    rw [← Int.ofNat_ediv]; exact_mod_cast hq
  unfold toInt64
  simp only [Float64.trunc, Float64.gridInt, Bool.false_eq_true, if_false]
  rw [if_pos (by constructor <;> omega)]
  exact ⟨h0, h1⟩

theorem wrapInt64_bounds (z : Int) : -(2 ^ 63) ≤ wrapInt64 z ∧ wrapInt64 z < 2 ^ 63 := by
  unfold wrapInt64
  omega

/-- The duration `CalculateDifference` measures does not depend on the order in which
the two dates are held. -/
theorem Sub_ordered_symm (a b : Time) :
    (if b.Before a = true then a else b).Sub (if b.Before a = true then b else a) =
    (if a.Before b = true then b else a).Sub (if a.Before b = true then a else b) := by
  have hr : minDuration ≤ 0 ∧ (0 : Int) ≤ maxDuration := by
    show (-(2 ^ 63) : Int) ≤ 0 ∧ (0 : Int) ≤ 2 ^ 63 - 1
    constructor <;> omega
  obtain ⟨ans, am, al⟩ := a
  obtain ⟨bns, bm, bl⟩ := b
  cases am with
  | some ma =>
    cases bm with
    | some mb =>
      simp only [Time.Before, decide_eq_true_eq]
      rcases lt_trichotomy ma mb with h | h | h
      · rw [if_neg (by omega), if_neg (by omega), if_pos h, if_pos h]
      · subst h
        rw [if_neg (by omega), if_neg (by omega)]
        simp only [Time.Sub]
      · rw [if_pos h, if_pos h, if_neg (by omega), if_neg (by omega)]
    | none =>
      simp only [Time.Before, decide_eq_true_eq]
      rcases lt_trichotomy ans bns with h | h | h
      · rw [if_neg (by omega), if_neg (by omega), if_pos h, if_pos h]
      · subst h
        rw [if_neg (by omega), if_neg (by omega)]
        simp only [Time.Sub, sub_self]
        rw [if_pos hr, if_pos hr]
      · rw [if_pos h, if_pos h, if_neg (by omega), if_neg (by omega)]
  | none =>
    simp only [Time.Before, decide_eq_true_eq]
    rcases lt_trichotomy ans bns with h | h | h
    · rw [if_neg (by omega), if_neg (by omega), if_pos h, if_pos h]
    · subst h
      rw [if_neg (by omega), if_neg (by omega)]
      cases bm <;> simp only [Time.Sub, sub_self] <;> rw [if_pos hr, if_pos hr]
    · rw [if_pos h, if_pos h, if_neg (by omega), if_neg (by omega)]

theorem Sub_wall_range (t u : Int) (h : ¬ t < u) (bef : Bool) (hb : bef = decide (t < u)) :
    (0 : Int) ≤ (if minDuration ≤ t - u ∧ t - u ≤ maxDuration then t - u
      else if bef = true then minDuration else maxDuration) ∧
    (if minDuration ≤ t - u ∧ t - u ≤ maxDuration then t - u
      else if bef = true then minDuration else maxDuration) < 2 ^ 63 := by
  have hf : bef = false := by rw [hb]; exact decide_eq_false h
  rw [hf]
  simp only [Bool.false_eq_true, if_false]
  unfold minDuration maxDuration
  split_ifs <;> constructor <;> omega

theorem subMono_range (t u : Int) (h : ¬ t < u) :
    (0 : Int) ≤ Time.subMono t u ∧ (Time.subMono t u : Int) < 2 ^ 63 := by
  have hw := wrapInt64_bounds (t - u)
  have h0 : t = u → wrapInt64 (t - u) = 0 := by
    intro e; rw [e, sub_self]; unfold wrapInt64; omega
  unfold Time.subMono
  simp only
  by_cases h1 : wrapInt64 (t - u) < 0 ∧ u < t
  · rw [if_pos h1]
    show (0 : Int) ≤ 2 ^ 63 - 1 ∧ (2 ^ 63 - 1 : Int) < 2 ^ 63
    constructor <;> omega
  · rw [if_neg h1, if_neg (fun h2 => h h2.2)]
    by_cases e : t = u
    · rw [h0 e]
      show (0 : Int) ≤ 0 ∧ (0 : Int) < 2 ^ 63
      constructor <;> omega
    · constructor
      · by_contra hneg
        exact h1 ⟨by omega, by omega⟩
      · exact hw.2

/-- The duration `CalculateDifference` measures is non-negative. -/
theorem Sub_ordered_range (a b : Time) :
    (0 : Int) ≤ (if b.Before a = true then a else b).Sub (if b.Before a = true then b else a) ∧
    ((if b.Before a = true then a else b).Sub (if b.Before a = true then b else a) : Int) <
      2 ^ 63 := by
  obtain ⟨ans, am, al⟩ := a
  obtain ⟨bns, bm, bl⟩ := b
  cases am with
  | some ma =>
    cases bm with
    | some mb =>
      simp only [Time.Before, decide_eq_true_eq]
      by_cases h : mb < ma
      · rw [if_pos h, if_pos h]
        exact subMono_range ma mb (by omega)
      · rw [if_neg h, if_neg h]
        exact subMono_range mb ma h
    | none =>
      simp only [Time.Before, decide_eq_true_eq]
      by_cases h : bns < ans
      · rw [if_pos h, if_pos h]
        exact Sub_wall_range ans bns (by omega) _ rfl
      · rw [if_neg h, if_neg h]
        exact Sub_wall_range bns ans h _ rfl
  | none =>
    simp only [Time.Before, decide_eq_true_eq]
    by_cases h : bns < ans
    · rw [if_pos h, if_pos h]
      cases bm <;> exact Sub_wall_range ans bns (by omega) _ rfl
    · rw [if_neg h, if_neg h]
      cases bm <;> exact Sub_wall_range bns ans h _ rfl


/-- The value of `Hours`, `Minutes` or `Seconds` of a non-negative duration is finite,
non-negative and small. -/
theorem Within_parts (D c : Int) (h0 : 0 ≤ D) (hc : 0 < c) (hc2 : c < 2 ^ 42)
    (hq : D / c < 2 ^ 53) :
    ∃ B, B < 2 ^ 61 ∧
      Float64.Within (Float64.add (Float64.ofInt (Int.tdiv D c))
        (Float64.div (Float64.ofInt (Int.tmod D c)) (Float64.ofInt c))) B := by
  rw [Int.tdiv_eq_ediv h0 (le_of_lt hc), Int.tmod_eq_emod h0 (le_of_lt hc)]
  obtain ⟨n, rfl⟩ := Int.eq_ofNat_of_zero_le h0
  obtain ⟨m, rfl⟩ := Int.eq_ofNat_of_zero_le (le_of_lt hc)
  have hm : 0 < m := by omega
  have hm2 : m < 2 ^ 42 := by omega
  have hq2 : n / m < 2 ^ 53 := by
    have : ((n / m : Nat) : Int) < 2 ^ 53 := by rw [Int.ofNat_ediv]; exact hq
    omega
  have hr : n % m < m := Nat.mod_lt _ hm
  rw [← Int.ofNat_ediv, ← Int.ofNat_emod]
  have w1 := Float64.Within_ofInt (n / m) hq2
  have w2 := Float64.Within_ofInt (n % m) (by omega)
  have w3 := Float64.Within_div w2 m hm (by omega) (by omega)
  have w4 := Float64.Within_add w1 w3 (by omega)
  exact ⟨_, by omega, w4⟩

theorem total_nonneg (rt : GoEnv) (D c : Int) (h0 : 0 ≤ D) (hc : 0 < c) (hc2 : c < 2 ^ 42)
    (hq : D / c < 2 ^ 53) :
    0 ≤ toInt64 rt (Float64.add (Float64.ofInt (Int.tdiv D c))
        (Float64.div (Float64.ofInt (Int.tmod D c)) (Float64.ofInt c))) ∧
    0 ≤ toInt64 rt (Float64.div (Float64.add (Float64.ofInt (Int.tdiv D c))
        (Float64.div (Float64.ofInt (Int.tmod D c)) (Float64.ofInt c))) (Float64.ofInt 24)) := by
  obtain ⟨B, hB, w⟩ := Within_parts D c h0 hc hc2 hq
  refine ⟨(toInt64_Within rt w (by omega)).1, ?_⟩
  have w2 := Float64.Within_div w 24 (by decide) (by decide) (by omega)
  exact (toInt64_Within rt w2 (by omega)).1

/-- C13: the totals of `CalculateDifference` do not depend on the order in which the two
dates are held, none of them is negative, and `TotalWeeks` is `TotalDays / 7` by integer
division. -/
theorem CalculateDifference_totals (rt : GoEnv) (a b : Time) (r1 r2 : String) :
    ((DateTimeCalc.mk a b r1).CalculateDifference rt).TotalDays =
      ((DateTimeCalc.mk b a r2).CalculateDifference rt).TotalDays ∧
    ((DateTimeCalc.mk a b r1).CalculateDifference rt).TotalWeeks =
      ((DateTimeCalc.mk b a r2).CalculateDifference rt).TotalWeeks ∧
    ((DateTimeCalc.mk a b r1).CalculateDifference rt).TotalHours =
      ((DateTimeCalc.mk b a r2).CalculateDifference rt).TotalHours ∧
    ((DateTimeCalc.mk a b r1).CalculateDifference rt).TotalMinutes =
      ((DateTimeCalc.mk b a r2).CalculateDifference rt).TotalMinutes ∧
    ((DateTimeCalc.mk a b r1).CalculateDifference rt).TotalSeconds =
      ((DateTimeCalc.mk b a r2).CalculateDifference rt).TotalSeconds ∧
    0 ≤ ((DateTimeCalc.mk a b r1).CalculateDifference rt).TotalDays ∧
    0 ≤ ((DateTimeCalc.mk a b r1).CalculateDifference rt).TotalWeeks ∧
    0 ≤ ((DateTimeCalc.mk a b r1).CalculateDifference rt).TotalHours ∧
    0 ≤ ((DateTimeCalc.mk a b r1).CalculateDifference rt).TotalMinutes ∧
    0 ≤ ((DateTimeCalc.mk a b r1).CalculateDifference rt).TotalSeconds ∧
    ((DateTimeCalc.mk a b r1).CalculateDifference rt).TotalWeeks =
      ((DateTimeCalc.mk a b r1).CalculateDifference rt).TotalDays / 7 := by
  have hsym := Sub_ordered_symm a b
  obtain ⟨D, hD, h0, hlt⟩ : ∃ D : Int,
      (if b.Before a = true then a else b).Sub (if b.Before a = true then b else a) = D ∧
      0 ≤ D ∧ D < 2 ^ 63 := ⟨_, rfl, Sub_ordered_range a b⟩
  simp only [DateTimeCalc.CalculateDifference]
  rw [← hsym, hD]
  have hH := total_nonneg rt D 3600000000000 h0 (by decide) (by decide) (by omega)
  have hM := total_nonneg rt D 60000000000 h0 (by decide) (by decide) (by omega)
  have hS := total_nonneg rt D 1000000000 h0 (by decide) (by decide) (by omega)
  have hD : 0 ≤ toInt64 rt (Float64.div (Duration.Hours D) (Float64.ofInt 24)) := hH.2
  refine ⟨rfl, rfl, rfl, rfl, rfl, hD, ?_, hH.1, hM.1, hS.1, ?_⟩
  · rw [Int.tdiv_eq_ediv hD (by decide)]
    omega
  · exact Int.tdiv_eq_ediv hD (by decide)

/-! ## trailing zeros -/

theorem toUint64_lt (rt : GoEnv) (x : Float64) : toUint64 rt x < 2 ^ 64 := by
  have hw : ∀ z : Int, wrapUint64 z < 2 ^ 64 := by
    intro z
    unfold wrapUint64
    omega
  unfold toUint64
  split
  · simp only
    split
    · rename_i h
      omega
    · exact hw _
  · exact hw _

/-- The loop of `TrailingZeros` stops within `fuel` steps at the lowest set bit of a
non-zero value below `2^fuel`. -/
theorem trailingZerosLoop_spec (fuel : Nat) :
    ∀ val count, val ≠ 0 → val < 2 ^ fuel →
      ∃ z, Engine.trailingZerosLoop fuel val count = count + z ∧ z < fuel ∧
        val.testBit z = true ∧ ∀ i, i < z → val.testBit i = false := by
  induction fuel with
  | zero => intro val count h0 hlt; simp at hlt; exact absurd hlt h0
  | succ f ih =>
    intro val count h0 hlt
    unfold Engine.trailingZerosLoop
    rw [Nat.and_one_is_mod]
    by_cases hev : val % 2 = 0
    · rw [if_pos hev]
      have hs : shr64 val 1 = val / 2 := by
        unfold shr64
        rw [if_neg (by decide)]
        simp
      rw [hs]
      obtain ⟨z, h1, h2, h3, h4⟩ := ih (val / 2) (count + 1) (by omega)
        (by rw [pow_succ] at hlt; omega)
      refine ⟨z + 1, by rw [h1]; omega, by omega, ?_, ?_⟩
      · rw [Nat.testBit_succ]; exact h3
      · intro i hi
        cases i with
        | zero => rw [Nat.testBit_zero]; simp [hev]
        | succ j => rw [Nat.testBit_succ]; exact h4 j (by omega)
    · rw [if_neg hev]
      refine ⟨0, rfl, by omega, ?_, fun i hi => absurd hi (by omega)⟩
      rw [Nat.testBit_zero]
      simp
      omega

/-- C21: `TrailingZeros()` returns for every state: the fuel of 64 loop steps is never
used up, more fuel changes nothing.  With `v` the unsigned conversion of
`CurrentValue`: for `v = 0` the count is 64; otherwise it is the index `c` of the lowest
set bit of `v`, a number below 64.  `CurrentValue` becomes the count, `Display` the
count in the active base and `NewInput` true; nothing else changes. -/
theorem TrailingZeros_spec (rt : GoEnv) (e : Engine) :
    (toUint64 rt e.CurrentValue = 0 →
      e.TrailingZeros rt = { e with CurrentValue := Float64.ofInt 64,
                                    Display := e.FormatInBase 64, NewInput := true }) ∧
    (toUint64 rt e.CurrentValue ≠ 0 →
      ∃ c : Nat,
        (∀ fuel, 64 ≤ fuel →
          Engine.trailingZerosLoop fuel (toUint64 rt e.CurrentValue) 0 = c) ∧
        e.TrailingZeros rt = { e with CurrentValue := Float64.ofInt (c : Int),
                                      Display := e.FormatInBase (c : Int),
                                      NewInput := true } ∧
        c < 64 ∧ (toUint64 rt e.CurrentValue).testBit c = true ∧
        (∀ i, i < c → (toUint64 rt e.CurrentValue).testBit i = false) ∧
        Float64.ofInt (c : Int) = Float64.fin false (c * Float64.one)) := by
  constructor
  · intro h0
    unfold Engine.TrailingZeros
    simp only [h0, if_true]
  · intro h0
    have hlt := toUint64_lt rt e.CurrentValue
    obtain ⟨z, h1, h2, h3, h4⟩ :=
      trailingZerosLoop_spec 64 (toUint64 rt e.CurrentValue) 0 h0 hlt
    rw [Nat.zero_add] at h1
    refine ⟨z, ?_, ?_, h2, h3, h4, Float64.ofInt_natCast (by omega)⟩
    · intro fuel hf
      have hlt2 : toUint64 rt e.CurrentValue < 2 ^ fuel :=
        lt_of_lt_of_le hlt (Nat.pow_le_pow_right (by decide) hf)
      obtain ⟨y, g1, _, g3, g4⟩ :=
        trailingZerosLoop_spec fuel (toUint64 rt e.CurrentValue) 0 h0 hlt2
      rw [Nat.zero_add] at g1
      rw [g1]
      rcases lt_trichotomy y z with h | h | h
      · have := h4 y h
        rw [g3] at this
        exact absurd this (by decide)
      · exact h
      · have := g4 z h
        rw [h3] at this
        exact absurd this (by decide)
    · unfold Engine.TrailingZeros
      simp only [h0, if_false, h1]
      rfl

theorem TrailingZeros_spec_witness :
    toUint64 GoEnv.sample (enterDigits NewEngine "40").CurrentValue ≠ 0 ∧
    (enterDigits NewEngine "40").TrailingZeros GoEnv.sample =
      { enterDigits NewEngine "40" with
          CurrentValue := Float64.ofInt 3, Display := "3", NewInput := true } ∧
    NewEngine.TrailingZeros GoEnv.sample =
      { NewEngine with CurrentValue := Float64.ofInt 64,
                       Display := "64", NewInput := true } := by
  have hv : toUint64 GoEnv.sample (enterDigits NewEngine "40").CurrentValue = 40 := by decide!
  have hne : toUint64 GoEnv.sample (enterDigits NewEngine "40").CurrentValue ≠ 0 := by
    rw [hv]; decide
  obtain ⟨c, h1, h2, _, _, _, _⟩ :=
    (TrailingZeros_spec GoEnv.sample (enterDigits NewEngine "40")).2 hne
  have hc : c = 3 := by
    rw [← h1 64 (le_refl _), hv]; decide
  subst hc
  refine ⟨hne, ?_, ?_⟩
  · rw [h2]
    have hd : (enterDigits NewEngine "40").FormatInBase ((3 : Nat) : Int) = "3" := by decide!
    rw [hd]
    rfl
  · have h0 := (TrailingZeros_spec GoEnv.sample NewEngine).1 (by decide!)
    rw [h0]
    have hd : NewEngine.FormatInBase 64 = "64" := by decide!
    rw [hd]

/-! ## the decimal point -/

theorem count_dot_of_numeral {d : List Char} (h : isNumeral d = true) : d.count '.' ≤ 1 := by
  cases d with
  | nil => simp [isNumeral] at h
  | cons c cs =>
    simp only [isNumeral, Bool.and_eq_true, decide_eq_true_eq] at h
    obtain ⟨hc, _, hcount⟩ := h
    rw [List.count_cons_of_ne (Ne.symm (isDecDigit_ne_dot hc))]
    exact hcount

/-- C29: every sequence of `InputDigit` calls with a digit `0`..`9` and `InputDecimal`
calls runs from `NewEngine()` to a state whose `Display` holds at most one point.  In that
state (as in any other) `InputDecimal` on a fresh operand gives the display `0.` and
clears `NewInput`, and when the display already holds a point `InputDecimal` changes
nothing. -/
theorem decimal_point_once (rt : GoEnv) (keys : List EntryKey)
    (hk : ∀ k ∈ keys, k = EntryKey.Decimal ∨ ∃ c, k = EntryKey.Digit c ∧ isDecDigit c = true) :
    ∃ e, runOps rt NewEngine (keys.map EntryKey.toOp) = some e ∧
      e.Display.data.count '.' ≤ 1 ∧
      (e.NewInput = true →
        e.InputDecimal = { e with Display := "0.", NewInput := false }) ∧
      (e.Display.data.contains '.' = true → e.InputDecimal = e) := by
  have hvalid : ∀ k ∈ keys, k.valid = true := by
    intro k hmem
    rcases hk k hmem with h | ⟨c, h, hc⟩
    · rw [h]; rfl
    · rw [h]; exact hc
  obtain ⟨e, hr, _, hn, _, hnew⟩ := EntryInv_run rt keys NewEngine EntryInv_NewEngine hvalid
  refine ⟨e, hr, count_dot_of_numeral hn, ?_, ?_⟩
  · intro hN
    unfold Engine.InputDecimal
    rw [if_pos hN]
  · intro hdot
    have hN : ¬ e.NewInput = true := by
      intro hN
      rw [hnew hN] at hdot
      exact absurd hdot (by decide)
    unfold Engine.InputDecimal
    rw [if_neg hN, if_neg (not_not.mpr hdot)]

theorem decimal_point_once_witness :
    (∀ k ∈ [EntryKey.Digit '3', EntryKey.Decimal, EntryKey.Digit '1', EntryKey.Decimal,
        EntryKey.Digit '4'],
      k = EntryKey.Decimal ∨ ∃ c, k = EntryKey.Digit c ∧ isDecDigit c = true) ∧
    ∃ e, runOps GoEnv.sample NewEngine
        ([EntryKey.Digit '3', EntryKey.Decimal, EntryKey.Digit '1', EntryKey.Decimal,
          EntryKey.Digit '4'].map EntryKey.toOp) = some e ∧
      e.Display.data.count '.' ≤ 1 ∧
      (e.NewInput = true →
        e.InputDecimal = { e with Display := "0.", NewInput := false }) ∧
      (e.Display.data.contains '.' = true → e.InputDecimal = e) := by
  have hk : ∀ k ∈ [EntryKey.Digit '3', EntryKey.Decimal, EntryKey.Digit '1',
      EntryKey.Decimal, EntryKey.Digit '4'],
      k = EntryKey.Decimal ∨ ∃ c, k = EntryKey.Digit c ∧ isDecDigit c = true := by
    intro k hmem
    simp only [List.mem_cons, List.mem_singleton, List.not_mem_nil, or_false] at hmem
    rcases hmem with h | h | h | h | h
    · exact Or.inr ⟨'3', h, by decide⟩
    · exact Or.inl h
    · exact Or.inr ⟨'1', h, by decide⟩
    · exact Or.inl h
    · exact Or.inr ⟨'4', h, by decide⟩
  exact ⟨hk, decimal_point_once GoEnv.sample _ hk⟩

/-! ## pending bitwise operations -/

/-- C26 fails in the code: `SetBitwiseOperation` and `SetOperation` resolve a pending
operation with `Calculate`, whose `switch` knows the arithmetic tags only, so a pending
bitwise operation yields 0.  After 12, AND, 10 the state has `PendingOp = 100`,
`StoredValue = 12`, `CurrentValue = 10`, and `CalculateBitwise` would return 8; selecting
OR (or an arithmetic operator) leaves `StoredValue = CurrentValue = 0`. -/
theorem chained_bitwise_lost :
    (enterDigits ((enterDigits NewEngine "12").SetBitwiseOperation GoEnv.sample BitOpAnd)
      "10").PendingOp = 100 ∧
    (enterDigits ((enterDigits NewEngine "12").SetBitwiseOperation GoEnv.sample BitOpAnd)
      "10").NewInput = false ∧
    (enterDigits ((enterDigits NewEngine "12").SetBitwiseOperation GoEnv.sample BitOpAnd)
      "10").StoredValue = Float64.fin false (12 * Float64.one) ∧
    (enterDigits ((enterDigits NewEngine "12").SetBitwiseOperation GoEnv.sample BitOpAnd)
      "10").CurrentValue = Float64.fin false (10 * Float64.one) ∧
    ((enterDigits ((enterDigits NewEngine "12").SetBitwiseOperation GoEnv.sample BitOpAnd)
      "10").CalculateBitwise GoEnv.sample).2 = 8 ∧
    ((enterDigits ((enterDigits NewEngine "12").SetBitwiseOperation GoEnv.sample BitOpAnd)
      "10").SetBitwiseOperation GoEnv.sample BitOpOr).StoredValue = Float64.fin false 0 ∧
    ((enterDigits ((enterDigits NewEngine "12").SetBitwiseOperation GoEnv.sample BitOpAnd)
      "10").SetBitwiseOperation GoEnv.sample BitOpOr).CurrentValue = Float64.fin false 0 ∧
    ((enterDigits ((enterDigits NewEngine "12").SetBitwiseOperation GoEnv.sample BitOpAnd)
      "10").SetOperation GoEnv.sample OpAdd).StoredValue = Float64.fin false 0 := by
  decide!

theorem wrapUint64_lt (z : Int) : wrapUint64 z < 2 ^ 64 := by
  unfold wrapUint64
  omega

theorem wrapUint64_andInt64 (x y : Int) :
    wrapUint64 (andInt64 x y) = wrapUint64 x &&& wrapUint64 y := by
  unfold andInt64
  rw [wrapUint64_wrapInt64, wrapUint64_natCast]
  apply Nat.mod_eq_of_lt
  exact lt_of_le_of_lt Nat.and_le_left (wrapUint64_lt x)

theorem wrapUint64_orInt64 (x y : Int) :
    wrapUint64 (orInt64 x y) = wrapUint64 x ||| wrapUint64 y := by
  unfold orInt64
  rw [wrapUint64_wrapInt64, wrapUint64_natCast]
  apply Nat.mod_eq_of_lt
  exact Nat.or_lt_two_pow (wrapUint64_lt x) (wrapUint64_lt y)

theorem wrapUint64_xorInt64 (x y : Int) :
    wrapUint64 (xorInt64 x y) = wrapUint64 x ^^^ wrapUint64 y := by
  unfold xorInt64
  rw [wrapUint64_wrapInt64, wrapUint64_natCast]
  apply Nat.mod_eq_of_lt
  exact Nat.xor_lt_two_pow (wrapUint64_lt x) (wrapUint64_lt y)

theorem wrapUint64_notInt64 (x : Int) :
    wrapUint64 (notInt64 x) = 2 ^ 64 - 1 - wrapUint64 x := by
  unfold notInt64 wrapUint64
  omega


/-- Converting a whole number of fewer than 54 bits to `float64` and back is exact. -/
theorem toInt64_ofInt_small (rt : GoEnv) (r : Int) (h : r.natAbs < 2 ^ 53) :
    toInt64 rt (Float64.ofInt r) = r := by
  by_cases h0 : 0 ≤ r
  · exact toInt64_ofInt_nonneg rt r h0 (by omega)
  · obtain ⟨m, hm⟩ : ∃ m : Nat, r = -(m : Int) := ⟨r.natAbs, by omega⟩
    subst hm
    have hm2 : m < 2 ^ 53 := by omega
    have hm0 : m ≠ 0 := by omega
    rw [Float64.ofInt_neg_natCast hm2 hm0, toInt64_int rt true m (by omega)]
    simp [Float64.gridInt]

theorem CalculateBitwise_done (rt : GoEnv) (e : Engine) (k : Int) (hk : 0 ≤ k ∧ k ≤ 6)
    (hp : e.PendingOp = 100 + k) :
    e.CalculateBitwise rt =
      (fun r : Int => ({ e with CurrentValue := Float64.ofInt r, Display := e.FormatInBase r,
                                PendingOp := OpNone, NewInput := true }, r))
        (if k = 0 then andInt64 (toInt64 rt e.StoredValue) (toInt64 rt e.CurrentValue)
         else if k = 1 then orInt64 (toInt64 rt e.StoredValue) (toInt64 rt e.CurrentValue)
         else if k = 2 then xorInt64 (toInt64 rt e.StoredValue) (toInt64 rt e.CurrentValue)
         else if k = 3 then
           notInt64 (andInt64 (toInt64 rt e.StoredValue) (toInt64 rt e.CurrentValue))
         else if k = 4 then
           notInt64 (orInt64 (toInt64 rt e.StoredValue) (toInt64 rt e.CurrentValue))
         else if k = 5 then
           shlInt64 (toInt64 rt e.StoredValue) (wrapUint64 (toInt64 rt e.CurrentValue))
         else shrInt64 (toInt64 rt e.StoredValue) (wrapUint64 (toInt64 rt e.CurrentValue))) := by
  have hop : wrapInt64 (e.PendingOp - 100) = k := by
    rw [hp]; unfold wrapInt64; omega
  unfold Engine.CalculateBitwise
  simp only [hop, BitOpAnd, BitOpOr, BitOpXor, BitOpNand, BitOpNor, BitOpLeftShift,
    BitOpRightShift]
  have h6 : k = 0 ∨ k = 1 ∨ k = 2 ∨ k = 3 ∨ k = 4 ∨ k = 5 ∨ k = 6 := by omega
  rcases h6 with h | h | h | h | h | h | h <;> subst h <;> simp

theorem CalculateBitwise_other (rt : GoEnv) (e : Engine)
    (h1 : -(2 ^ 63) ≤ e.PendingOp) (h2 : e.PendingOp < 2 ^ 63)
    (h : e.PendingOp < 100 ∨ 106 < e.PendingOp) :
    e.CalculateBitwise rt = (e, toInt64 rt e.CurrentValue) := by
  have hne : ∀ j : Int, 0 ≤ j → j ≤ 6 → wrapInt64 (e.PendingOp - 100) ≠ j := by
    obtain ⟨P, hP⟩ : ∃ P : Int, e.PendingOp = P := ⟨_, rfl⟩
    rw [hP] at h1 h2 h ⊢
    have g1 : -(2 ^ 63) ≤ P := h1
    have g2 : P < 2 ^ 63 := h2
    have g3 : P < 100 ∨ 106 < P := h
    intro j hj1 hj2
    unfold wrapInt64
    omega
  unfold Engine.CalculateBitwise
  simp only [BitOpAnd, BitOpOr, BitOpXor, BitOpNand, BitOpNor, BitOpLeftShift,
    BitOpRightShift]
  rw [if_neg (hne 0 (by decide) (by decide)), if_neg (hne 1 (by decide) (by decide)),
    if_neg (hne 2 (by decide) (by decide)), if_neg (hne 3 (by decide) (by decide)),
    if_neg (hne 4 (by decide) (by decide)), if_neg (hne 5 (by decide) (by decide)),
    if_neg (hne 6 (by decide) (by decide))]


theorem notInt64_range (x : Int) (h1 : -(2 ^ 63) ≤ x) (h2 : x < 2 ^ 63) :
    -(2 ^ 63) ≤ notInt64 x ∧ notInt64 x < 2 ^ 63 := by
  unfold notInt64
  omega

theorem shlInt64_range (x : Int) (k : Nat) :
    -(2 ^ 63) ≤ shlInt64 x k ∧ shlInt64 x k < 2 ^ 63 := by
  unfold shlInt64
  split
  · omega
  · exact wrapInt64_bounds _

theorem shrInt64_range (x : Int) (k : Nat) (h1 : -(2 ^ 63) ≤ x) (h2 : x < 2 ^ 63) :
    -(2 ^ 63) ≤ shrInt64 x k ∧ shrInt64 x k < 2 ^ 63 := by
  rw [shrInt64_eq_div x k h1 h2]
  have hp : (0 : Int) < 2 ^ k := by positivity
  constructor
  · have h3 : -(2 ^ 63) * 2 ^ k ≤ x := by
      have : (1 : Int) ≤ 2 ^ k := by omega
      nlinarith
    have := Int.le_ediv_of_mul_le hp h3
    exact this
  · by_cases h0 : 0 ≤ x
    · exact lt_of_le_of_lt (Int.ediv_le_self _ h0) h2
    · have : x / 2 ^ k < 0 := Int.ediv_neg' (by omega) hp
      omega

theorem bitwise_result_range (a b k : Int) (h1 : -(2 ^ 63) ≤ a) (h2 : a < 2 ^ 63) :
    -(2 ^ 63) ≤ (if k = 0 then andInt64 a b
      else if k = 1 then orInt64 a b
      else if k = 2 then xorInt64 a b
      else if k = 3 then notInt64 (andInt64 a b)
      else if k = 4 then notInt64 (orInt64 a b)
      else if k = 5 then shlInt64 a (wrapUint64 b)
      else shrInt64 a (wrapUint64 b)) ∧
    (if k = 0 then andInt64 a b
      else if k = 1 then orInt64 a b
      else if k = 2 then xorInt64 a b
      else if k = 3 then notInt64 (andInt64 a b)
      else if k = 4 then notInt64 (orInt64 a b)
      else if k = 5 then shlInt64 a (wrapUint64 b)
      else shrInt64 a (wrapUint64 b)) < 2 ^ 63 := by
  have hand : -(2 ^ 63) ≤ andInt64 a b ∧ andInt64 a b < 2 ^ 63 := wrapInt64_bounds _
  have hor : -(2 ^ 63) ≤ orInt64 a b ∧ orInt64 a b < 2 ^ 63 := wrapInt64_bounds _
  have hxor : -(2 ^ 63) ≤ xorInt64 a b ∧ xorInt64 a b < 2 ^ 63 := wrapInt64_bounds _
  have hnand := notInt64_range _ hand.1 hand.2
  have hnor := notInt64_range _ hor.1 hor.2
  have hshl := shlInt64_range a (wrapUint64 b)
  have hshr := shrInt64_range a (wrapUint64 b) h1 h2
  constructor
  · split_ifs
    · exact hand.1
    · exact hor.1
    · exact hxor.1
    · exact hnand.1
    · exact hnor.1
    · exact hshl.1
    · exact hshr.1
  · split_ifs
    · exact hand.2
    · exact hor.2
    · exact hxor.2
    · exact hnand.2
    · exact hnor.2
    · exact hshl.2
    · exact hshr.2

/-- C25, as stated, fails: the result is stored as a `float64`.  With `StoredValue = 2^53`,
`CurrentValue = 1` and OR pending, `CalculateBitwise` returns `2^53 + 1` and shows it, but
`CurrentValue` becomes `2^53`. -/
theorem CalculateBitwise_counterexample :
    (enterDigits ((enterDigits NewEngine "9007199254740992").SetBitwiseOperation
      GoEnv.sample BitOpOr) "1").PendingOp = 101 ∧
    ((enterDigits ((enterDigits NewEngine "9007199254740992").SetBitwiseOperation
      GoEnv.sample BitOpOr) "1").CalculateBitwise GoEnv.sample).2 = 9007199254740993 ∧
    ((enterDigits ((enterDigits NewEngine "9007199254740992").SetBitwiseOperation
      GoEnv.sample BitOpOr) "1").CalculateBitwise GoEnv.sample).1.Display =
      "9007199254740993" ∧
    ((enterDigits ((enterDigits NewEngine "9007199254740992").SetBitwiseOperation
      GoEnv.sample BitOpOr) "1").CalculateBitwise GoEnv.sample).1.CurrentValue =
      Float64.fin false (9007199254740992 * Float64.one) ∧
    toInt64 GoEnv.sample
      ((enterDigits ((enterDigits NewEngine "9007199254740992").SetBitwiseOperation
        GoEnv.sample BitOpOr) "1").CalculateBitwise GoEnv.sample).1.CurrentValue =
      9007199254740992 := by
  decide!

/-- C25, amended: with `a` and `b` the `int64` conversions of `StoredValue` and
`CurrentValue` and `PendingOp = 100 + k`, `k` from 0 to 6, `CalculateBitwise()` returns the
`int64` `r` that is `a & b`, `a | b`, `a ^ b`, `^(a & b)`, `^(a | b)`, `a << uint(b)` or
`a >> uint(b)` (arithmetic), sets `CurrentValue` to `float64(r)` (which is `r` itself when
`|r| < 2^53`), `Display` to the numeral of `r` in the active base, `PendingOp` to `OpNone`
and `NewInput` to true.  The operators work on the 64-bit two's-complement patterns.  For
any other `PendingOp` it returns `b` and changes nothing. -/
theorem CalculateBitwise_spec (rt : GoEnv) (e : Engine) :
    (∀ k : Int, 0 ≤ k → k ≤ 6 → e.PendingOp = 100 + k →
      ∃ r : Int,
        r = (if k = 0 then andInt64 (toInt64 rt e.StoredValue) (toInt64 rt e.CurrentValue)
          else if k = 1 then orInt64 (toInt64 rt e.StoredValue) (toInt64 rt e.CurrentValue)
          else if k = 2 then xorInt64 (toInt64 rt e.StoredValue) (toInt64 rt e.CurrentValue)
          else if k = 3 then
            notInt64 (andInt64 (toInt64 rt e.StoredValue) (toInt64 rt e.CurrentValue))
          else if k = 4 then
            notInt64 (orInt64 (toInt64 rt e.StoredValue) (toInt64 rt e.CurrentValue))
          else if k = 5 then
            shlInt64 (toInt64 rt e.StoredValue) (wrapUint64 (toInt64 rt e.CurrentValue))
          else
            shrInt64 (toInt64 rt e.StoredValue) (wrapUint64 (toInt64 rt e.CurrentValue))) ∧
        e.CalculateBitwise rt =
          ({ e with CurrentValue := Float64.ofInt r, Display := e.FormatInBase r,
                    PendingOp := OpNone, NewInput := true }, r) ∧
        -(2 ^ 63) ≤ r ∧ r < 2 ^ 63 ∧
        (r.natAbs < 2 ^ 53 → toInt64 rt (Float64.ofInt r) = r)) ∧
    (∀ x y : Int,
      wrapUint64 (andInt64 x y) = wrapUint64 x &&& wrapUint64 y ∧
      wrapUint64 (orInt64 x y) = wrapUint64 x ||| wrapUint64 y ∧
      wrapUint64 (xorInt64 x y) = wrapUint64 x ^^^ wrapUint64 y ∧
      wrapUint64 (notInt64 x) = 2 ^ 64 - 1 - wrapUint64 x ∧
      (∀ n : Nat, wrapUint64 (shlInt64 x n) = (wrapUint64 x * 2 ^ n) % 2 ^ 64) ∧
      (∀ n : Nat, -(2 ^ 63) ≤ x → x < 2 ^ 63 → shrInt64 x n = x / 2 ^ n)) ∧
    (-(2 ^ 63) ≤ e.PendingOp → e.PendingOp < 2 ^ 63 →
      (e.PendingOp < 100 ∨ 106 < e.PendingOp) →
      e.CalculateBitwise rt = (e, toInt64 rt e.CurrentValue)) := by
  refine ⟨?_, ?_, CalculateBitwise_other rt e⟩
  · intro k hk0 hk6 hp
    have ha := toInt64_range rt e.StoredValue
    have hrange := bitwise_result_range (toInt64 rt e.StoredValue)
      (toInt64 rt e.CurrentValue) k ha.1 ha.2
    exact ⟨_, rfl, CalculateBitwise_done rt e k ⟨hk0, hk6⟩ hp, hrange.1, hrange.2,
      toInt64_ofInt_small rt _⟩
  · intro x y
    exact ⟨wrapUint64_andInt64 x y, wrapUint64_orInt64 x y, wrapUint64_xorInt64 x y,
      wrapUint64_notInt64 x, fun n => shlInt64_pattern x n,
      fun n h1 h2 => shrInt64_eq_div x n h1 h2⟩

theorem CalculateBitwise_spec_witness :
    ((enterDigits ((enterDigits NewEngine "12").SetBitwiseOperation GoEnv.sample BitOpXor)
      "10").CalculateBitwise GoEnv.sample).2 = 6 ∧
    ((enterDigits ((enterDigits NewEngine "12").SetBitwiseOperation GoEnv.sample BitOpXor)
      "10").CalculateBitwise GoEnv.sample).1.CurrentValue = Float64.ofInt 6 := by
  obtain ⟨r, hr, hc, _, _, _⟩ :=
    (CalculateBitwise_spec GoEnv.sample
      (enterDigits ((enterDigits NewEngine "12").SetBitwiseOperation GoEnv.sample BitOpXor)
        "10")).1 2 (by decide) (by decide) (by decide!)
  have h6 : r = 6 := by
    rw [hr]; decide!
  subst h6
  rw [hc]
  exact ⟨rfl, rfl⟩

/-! ## single bits -/

theorem andInt64_one (x : Int) : andInt64 x 1 = x % 2 := by
  unfold andInt64
  have h1 : wrapUint64 1 = 1 := by decide
  rw [h1, Nat.and_one_is_mod]
  unfold wrapUint64 wrapInt64
  omega

/-- Bit `q` of an integer (floor division) is bit `q` of its 64-bit pattern. -/
theorem bit_of_pattern (z : Int) (q : Nat) (hq : q < 64) :
    (z / 2 ^ q) % 2 = if (wrapUint64 z).testBit q = true then 1 else 0 := by
  have hu : ((wrapUint64 z : Nat) : Int) = z % 2 ^ 64 := by
    unfold wrapUint64
    omega
  have hz : z = (wrapUint64 z : Int) + (z / 2 ^ 64 * 2 ^ (64 - q)) * 2 ^ q := by
    rw [hu, mul_assoc, ← pow_add]
    have e : 64 - q + q = 64 := by omega
    rw [e]
    have := Int.emod_add_ediv z (2 ^ 64)
    linarith
  have hpos : (2 : Int) ^ q ≠ 0 := by positivity
  have hdiv : z / 2 ^ q = (wrapUint64 z : Int) / 2 ^ q + z / 2 ^ 64 * 2 ^ (64 - q) := by
    conv_lhs => rw [hz]
    exact Int.add_mul_ediv_right _ _ hpos
  have heven : (2 : Int) ∣ z / 2 ^ 64 * 2 ^ (64 - q) := by
    apply Dvd.dvd.mul_left
    exact dvd_pow_self 2 (by omega)
  rw [hdiv, Int.add_emod, Int.emod_eq_zero_of_dvd heven, add_zero, Int.emod_emod]
  have hcast : ((wrapUint64 z : Nat) : Int) / 2 ^ q % 2 =
      ((wrapUint64 z / 2 ^ q % 2 : Nat) : Int) := by
    push_cast
    rfl
  rw [hcast, Nat.testBit_to_div_mod]
  have h2 : wrapUint64 z / 2 ^ q % 2 < 2 := Nat.mod_lt _ (by decide)
  by_cases h : wrapUint64 z / 2 ^ q % 2 = 1
  · simp [h]
  · have h0 : wrapUint64 z / 2 ^ q % 2 = 0 := by omega
    simp [h0]

theorem GetBit_eq (rt : GoEnv) (e : Engine) (q : Nat) (hq : q < 64) :
    e.GetBit rt q =
      if (wrapUint64 (toInt64 rt e.CurrentValue)).testBit q = true then 1 else 0 := by
  have hr := toInt64_range rt e.CurrentValue
  unfold Engine.GetBit
  rw [andInt64_one, shrInt64_eq_div _ _ hr.1 hr.2, bit_of_pattern _ _ hq]

theorem wrapUint64_one_shl (p : Nat) (hp : p < 64) : wrapUint64 (shlInt64 1 p) = 2 ^ p := by
  rw [shlInt64_pattern]
  have h1 : wrapUint64 1 = 1 := by decide
  rw [h1, Nat.one_mul]
  apply Nat.mod_eq_of_lt
  exact Nat.pow_lt_pow_right (by decide) hp

theorem testBit_complement (x q : Nat) (hx : x < 2 ^ 64) (hq : q < 64) :
    (2 ^ 64 - 1 - x).testBit q = !x.testBit q := by
  have e : 2 ^ 64 - 1 - x = 2 ^ 64 - (x + 1) := by omega
  rw [e, Nat.testBit_two_pow_sub_succ hx]
  simp [hq]


theorem SetBit_GetBit (rt : GoEnv) (e : Engine) (p q : Nat) (hp : p < 64) (hq : q < 64)
    (hex : toInt64 rt (Float64.ofInt (orInt64 (toInt64 rt e.CurrentValue) (shlInt64 1 p))) =
      orInt64 (toInt64 rt e.CurrentValue) (shlInt64 1 p)) :
    (e.SetBit rt p).GetBit rt q = if q = p then 1 else e.GetBit rt q := by
  rw [GetBit_eq _ _ q hq, GetBit_eq _ _ q hq]
  have hcv : (e.SetBit rt p).CurrentValue =
      Float64.ofInt (orInt64 (toInt64 rt e.CurrentValue) (shlInt64 1 p)) := by
    simp only [Engine.SetBit, Engine.putInt64]
  rw [hcv, hex, wrapUint64_orInt64, wrapUint64_one_shl p hp, Nat.testBit_or,
    Nat.testBit_two_pow]
  by_cases h : q = p
  · subst h; simp
  · have h2 : ¬ p = q := fun h3 => h h3.symm
    simp [h, h2]

theorem ClearBit_GetBit (rt : GoEnv) (e : Engine) (p q : Nat) (hp : p < 64) (hq : q < 64)
    (hex : toInt64 rt (Float64.ofInt
        (andInt64 (toInt64 rt e.CurrentValue) (notInt64 (shlInt64 1 p)))) =
      andInt64 (toInt64 rt e.CurrentValue) (notInt64 (shlInt64 1 p))) :
    (e.ClearBit rt p).GetBit rt q = if q = p then 0 else e.GetBit rt q := by
  rw [GetBit_eq _ _ q hq, GetBit_eq _ _ q hq]
  have hcv : (e.ClearBit rt p).CurrentValue =
      Float64.ofInt (andInt64 (toInt64 rt e.CurrentValue) (notInt64 (shlInt64 1 p))) := by
    simp only [Engine.ClearBit, Engine.putInt64]
  have hlt : (2 : Nat) ^ p < 2 ^ 64 := Nat.pow_lt_pow_right (by decide) hp
  rw [hcv, hex, wrapUint64_andInt64, wrapUint64_notInt64, wrapUint64_one_shl p hp,
    Nat.testBit_and, testBit_complement _ _ hlt hq, Nat.testBit_two_pow]
  by_cases h : q = p
  · subst h; simp
  · have h2 : ¬ p = q := fun h3 => h h3.symm
    simp [h, h2]

theorem ToggleBit_GetBit (rt : GoEnv) (e : Engine) (p q : Nat) (hp : p < 64) (hq : q < 64)
    (hex : toInt64 rt (Float64.ofInt (xorInt64 (toInt64 rt e.CurrentValue) (shlInt64 1 p))) =
      xorInt64 (toInt64 rt e.CurrentValue) (shlInt64 1 p)) :
    (e.ToggleBit rt p).GetBit rt q = if q = p then 1 - e.GetBit rt p else e.GetBit rt q := by
  rw [GetBit_eq _ _ q hq, GetBit_eq _ _ q hq, GetBit_eq _ _ p hp]
  have hcv : (e.ToggleBit rt p).CurrentValue =
      Float64.ofInt (xorInt64 (toInt64 rt e.CurrentValue) (shlInt64 1 p)) := by
    simp only [Engine.ToggleBit, Engine.putInt64]
  rw [hcv, hex, wrapUint64_xorInt64, wrapUint64_one_shl p hp, Nat.testBit_xor,
    Nat.testBit_two_pow]
  by_cases h : q = p
  · subst h
    cases (wrapUint64 (toInt64 rt e.CurrentValue)).testBit q <;> simp
  · have h2 : ¬ p = q := fun h3 => h h3.symm
    simp [h, h2]

/-- C28, as stated, fails: the result is stored as a `float64`.  From the value `2^53`,
`SetBit(0)` computes `2^53 + 1`, stores `2^53`, and `GetBit(0)` is 0.  From `2^53 + 2`,
`ToggleBit(0)` computes `2^53 + 3`, stores `2^53 + 4`: bit 0 is still 0 and bits 1 and 2
have changed. -/
theorem bit_ops_counterexample :
    toInt64 GoEnv.sample (enterDigits NewEngine "9007199254740992").CurrentValue =
      9007199254740992 ∧
    ((enterDigits NewEngine "9007199254740992").SetBit GoEnv.sample 0).GetBit GoEnv.sample 0
      = 0 ∧
    toInt64 GoEnv.sample (enterDigits NewEngine "9007199254740994").CurrentValue =
      9007199254740994 ∧
    (enterDigits NewEngine "9007199254740994").GetBit GoEnv.sample 0 = 0 ∧
    (enterDigits NewEngine "9007199254740994").GetBit GoEnv.sample 1 = 1 ∧
    (enterDigits NewEngine "9007199254740994").GetBit GoEnv.sample 2 = 0 ∧
    ((enterDigits NewEngine "9007199254740994").ToggleBit GoEnv.sample 0).GetBit
      GoEnv.sample 0 = 0 ∧
    ((enterDigits NewEngine "9007199254740994").ToggleBit GoEnv.sample 0).GetBit
      GoEnv.sample 1 = 0 ∧
    ((enterDigits NewEngine "9007199254740994").ToggleBit GoEnv.sample 0).GetBit
      GoEnv.sample 2 = 1 := by
  decide!

/-- C28, amended: let `v` be the `int64` conversion of `CurrentValue` and `p`, `q` bit
positions below 64.  Whenever the integer a call computes (`v | 1<<p`, `v &^ 1<<p`,
`v ^ 1<<p`) is held exactly by the `float64` it is stored in, which is so whenever its
magnitude is below `2^53`, then after `SetBit(p)` `GetBit(p)` is 1, after `ClearBit(p)` it
is 0, after `ToggleBit(p)` it is 1 minus its value before, and `GetBit(q)` is unchanged
for every `q` other than `p`. -/
theorem bit_ops_spec (rt : GoEnv) (e : Engine) (p q : Nat) (hp : p < 64) (hq : q < 64) :
    (toInt64 rt (Float64.ofInt (orInt64 (toInt64 rt e.CurrentValue) (shlInt64 1 p))) =
        orInt64 (toInt64 rt e.CurrentValue) (shlInt64 1 p) →
      (e.SetBit rt p).GetBit rt q = if q = p then 1 else e.GetBit rt q) ∧
    (toInt64 rt (Float64.ofInt
          (andInt64 (toInt64 rt e.CurrentValue) (notInt64 (shlInt64 1 p)))) =
        andInt64 (toInt64 rt e.CurrentValue) (notInt64 (shlInt64 1 p)) →
      (e.ClearBit rt p).GetBit rt q = if q = p then 0 else e.GetBit rt q) ∧
    (toInt64 rt (Float64.ofInt (xorInt64 (toInt64 rt e.CurrentValue) (shlInt64 1 p))) =
        xorInt64 (toInt64 rt e.CurrentValue) (shlInt64 1 p) →
      (e.ToggleBit rt p).GetBit rt q =
        if q = p then 1 - e.GetBit rt p else e.GetBit rt q) ∧
    (∀ r : Int, r.natAbs < 2 ^ 53 → toInt64 rt (Float64.ofInt r) = r) ∧
    (e.GetBit rt q = 0 ∨ e.GetBit rt q = 1) :=
  ⟨SetBit_GetBit rt e p q hp hq, ClearBit_GetBit rt e p q hp hq,
    ToggleBit_GetBit rt e p q hp hq, toInt64_ofInt_small rt, by
      rw [GetBit_eq rt e q hq]
      split
      · exact Or.inr rfl
      · exact Or.inl rfl⟩

theorem bit_ops_spec_witness :
    (3 : Nat) < 64 ∧ (0 : Nat) < 64 ∧
    ((enterDigits NewEngine "5").SetBit GoEnv.sample 3).GetBit GoEnv.sample 3 = 1 ∧
    ((enterDigits NewEngine "5").SetBit GoEnv.sample 3).GetBit GoEnv.sample 0 =
      (enterDigits NewEngine "5").GetBit GoEnv.sample 0 ∧
    ((enterDigits NewEngine "5").ToggleBit GoEnv.sample 0).GetBit GoEnv.sample 0 =
      1 - (enterDigits NewEngine "5").GetBit GoEnv.sample 0 := by
  have h33 := (bit_ops_spec GoEnv.sample (enterDigits NewEngine "5") 3 3
    (by decide) (by decide)).1 (by decide!)
  have h30 := (bit_ops_spec GoEnv.sample (enterDigits NewEngine "5") 3 0
    (by decide) (by decide)).1 (by decide!)
  have h00 := (bit_ops_spec GoEnv.sample (enterDigits NewEngine "5") 0 0
    (by decide) (by decide)).2.2.1 (by decide!)
  rw [if_pos rfl] at h33 h00
  rw [if_neg (by decide)] at h30
  exact ⟨by decide, by decide, h33, h30, h00⟩

/-! ## byte swap -/

theorem testBit_byteMask (k t : Nat) :
    (255 * 2 ^ (8 * k)).testBit t = decide (8 * k ≤ t ∧ t < 8 * k + 8) := by
  have e : 255 * 2 ^ (8 * k) = (2 ^ 8 - 1) <<< (8 * k) := by
    rw [Nat.shiftLeft_eq]
    rfl
  rw [e, Nat.testBit_shiftLeft, Nat.testBit_two_pow_sub_one]
  by_cases h : 8 * k ≤ t
  · by_cases h2 : t < 8 * k + 8
    · have : t - 8 * k < 8 := by omega
      simp [h, h2, this]
    · have : ¬ t - 8 * k < 8 := by omega
      simp [h, h2, this]
  · simp [h]

theorem testBit_and_byte (v k t : Nat) :
    (v &&& (255 * 2 ^ (8 * k))).testBit t = (decide (8 * k ≤ t ∧ t < 8 * k + 8) && v.testBit t) := by
  rw [Nat.testBit_and, testBit_byteMask, Bool.and_comm]

theorem swap16_testBit (v j : Nat) :
    (shl64 (v &&& 0xFF) 8 ||| shr64 (v &&& 0xFF00) 8).testBit j =
      (decide (j < 16) && v.testBit (8 * (1 - j / 8) + j % 8)) := by
  have m0 : (0xFF : Nat) = 255 * 2 ^ (8 * 0) := by decide
  have m1 : (0xFF00 : Nat) = 255 * 2 ^ (8 * 1) := by decide
  rw [m0, m1]
  simp only [Nat.testBit_or, testBit_shl64, testBit_shr64, testBit_and_byte]
  by_cases hj : j < 16
  · interval_cases j <;> simp
  · have h1 : ¬ (8 + j < 16) := by omega
    have h2 : ¬ (j - 8 < 8) := by omega
    simp [hj, h1, h2]


theorem swap32_testBit (v j : Nat) :
    (shl64 (v &&& 0xFF) 24 ||| shl64 (v &&& 0xFF00) 8 |||
      shr64 (v &&& 0xFF0000) 8 ||| shr64 (v &&& 0xFF000000) 24).testBit j =
      (decide (j < 32) && v.testBit (8 * (3 - j / 8) + j % 8)) := by
  have m0 : (0xFF : Nat) = 255 * 2 ^ (8 * 0) := by decide
  have m1 : (0xFF00 : Nat) = 255 * 2 ^ (8 * 1) := by decide
  have m2 : (0xFF0000 : Nat) = 255 * 2 ^ (8 * 2) := by decide
  have m3 : (0xFF000000 : Nat) = 255 * 2 ^ (8 * 3) := by decide
  rw [m0, m1, m2, m3]
  simp only [Nat.testBit_or, testBit_shl64, testBit_shr64, testBit_and_byte]
  by_cases hj : j < 32
  · interval_cases j <;> simp
  · have h1 : ¬ (j - 24 < 8) := by omega
    have h2 : ¬ (j - 8 < 16) := by omega
    have h3 : ¬ (8 + j < 24) := by omega
    have h4 : ¬ (24 + j < 32) := by omega
    simp [hj, h1, h2, h3, h4]

theorem swap64_testBit (v j : Nat) :
    (shl64 (v &&& 0xFF) 56 ||| shl64 (v &&& 0xFF00) 40 |||
      shl64 (v &&& 0xFF0000) 24 ||| shl64 (v &&& 0xFF000000) 8 |||
      shr64 (v &&& 0xFF00000000) 8 ||| shr64 (v &&& 0xFF0000000000) 24 |||
      shr64 (v &&& 0xFF000000000000) 40 ||| shr64 (v &&& 0xFF00000000000000) 56).testBit j =
      (decide (j < 64) && v.testBit (8 * (7 - j / 8) + j % 8)) := by
  have m0 : (0xFF : Nat) = 255 * 2 ^ (8 * 0) := by decide
  have m1 : (0xFF00 : Nat) = 255 * 2 ^ (8 * 1) := by decide
  have m2 : (0xFF0000 : Nat) = 255 * 2 ^ (8 * 2) := by decide
  have m3 : (0xFF000000 : Nat) = 255 * 2 ^ (8 * 3) := by decide
  have m4 : (0xFF00000000 : Nat) = 255 * 2 ^ (8 * 4) := by decide
  have m5 : (0xFF0000000000 : Nat) = 255 * 2 ^ (8 * 5) := by decide
  have m6 : (0xFF000000000000 : Nat) = 255 * 2 ^ (8 * 6) := by decide
  have m7 : (0xFF00000000000000 : Nat) = 255 * 2 ^ (8 * 7) := by decide
  rw [m0, m1, m2, m3, m4, m5, m6, m7]
  simp only [Nat.testBit_or, testBit_shl64, testBit_shr64, testBit_and_byte]
  by_cases hj : j < 64
  · interval_cases j <;> simp
  · have h1 : ¬ (8 + j < 40) := by omega
    have h2 : ¬ (24 + j < 48) := by omega
    have h3 : ¬ (40 + j < 56) := by omega
    have h4 : ¬ (56 + j < 64) := by omega
    simp [hj, h1, h2, h3, h4]


theorem byteOf_testBit (x i t : Nat) :
    (byteOf x i).testBit t = (decide (t < 8) && x.testBit (8 * i + t)) := by
  unfold byteOf
  have e : (256 : Nat) = 2 ^ 8 := by decide
  rw [e, Nat.testBit_mod_two_pow, ← Nat.shiftRight_eq_div_pow, Nat.testBit_shiftRight]

/-- A value whose bit `j` is bit `8 * (n - 1 - j / 8) + j % 8` of `v` for `j < 8 * n`, and 0
above, is below `2^(8n)` and has the `n` low bytes of `v` in reverse order. -/
theorem bytes_of_bits (r v n : Nat)
    (h : ∀ j, r.testBit j = (decide (j < 8 * n) && v.testBit (8 * (n - 1 - j / 8) + j % 8))) :
    r < 2 ^ (8 * n) ∧ ∀ i, i < n → byteOf r i = byteOf v (n - 1 - i) := by
  constructor
  · apply Nat.lt_pow_two_of_testBit
    intro j hj
    rw [h j]
    have : ¬ j < 8 * n := by omega
    simp [this]
  · intro i hi
    apply Nat.eq_of_testBit_eq
    intro t
    rw [byteOf_testBit, byteOf_testBit, h]
    by_cases ht : t < 8
    · have h1 : 8 * i + t < 8 * n := by omega
      have h2 : (8 * i + t) / 8 = i := by omega
      have h3 : (8 * i + t) % 8 = t := by omega
      simp [ht, h1, h2, h3]
    · simp [ht]


theorem wrapInt64_small (r : Nat) (h : r < 2 ^ 63) : wrapInt64 (r : Int) = (r : Int) := by
  unfold wrapInt64
  omega

/-- C27, as stated, fails at width 64.  From the value 128 the swapped result is `2^63`
and `Display` shows it as the signed number -9223372036854775808.  From `2^48 + 128` the
swapped result is `2^63 + 256`, while `CurrentValue` becomes the `float64` `2^63`. -/
theorem ByteSwap_counterexample :
    toUint64 GoEnv.sample (enterDigits NewEngine "128").CurrentValue = 128 ∧
    ((enterDigits NewEngine "128").ByteSwap GoEnv.sample Bits64).CurrentValue =
      Float64.fin false (2 ^ 63 * Float64.one) ∧
    ((enterDigits NewEngine "128").ByteSwap GoEnv.sample Bits64).Display =
      "-9223372036854775808" ∧
    toUint64 GoEnv.sample (enterDigits NewEngine "281474976710784").CurrentValue =
      2 ^ 48 + 128 ∧
    byteOf (2 ^ 63 + 256) 1 = byteOf (2 ^ 48 + 128) 6 ∧
    byteOf (2 ^ 63 + 256) 7 = byteOf (2 ^ 48 + 128) 0 ∧
    ((enterDigits NewEngine "281474976710784").ByteSwap GoEnv.sample Bits64).CurrentValue =
      Float64.fin false (2 ^ 63 * Float64.one) := by
  decide!

/-- C27, amended: with `v` the unsigned conversion of `CurrentValue`, `ByteSwap` computes
an unsigned `r`: for width 16, 32 or 64 the bytes of `r` below the width are those of
`v` in reverse order and `r` has no bit at or above the width; for width 8, `r = v`.
`CurrentValue` becomes `float64(r)`, which is `r` for the widths 16 and 32 and whenever
`r < 2^53`; `Display` becomes the numeral, in the active base, of `r` read as a signed
64-bit integer, which is `r` whenever `r < 2^63`; `NewInput` becomes true. -/
theorem ByteSwap_spec (rt : GoEnv) (e : Engine) :
    (∃ r : Nat,
      e.ByteSwap rt Bits16 = { e with CurrentValue := Float64.fin false (r * Float64.one),
                                      Display := e.FormatInBase (r : Int),
                                      NewInput := true } ∧
      r < 2 ^ 16 ∧ ∀ i, i < 2 → byteOf r i = byteOf (toUint64 rt e.CurrentValue) (1 - i)) ∧
    (∃ r : Nat,
      e.ByteSwap rt Bits32 = { e with CurrentValue := Float64.fin false (r * Float64.one),
                                      Display := e.FormatInBase (r : Int),
                                      NewInput := true } ∧
      r < 2 ^ 32 ∧ ∀ i, i < 4 → byteOf r i = byteOf (toUint64 rt e.CurrentValue) (3 - i)) ∧
    (∃ r : Nat,
      e.ByteSwap rt Bits64 = { e with CurrentValue := Float64.ofInt (r : Int),
                                      Display := e.FormatInBase (wrapInt64 (r : Int)),
                                      NewInput := true } ∧
      r < 2 ^ 64 ∧
      (∀ i, i < 8 → byteOf r i = byteOf (toUint64 rt e.CurrentValue) (7 - i)) ∧
      (r < 2 ^ 53 → Float64.ofInt (r : Int) = Float64.fin false (r * Float64.one)) ∧
      (r < 2 ^ 63 → wrapInt64 (r : Int) = (r : Int))) ∧
    e.ByteSwap rt Bits8 =
      { e with CurrentValue := Float64.ofInt (toUint64 rt e.CurrentValue : Int),
               Display := e.FormatInBase (wrapInt64 (toUint64 rt e.CurrentValue : Int)),
               NewInput := true } ∧
    (∀ m : Nat, m < 2 ^ 64 → Float64.Exact (m * Float64.one) →
      e.CurrentValue = Float64.fin false (m * Float64.one) →
      (e.ByteSwap rt Bits8).CurrentValue = e.CurrentValue) := by
  have n81 : (Bits8 = Bits16) = False := eq_false (by decide)
  have n82 : (Bits8 = Bits32) = False := eq_false (by decide)
  have n83 : (Bits8 = Bits64) = False := eq_false (by decide)
  have n1 : (Bits32 = Bits16) = False := eq_false (by decide)
  have n2 : (Bits64 = Bits16) = False := eq_false (by decide)
  have n3 : (Bits64 = Bits32) = False := eq_false (by decide)
  have h8 : e.ByteSwap rt Bits8 =
      { e with CurrentValue := Float64.ofInt (toUint64 rt e.CurrentValue : Int),
               Display := e.FormatInBase (wrapInt64 (toUint64 rt e.CurrentValue : Int)),
               NewInput := true } := by
    simp only [Engine.ByteSwap, n81, n82, n83, if_false, Engine.putUint64]
  refine ⟨?_, ?_, ?_, h8, ?_⟩
  · obtain ⟨h1, h2⟩ := bytes_of_bits _ (toUint64 rt e.CurrentValue) 2
      (swap16_testBit (toUint64 rt e.CurrentValue))
    refine ⟨_, ?_, h1, h2⟩
    simp only [Engine.ByteSwap, if_true, Engine.putUint64]
    rw [wrapInt64_small _ (lt_trans h1 (by decide)),
      Float64.ofInt_natCast (lt_trans h1 (by decide))]
  · obtain ⟨h1, h2⟩ := bytes_of_bits _ (toUint64 rt e.CurrentValue) 4
      (swap32_testBit (toUint64 rt e.CurrentValue))
    refine ⟨_, ?_, h1, h2⟩
    simp only [Engine.ByteSwap, n1, if_false, if_true, Engine.putUint64]
    rw [wrapInt64_small _ (lt_trans h1 (by decide)),
      Float64.ofInt_natCast (lt_trans h1 (by decide))]
  · obtain ⟨h1, h2⟩ := bytes_of_bits _ (toUint64 rt e.CurrentValue) 8
      (swap64_testBit (toUint64 rt e.CurrentValue))
    refine ⟨_, ?_, h1, h2, fun h => Float64.ofInt_natCast h, fun h => wrapInt64_small _ h⟩
    simp only [Engine.ByteSwap, n2, n3, if_false, if_true, Engine.putUint64]
  · intro m hm hx hcv
    rw [h8]
    show Float64.ofInt (toUint64 rt e.CurrentValue : Int) = e.CurrentValue
    rw [hcv, toUint64_int rt m hm, Float64.ofInt_exact hx]

theorem ByteSwap_spec_witness :
    ((enterDigits NewEngine "258").ByteSwap GoEnv.sample Bits16).CurrentValue =
      Float64.fin false (513 * Float64.one) := by
  obtain ⟨r, hr, hlt, hb⟩ := (ByteSwap_spec GoEnv.sample (enterDigits NewEngine "258")).1
  have hv : toUint64 GoEnv.sample (enterDigits NewEngine "258").CurrentValue = 258 := by
    decide!
  have b0 := hb 0 (by decide)
  have b1 := hb 1 (by decide)
  rw [hv] at b0 b1
  have e0 : byteOf 258 (1 - 0) = 1 := by decide
  have e1 : byteOf 258 (1 - 1) = 2 := by decide
  rw [e0] at b0
  rw [e1] at b1
  unfold byteOf at b0 b1
  have hr513 : r = 513 := by
    norm_num at b0 b1 hlt
    omega
  rw [hr, hr513]

/-! ## age -/

theorem Before_eq_After (t u : Time) : t.Before u = u.After t := by
  unfold Time.Before Time.After
  cases t.mono <;> cases u.mono <;> rfl

/-- C23: for a birth date `b` that is not after `now`, `GetAge(b)`, evaluated when
`time.Now()` is `now`, returns the years, months and days that `CalculateDifference`
returns with `StartDate = b` and `EndDate = now`. -/
theorem GetAge_eq_CalculateDifference (rt : GoEnv) (now b : Time) (d : DateTimeCalc)
    (r : String) (h : b.After now = false) :
    d.GetAge now b =
      (((DateTimeCalc.mk b now r).CalculateDifference rt).Years,
       ((DateTimeCalc.mk b now r).CalculateDifference rt).Months,
       ((DateTimeCalc.mk b now r).CalculateDifference rt).Days) := by
  have hs : now.Before b = false := by rw [Before_eq_After]; exact h
  simp only [DateTimeCalc.GetAge, DateTimeCalc.CalculateDifference, hs, Bool.false_eq_true,
    if_false]

theorem GetAge_eq_CalculateDifference_witness :
    (Date 2009 8 30 0 0 0 0 UTC).After (Date 2024 12 15 10 30 0 0 UTC) = false ∧
    (DateTimeCalc.mk (Date 2024 1 1 0 0 0 0 UTC) (Date 2024 1 1 0 0 0 0 UTC) "").GetAge
        (Date 2024 12 15 10 30 0 0 UTC) (Date 2009 8 30 0 0 0 0 UTC) =
      (((DateTimeCalc.mk (Date 2009 8 30 0 0 0 0 UTC) (Date 2024 12 15 10 30 0 0 UTC)
          "").CalculateDifference GoEnv.sample).Years,
       ((DateTimeCalc.mk (Date 2009 8 30 0 0 0 0 UTC) (Date 2024 12 15 10 30 0 0 UTC)
          "").CalculateDifference GoEnv.sample).Months,
       ((DateTimeCalc.mk (Date 2009 8 30 0 0 0 0 UTC) (Date 2024 12 15 10 30 0 0 UTC)
          "").CalculateDifference GoEnv.sample).Days) ∧
    (DateTimeCalc.mk (Date 2024 1 1 0 0 0 0 UTC) (Date 2024 1 1 0 0 0 0 UTC) "").GetAge
        (Date 2024 12 15 10 30 0 0 UTC) (Date 2009 8 30 0 0 0 0 UTC) = (15, 3, 15) :=
  ⟨by decide,
   GetAge_eq_CalculateDifference GoEnv.sample _ _ _ "" (by decide),
   by decide⟩

/-! ## the borrowed month -/

/-- C24 fails in the code: from 31 January 2023 to 30 March 2023 (midnight, UTC) the
day difference -1 is negative, a month is borrowed, and the days added are those of the
month of `end.AddDate(0, -1, 0)`.  That date is "30 February", which `AddDate`
normalises to 2 March, so 31 days are added and `Days` is 30, not `-1 + 28 = 27`. -/
theorem borrowed_month_wrong (rt : GoEnv) :
    ((DateTimeCalc.mk (Date 2023 1 31 0 0 0 0 UTC) (Date 2023 3 30 0 0 0 0 UTC)
        "").CalculateDifference rt).Years = 0 ∧
    ((DateTimeCalc.mk (Date 2023 1 31 0 0 0 0 UTC) (Date 2023 3 30 0 0 0 0 UTC)
        "").CalculateDifference rt).Months = 1 ∧
    ((DateTimeCalc.mk (Date 2023 1 31 0 0 0 0 UTC) (Date 2023 3 30 0 0 0 0 UTC)
        "").CalculateDifference rt).Days = 30 ∧
    (Date 2023 3 30 0 0 0 0 UTC).Day - (Date 2023 1 31 0 0 0 0 UTC).Day = -1 ∧
    daysInMonth 2023 2 = 28 ∧
    ((Date 2023 3 30 0 0 0 0 UTC).AddDate 0 (-1) 0).Month = 3 ∧
    ((Date 2023 3 30 0 0 0 0 UTC).AddDate 0 (-1) 0).Day = 2 ∧
    daysInMonth 2023 3 = 31 := by
  simp only [DateTimeCalc.CalculateDifference]
  decide

/-! ## loops over days -/

theorem Apia_AddDate_fixed :
    (Date 2011 12 29 0 0 0 0 Apia).AddDate 0 0 1 = Date 2011 12 29 0 0 0 0 Apia := by
  rfl

theorem workingDaysLoop_Apia (b : Bool) (stop : Time)
    (h : (Date 2011 12 29 0 0 0 0 Apia).After stop = false) (fuel : Nat) :
    ∀ count, DateTimeCalc.workingDaysLoop b stop fuel (Date 2011 12 29 0 0 0 0 Apia) count =
      none := by
  induction fuel with
  | zero => intro count; rfl
  | succ f ih =>
    intro count
    unfold DateTimeCalc.workingDaysLoop
    rw [h, Apia_AddDate_fixed]
    simp only [Bool.false_eq_true, if_false]
    exact ih _

theorem nextWeekdayLoop_Apia (w : Weekday) (h : w ≠ Thursday) (fuel : Nat) :
    DateTimeCalc.nextWeekdayLoop w fuel (Date 2011 12 29 0 0 0 0 Apia) = none := by
  have hw : (Date 2011 12 29 0 0 0 0 Apia).Weekday = Thursday := by decide
  induction fuel with
  | zero => rfl
  | succ f ih =>
    unfold DateTimeCalc.nextWeekdayLoop
    simp only [Apia_AddDate_fixed, hw]
    rw [if_neg (fun h2 => h h2.symm)]
    exact ih


/-- C22 fails in the code: the loop of `GetWorkingDays` ends only if `AddDate(0, 0, 1)`
moves forward.  In `Pacific/Apia` the local calendar has no 30 December 2011, and for
midnight of 29 December 2011 `AddDate(0, 0, 1)` returns the very same instant; with that
`StartDate` and a later `EndDate` no number of iterations ends the loop.  (In UTC the
week from Monday 1 January 2024 to Sunday 7 January 2024 counts 7 days, 5 of them
working days.) -/
theorem GetWorkingDays_no_result (fuel : Nat) (excludeWeekends : Bool) :
    (Date 2011 12 29 0 0 0 0 Apia).ns = 1325152800000000000 ∧
    ((Date 2011 12 29 0 0 0 0 Apia).AddDate 0 0 1).ns = 1325152800000000000 ∧
    (Date 2012 1 7 0 0 0 0 Apia).ns = 1325844000000000000 ∧
    (DateTimeCalc.mk (Date 2011 12 29 0 0 0 0 Apia) (Date 2012 1 7 0 0 0 0 Apia)
      "").GetWorkingDays fuel excludeWeekends = none ∧
    (DateTimeCalc.mk (Date 2024 1 1 0 0 0 0 UTC) (Date 2024 1 7 0 0 0 0 UTC)
      "").GetWorkingDays 8 false = some 7 ∧
    (DateTimeCalc.mk (Date 2024 1 1 0 0 0 0 UTC) (Date 2024 1 7 0 0 0 0 UTC)
      "").GetWorkingDays 8 true = some 5 := by
  refine ⟨by decide, by decide, by decide, ?_, by decide, by decide⟩
  have hb : (Date 2012 1 7 0 0 0 0 Apia).Before (Date 2011 12 29 0 0 0 0 Apia) = false := by
    decide
  unfold DateTimeCalc.GetWorkingDays
  simp only [hb, Bool.false_eq_true, if_false]
  exact workingDaysLoop_Apia excludeWeekends _ (by decide) fuel 0

/-- C30 fails in the code: the loop of `GetNextWeekday` ends only if `AddDate(0, 0, 1)`
moves forward.  For midnight of Thursday 29 December 2011 in `Pacific/Apia`, where the
local calendar has no 30 December, `AddDate(0, 0, 1)` returns the same instant, so the
search for a Friday never ends, whatever the number of iterations.  (In UTC the Monday
after Monday 1 January 2024 is found in 7 steps, the Monday before it likewise.) -/
theorem GetNextWeekday_no_result (fuel : Nat) :
    (Date 2011 12 29 0 0 0 0 Apia).Weekday = Thursday ∧
    ((Date 2011 12 29 0 0 0 0 Apia).AddDate 0 0 1).ns = (Date 2011 12 29 0 0 0 0 Apia).ns ∧
    (DateTimeCalc.mk (Date 2011 12 29 0 0 0 0 Apia) (Date 2011 12 29 0 0 0 0 Apia)
      "").GetNextWeekday fuel Friday = none ∧
    ((DateTimeCalc.mk (Date 2024 1 1 0 0 0 0 UTC) (Date 2024 1 1 0 0 0 0 UTC)
      "").GetNextWeekday 7 Monday).map (fun t => (t.Year, t.Month, t.Day)) =
      some (2024, 1, 8) ∧
    ((DateTimeCalc.mk (Date 2024 1 1 0 0 0 0 UTC) (Date 2024 1 1 0 0 0 0 UTC)
      "").GetPreviousWeekday 7 Monday).map (fun t => (t.Year, t.Month, t.Day)) =
      some (2023, 12, 25) := by
  refine ⟨by decide, by decide, ?_, by decide, by decide⟩
  unfold DateTimeCalc.GetNextWeekday
  exact nextWeekdayLoop_Apia Friday (by decide) fuel

end SwitchCalc
